import Mathlib

/-!
# chenpkg/schema: the table-definition compiler

A shallow embedding of the Go package `schema` (blueprint.go, column.go,
consts.go, grammar.go, grammar_compile.go, util.go) and theorems about it.

Conventions of the embedding.

* A Go `string` is a Lean `String`, read as its sequence of Unicode code
  points.
* `interface{}` values stored in a `Map` are values of the type `Value`: the
  dynamic types the package itself stores (`int`, `string`, `bool`,
  `[]string`).
* A Go `map[string]interface{}` is an association list read through its first
  binding of a key; the package never ranges over a map. A map is never nil:
  the package gives every column and command it creates a map literal.
* A panic (failed type assertion, reflective call of a missing method) is the
  result `none` of a function that can only return or panic. `Compile` can
  also end by calling itself without bound, and `ToSql` ends as the calls of
  `Compile` it makes: their result is an `Outcome`, which tells the three ends
  apart.
* Pointers to columns and commands held by a blueprint are replaced by explicit
  state passing: a function that mutates them returns the new blueprint or
  command.
* Two functions of the Go standard library depend on tables that are not part
  of the package and are taken as parameters: `toLowerRune`, the rune mapping
  `unicode.ToLower` applied by `strings.ToLower`, and `marshalStrings`, the
  text produced for a `[]string` by the reflective branch of `convString`
  (`encoding/json`).
-/

namespace Schema

/-! ## consts.go -/

def commandCreate : String := "create"
def commandAdd : String := "add"
def commandChange : String := "change"
def commandDrop : String := "drop"
def commandDropColumn : String := "dropColumn"
def commandRename : String := "rename"
def commandRenameColumn : String := "renameColumn"
def commandDropIfExists : String := "dropIfExists"
def commandPrimary : String := "primary"
def commandUnique : String := "unique"
def commandIndex : String := "index"
def commandComment : String := "tableComment"

def commandAttrIndex : String := "index"
def commandAttrAlgorithm : String := "algorithm"
def commandAttrColumns : String := "columns"
def commandAttrComment : String := "comment"
def commandAttrFrom : String := "from"
def commandAttrTo : String := "to"

def ColumnTypeChar : String := "char"
def ColumnTypeVarchar : String := "varchar"
def ColumnTypeTinyText : String := "tinytext"
def ColumnTypeText : String := "text"
def ColumnTypeMediumText : String := "mediumtext"
def ColumnTypeLongText : String := "longtext"
def ColumnTypeInt : String := "int"
def ColumnTypeTinyInt : String := "tinyint"
def ColumnTypeBoolean : String := "boolean"
def ColumnTypeSmallInt : String := "smallint"
def ColumnTypeMediumInt : String := "mediumint"
def ColumnTypeBigInt : String := "bigint"
def ColumnTypeFloat : String := "float"
def ColumnTypeDouble : String := "double"
def ColumnTypeDecimal : String := "decimal"
def ColumnTypeEnum : String := "enum"
def ColumnTypeSet : String := "set"
def ColumnTypeJson : String := "json"
def ColumnTypeDate : String := "date"
def ColumnTypeDateTime : String := "datetime"
def ColumnTypeTime : String := "time"
def ColumnTypeTimestamp : String := "timestamp"
def ColumnTypeYear : String := "year"
def ColumnTypeBinary : String := "binary"
def ColumnTypeBlob : String := "blob"
def ColumnTypeUuid : String := "uuid"

def ColumnAttrPrimary : String := "primary"
def ColumnAttrUnique : String := "unique"
def ColumnAttrIndex : String := "index"
def ColumnAttrComment : String := "comment"
def ColumnAttrDefault : String := "default"
def ColumnAttrNullable : String := "nullable"
def ColumnAttrLength : String := "length"
def ColumnAttrTotal : String := "total"
def ColumnAttrPlaces : String := "places"
def ColumnAttrAllowed : String := "allowed"
def ColumnAttrChange : String := "change"
def ColumnAttrAutoIncrement : String := "autoIncrement"
def ColumnAttrUnsigned : String := "unsigned"
def ColumnAttrCharset : String := "charset"
def ColumnAttrCollate : String := "collate"

def DefaultPrefix : String := ""
def DefaultEngine : String := "InnoDB"
def DefaultCharset : String := "utf8mb4"
def DefaultCollation : String := "utf8mb4_unicode_ci"
def DefaultStringLength : Int := 255

/-- The dynamic value of an `interface{}` stored in a `Map`. -/
inductive Value where
  | int (n : Int)
  | str (s : String)
  | bool (b : Bool)
  | strs (l : List String)
  deriving DecidableEq, Repr

/-- The Go alias `Map = map[string]interface{}`. -/
abbrev Map := List (String × Value)

/-- Reading `m[key]` with the comma-ok form: `none` when the key is absent. -/
def Map.get (m : Map) (key : String) : Option Value :=
  match m with
  | [] => none
  | (k, v) :: rest => if k = key then some v else Map.get rest key

/-- The assignment `m[key] = v`. -/
def Map.set (m : Map) (key : String) (v : Value) : Map :=
  match m with
  | [] => [(key, v)]
  | (k, w) :: rest => if k = key then (k, v) :: rest else (k, w) :: Map.set rest key v

/-- How a call of `Compile` or of `ToSql` ends: it returns a value, it panics, or
it runs into a call of `Compile` that calls itself with the same arguments again
and again, until the stack of the goroutine overflows and the runtime ends the
process. -/
inductive Outcome (α : Type) where
  | returns (value : α)
  | panics
  | overflows
  deriving DecidableEq, Repr

/-- The outcome of a call that can only return or panic. -/
def Outcome.ofOption {α : Type} : Option α → Outcome α
  | some value => Outcome.returns value
  | none => Outcome.panics

/-- The outcome with a function applied to the value returned. -/
def Outcome.map {α β : Type} (f : α → β) : Outcome α → Outcome β
  | Outcome.returns value => Outcome.returns (f value)
  | Outcome.panics => Outcome.panics
  | Outcome.overflows => Outcome.overflows

/-- The outcome of a call followed by a second call on the value returned. -/
def Outcome.bind {α β : Type} (o : Outcome α) (f : α → Outcome β) : Outcome β :=
  match o with
  | Outcome.returns value => f value
  | Outcome.panics => Outcome.panics
  | Outcome.overflows => Outcome.overflows

structure Command where
  Name : String
  Attributes : Map
  deriving DecidableEq, Repr

/-! ## column.go -/

/-- The struct `Column`; the field `Type` is spelled `Type_`. -/
structure Column where
  Type_ : String
  Name : String
  Attributes : Map
  deriving DecidableEq, Repr

/-! ## schema.go -/

/-- The struct `Config` without its database handle. -/
structure Config where
  Database : String
  Prefix : String
  Engine : String
  Charset : String
  Collation : String
  StringLength : Int
  deriving DecidableEq, Repr

/-! ## util.go -/

/-- The generic `ternary`. -/
def ternary {α : Type} (operation : Bool) (a b : α) : α :=
  if operation then a else b

/-- The generic `varDef` with the one default every call site passes: the first
element of the variadic `value`, or the default. -/
def varDef {α : Type} (value : List α) (d : α) : α :=
  match value with
  | v :: _ => v
  | [] => d

/-- The generic `inArray`. -/
def inArray {α : Type} [DecidableEq α] (needle : α) (haystack : List α) : Bool :=
  match haystack with
  | [] => false
  | v :: rest => if needle = v then true else inArray needle rest

/-- The loop of `unique`: `result` is the slice built so far. -/
def uniqueLoop {α : Type} [DecidableEq α] (result : List α) : List α → List α
  | [] => result
  | x :: rest =>
    if !inArray x result then uniqueLoop (result ++ [x]) rest else uniqueLoop result rest

/-- The generic `unique`. -/
def unique {α : Type} [DecidableEq α] (arr : List α) : List α :=
  uniqueLoop [] arr

/-- The generic `filter`. -/
def filter {α : Type} (arr : List α) (callback : α → Bool) : List α :=
  match arr with
  | [] => []
  | v :: rest => if callback v then v :: filter rest callback else filter rest callback

/-- The generic `arrMap`. -/
def arrMap {α : Type} (arr : List α) (callback : α → α) : List α :=
  match arr with
  | [] => []
  | v :: rest => callback v :: arrMap rest callback

/-- The scan of `strings.Replace(s, old, new, -1)` over the code points of `s`:
`skip` counts the code points of a match still to be passed over. -/
def replaceScan (old new : List Char) : Nat → List Char → List Char
  | _, [] => if old = [] then new else []
  | skip + 1, _ :: cs => replaceScan old new skip cs
  | 0, c :: cs =>
    if old = [] then new ++ c :: replaceScan old new 0 cs
    else if old.isPrefixOf (c :: cs) then new ++ replaceScan old new (old.length - 1) cs
    else c :: replaceScan old new 0 cs

/-- The library call `strings.Replace(s, old, new, -1)`. -/
def stringsReplace (s old new : String) : String :=
  String.mk (replaceScan old.data new.data 0 s.data)

/-- The function `replaceByArray`: the pairs of `array` are applied in order, a
trailing unpaired element is ignored. -/
def replaceByArray (origin : String) : List String → String
  | a :: b :: rest => replaceByArray (stringsReplace origin a b) rest
  | _ => origin

/-- The library call `strings.ToLower`, over the rune mapping `toLowerRune`. -/
def stringsToLower (toLowerRune : Char → Char) (s : String) : String :=
  String.mk (s.data.map toLowerRune)

/-- The library call `strings.Join`. -/
def stringsJoin (elems : List String) (sep : String) : String :=
  match elems with
  | [] => ""
  | [e] => e
  | e :: rest => e ++ sep ++ stringsJoin rest sep

/-- The library call `strings.Trim(s, cutset)`: leading and trailing code points
that occur in `cutset` are removed. -/
def stringsTrim (s cutset : String) : String :=
  String.mk ((s.data.dropWhile (fun c => decide (c ∈ cutset.data))).rdropWhile
    (fun c => decide (c ∈ cutset.data)))

/-- The function `trim`: the default mask the code passes to `varDef` is
`DefaultCharset`. -/
def trim (str : String) (characterMask : List String) : String :=
  stringsTrim str (varDef characterMask DefaultCharset)

/-- The library call `strconv.Itoa`. -/
def strconvItoa (n : Int) : String :=
  match n with
  | Int.ofNat k => Nat.repr k
  | Int.negSucc k => "-" ++ Nat.repr (k + 1)

/-- The function `convString` on the dynamic types of `Value`. -/
def convString (marshalStrings : List String → String) (any : Value) : String :=
  match any with
  | Value.int value => strconvItoa value
  | Value.bool value => if value then "true" else "false"
  | Value.str value => value
  | Value.strs value => marshalStrings value

/-- The function `isLetterLower`, on the first code point of a string. -/
def isLetterLower (b : Char) : Bool :=
  decide ('a'.toNat ≤ b.toNat ∧ b.toNat ≤ 'z'.toNat)

/-- The function `ucFirst`. -/
def ucFirst (s : String) : String :=
  match s.data with
  | [] => s
  | c :: cs => if isLetterLower c then String.mk (Char.ofNat (c.toNat - 32) :: cs) else s

/-! ## column.go: the mutators

A mutator assigns to one key of the receiver's map and returns the receiver: it
is the function from the column before the call to the column after it. -/

/-- The method `Comment` of a column. -/
def Column.Comment (c : Column) (comment : String) : Column :=
  { c with Attributes := c.Attributes.set ColumnAttrComment (Value.str comment) }

/-- The method `Default`. -/
def Column.Default (c : Column) (value : Value) : Column :=
  { c with Attributes := c.Attributes.set ColumnAttrDefault value }

/-- The method `Nullable`; `value` is the variadic argument. -/
def Column.Nullable (c : Column) (value : List Bool) : Column :=
  { c with Attributes := c.Attributes.set ColumnAttrNullable (Value.bool (varDef value true)) }

/-- The method `Primary` of a column. -/
def Column.Primary (c : Column) : Column :=
  { c with Attributes := c.Attributes.set ColumnAttrPrimary (Value.bool true) }

/-- The method `Unique` of a column. -/
def Column.Unique (c : Column) : Column :=
  { c with Attributes := c.Attributes.set ColumnAttrUnique (Value.bool true) }

/-- The method `Index` of a column. -/
def Column.Index (c : Column) : Column :=
  { c with Attributes := c.Attributes.set ColumnAttrIndex (Value.bool true) }

/-- The method `Change`. -/
def Column.Change (c : Column) : Column :=
  { c with Attributes := c.Attributes.set ColumnAttrChange (Value.bool true) }

/-- The method `Charset`. -/
def Column.Charset (c : Column) (charset : String) : Column :=
  { c with Attributes := c.Attributes.set ColumnAttrCharset (Value.str charset) }

/-- The method `Collation`. -/
def Column.Collation (c : Column) (collation : String) : Column :=
  { c with Attributes := c.Attributes.set ColumnAttrCollate (Value.str collation) }

/-! ## blueprint.go -/

/-- The struct `Blueprint` without its context. -/
structure Blueprint where
  Prefix : String
  Engine : String
  Charset : String
  Collation : String
  table : String
  columns : List Column
  commands : List Command
  config : Config
  deriving DecidableEq, Repr

/-- The method `GetTable`. -/
def Blueprint.GetTable (b : Blueprint) : String := b.table

/-- The method `getAddedColumns`. -/
def Blueprint.getAddedColumns (b : Blueprint) : List Column :=
  filter b.columns (fun v => decide (v.Attributes.get ColumnAttrChange ≠ some (Value.bool true)))

/-- The method `getChangedColumns`. -/
def Blueprint.getChangedColumns (b : Blueprint) : List Column :=
  filter b.columns (fun v => decide (v.Attributes.get ColumnAttrChange = some (Value.bool true)))

/-- The method `creating`. -/
def Blueprint.creating (b : Blueprint) : Bool :=
  b.commands.any (fun command => decide (command.Name = commandCreate))

/-- The method `createCommand`; `parameters` is the variadic argument. -/
def Blueprint.createCommand (_b : Blueprint) (name : String) (parameters : List Map) : Command :=
  { Name := name, Attributes := varDef parameters [] }

/-- The method `addCommand`. -/
def Blueprint.addCommand (b : Blueprint) (name : String) (parameters : List Map) : Blueprint :=
  { b with commands := b.commands ++ [b.createCommand name parameters] }

/-- The method `createIndexName`. -/
def Blueprint.createIndexName (toLowerRune : Char → Char) (b : Blueprint) (t : String)
    (columns : List String) : String :=
  replaceByArray
    (stringsToLower toLowerRune
      (b.config.Prefix ++ b.table ++ "_" ++ stringsJoin columns "_" ++ "_" ++ t))
    ["-", "_", ".", "_"]

/-- The method `indexCommand`: `columns` is the `interface{}` argument, tried
first as a `string`, then as a `[]string`. -/
def Blueprint.indexCommand (toLowerRune : Char → Char) (b : Blueprint) (t : String)
    (columns : Value) (algorithm : List String) : Blueprint :=
  let b :=
    match columns with
    | Value.str column =>
      b.addCommand t [[(commandAttrIndex, Value.str (b.createIndexName toLowerRune t [column])),
        (commandAttrAlgorithm, Value.str (varDef algorithm "")),
        (commandAttrColumns, Value.strs [column])]]
    | _ => b
  match columns with
  | Value.strs column =>
    b.addCommand t [[(commandAttrIndex, Value.str (b.createIndexName toLowerRune t column)),
      (commandAttrAlgorithm, Value.str (varDef algorithm "")),
      (commandAttrColumns, Value.strs column)]]
  | _ => b

/-- The method `Primary` of the blueprint. -/
def Blueprint.Primary (toLowerRune : Char → Char) (b : Blueprint) (columns : Value)
    (algorithm : List String) : Blueprint :=
  b.indexCommand toLowerRune commandPrimary columns algorithm

/-- The method `Unique` of the blueprint. -/
def Blueprint.Unique (toLowerRune : Char → Char) (b : Blueprint) (columns : Value)
    (algorithm : List String) : Blueprint :=
  b.indexCommand toLowerRune commandUnique columns algorithm

/-- The method `Index` of the blueprint. -/
def Blueprint.Index (toLowerRune : Char → Char) (b : Blueprint) (columns : Value)
    (algorithm : List String) : Blueprint :=
  b.indexCommand toLowerRune commandIndex columns algorithm

/-- The method `DropColumn`. -/
def Blueprint.DropColumn (b : Blueprint) (columns : List String) : Blueprint :=
  if columns.length = 0 then b
  else b.addCommand commandDropColumn [[(commandAttrColumns, Value.strs columns)]]

/-- The method `Rename`. -/
def Blueprint.Rename (b : Blueprint) (to_ : String) : Blueprint :=
  b.addCommand commandRename [[(commandAttrTo, Value.str to_)]]

/-- The method `Comment` of the blueprint. -/
def Blueprint.Comment (b : Blueprint) (comment : String) : Blueprint :=
  b.addCommand commandComment [[(commandAttrComment, Value.str comment)]]

/-- The method `create`. -/
def Blueprint.create (b : Blueprint) : Blueprint := b.addCommand commandCreate []

/-- The method `drop`. -/
def Blueprint.drop (b : Blueprint) : Blueprint := b.addCommand commandDrop []

/-- The method `dropIfExists`. -/
def Blueprint.dropIfExists (b : Blueprint) : Blueprint := b.addCommand commandDropIfExists []

/-- The inner loop of `addFluentIndexes` for one column: `indexes` is the rest of
the slice being ranged over and `continue2` the flag of the same name. The
result is the blueprint with the appended command, the column with the marker
overwritten, and the flag. -/
def Blueprint.fluentIndexLoop (toLowerRune : Char → Char) (b : Blueprint) (column : Column)
    (continue2 : Bool) : List String → Blueprint × Column × Bool
  | [] => (b, column, continue2)
  | index :: rest =>
    if continue2 then Blueprint.fluentIndexLoop toLowerRune b column continue2 rest
    else
      match column.Attributes.get index with
      | some _ =>
        let b :=
          if index = commandPrimary then b.Primary toLowerRune (Value.str column.Name) []
          else if index = commandUnique then b.Unique toLowerRune (Value.str column.Name) []
          else if index = commandIndex then b.Index toLowerRune (Value.str column.Name) []
          else b
        let column := { column with Attributes := column.Attributes.set index (Value.bool false) }
        Blueprint.fluentIndexLoop toLowerRune b column true rest
      | none => Blueprint.fluentIndexLoop toLowerRune b column continue2 rest

/-- The outer loop of `addFluentIndexes`: `done` holds the columns already
visited, in order. -/
def Blueprint.fluentColumnsLoop (toLowerRune : Char → Char) (b : Blueprint)
    (done : List Column) : List Column → Blueprint × List Column
  | [] => (b, done)
  | column :: rest =>
    let r := Blueprint.fluentIndexLoop toLowerRune b column false
      [commandPrimary, commandUnique, commandIndex]
    Blueprint.fluentColumnsLoop toLowerRune r.1 (done ++ [r.2.1]) rest

/-- The method `addFluentIndexes`. -/
def Blueprint.addFluentIndexes (toLowerRune : Char → Char) (b : Blueprint) : Blueprint :=
  let r := Blueprint.fluentColumnsLoop toLowerRune b [] b.columns
  { r.1 with columns := r.2 }

/-- The method `addImpliedCommands`. -/
def Blueprint.addImpliedCommands (toLowerRune : Char → Char) (b : Blueprint) : Blueprint :=
  let b :=
    if !b.creating && decide (b.getAddedColumns.length > 0) then b.addCommand commandAdd []
    else b
  let b :=
    if !b.creating && decide (b.getChangedColumns.length > 0) then b.addCommand commandChange []
    else b
  b.addFluentIndexes toLowerRune

/-! ## blueprint.go: the column builders

A builder appends a column to the blueprint and returns it: the result is the
blueprint after the call and the column created. -/

/-- The method `AddColumn`; `parameters` is the variadic argument. -/
def Blueprint.AddColumn (b : Blueprint) (types name : String) (parameters : List Map) :
    Blueprint × Column :=
  let column : Column := { Type_ := types, Name := name, Attributes := varDef parameters [] }
  ({ b with columns := b.columns ++ [column] }, column)

/-- The method `getAutoIncrementAndUnsignedMap`. -/
def Blueprint.getAutoIncrementAndUnsignedMap (_b : Blueprint)
    (autoIncrementAndUnsigned : List Bool) : Map :=
  let flags : Bool × Bool :=
    match autoIncrementAndUnsigned with
    | [autoIncrement, unsigned] => (autoIncrement, unsigned)
    | [autoIncrement] => (autoIncrement, false)
    | _ => (false, false)
  [(ColumnAttrAutoIncrement, Value.bool flags.1), (ColumnAttrUnsigned, Value.bool flags.2)]

/-- The method `Int`. -/
def Blueprint.Int (b : Blueprint) (column : String) (autoIncrementAndUnsigned : List Bool) :
    Blueprint × Column :=
  b.AddColumn ColumnTypeInt column [b.getAutoIncrementAndUnsignedMap autoIncrementAndUnsigned]

/-- The method `TinyInt`. -/
def Blueprint.TinyInt (b : Blueprint) (column : String) (autoIncrementAndUnsigned : List Bool) :
    Blueprint × Column :=
  b.AddColumn ColumnTypeTinyInt column [b.getAutoIncrementAndUnsignedMap autoIncrementAndUnsigned]

/-- The method `SmallInt`. -/
def Blueprint.SmallInt (b : Blueprint) (column : String) (autoIncrementAndUnsigned : List Bool) :
    Blueprint × Column :=
  b.AddColumn ColumnTypeSmallInt column [b.getAutoIncrementAndUnsignedMap autoIncrementAndUnsigned]

/-- The method `MediumInt`. -/
def Blueprint.MediumInt (b : Blueprint) (column : String) (autoIncrementAndUnsigned : List Bool) :
    Blueprint × Column :=
  b.AddColumn ColumnTypeMediumInt column
    [b.getAutoIncrementAndUnsignedMap autoIncrementAndUnsigned]

/-- The method `BigInt`. -/
def Blueprint.BigInt (b : Blueprint) (column : String) (autoIncrementAndUnsigned : List Bool) :
    Blueprint × Column :=
  b.AddColumn ColumnTypeBigInt column [b.getAutoIncrementAndUnsignedMap autoIncrementAndUnsigned]

/-- The method `UnsignedInt`; `autoIncrement` is the variadic argument. -/
def Blueprint.UnsignedInt (b : Blueprint) (column : String) (autoIncrement : List Bool) :
    Blueprint × Column :=
  b.Int column [varDef autoIncrement false, true]

/-- The method `UnsignedTinyInt`. -/
def Blueprint.UnsignedTinyInt (b : Blueprint) (column : String) (autoIncrement : List Bool) :
    Blueprint × Column :=
  b.TinyInt column [varDef autoIncrement false, true]

/-- The method `UnsignedSmallInt`. -/
def Blueprint.UnsignedSmallInt (b : Blueprint) (column : String) (autoIncrement : List Bool) :
    Blueprint × Column :=
  b.SmallInt column [varDef autoIncrement false, true]

/-- The method `UnsignedMediumInt`. -/
def Blueprint.UnsignedMediumInt (b : Blueprint) (column : String) (autoIncrement : List Bool) :
    Blueprint × Column :=
  b.MediumInt column [varDef autoIncrement false, true]

/-- The method `UnsignedBigInt`. -/
def Blueprint.UnsignedBigInt (b : Blueprint) (column : String) (autoIncrement : List Bool) :
    Blueprint × Column :=
  b.BigInt column [varDef autoIncrement false, true]

/-- The method `Increments`. -/
def Blueprint.Increments (b : Blueprint) (column : String) : Blueprint × Column :=
  b.UnsignedInt column [true]

/-- The method `BigIncrements`. -/
def Blueprint.BigIncrements (b : Blueprint) (column : String) : Blueprint × Column :=
  b.UnsignedBigInt column [true]

/-- The method `Id`; `column` is the variadic argument. -/
def Blueprint.Id (b : Blueprint) (column : List String) : Blueprint × Column :=
  b.BigIncrements (varDef column "id")

/-! In the builders below `ℤ` is the type of a Go `int`. -/

/-- The method `Varchar`. -/
def Blueprint.Varchar (b : Blueprint) (column : String) (length : List ℤ) :
    Blueprint × Column :=
  b.AddColumn ColumnTypeVarchar column
    [[(ColumnAttrLength, Value.int (varDef length DefaultStringLength))]]

/-- The method `TinyText`. -/
def Blueprint.TinyText (b : Blueprint) (column : String) : Blueprint × Column :=
  b.AddColumn ColumnTypeTinyText column []

/-- The method `Text`. -/
def Blueprint.Text (b : Blueprint) (column : String) : Blueprint × Column :=
  b.AddColumn ColumnTypeText column []

/-- The method `MediumText`. -/
def Blueprint.MediumText (b : Blueprint) (column : String) : Blueprint × Column :=
  b.AddColumn ColumnTypeMediumText column []

/-- The method `LongText`. -/
def Blueprint.LongText (b : Blueprint) (column : String) : Blueprint × Column :=
  b.AddColumn ColumnTypeLongText column []

/-- The method `Boolean`. -/
def Blueprint.Boolean (b : Blueprint) (column : String) : Blueprint × Column :=
  b.AddColumn ColumnTypeBoolean column []

/-- The method `Float`; `unsigned` is the variadic argument. -/
def Blueprint.Float (b : Blueprint) (column : String) (total places : ℤ)
    (unsigned : List Bool) : Blueprint × Column :=
  b.AddColumn ColumnTypeFloat column
    [[(ColumnAttrTotal, Value.int total), (ColumnAttrPlaces, Value.int places),
      (ColumnAttrUnsigned, Value.bool (varDef unsigned false))]]

/-- The method `Double`. -/
def Blueprint.Double (b : Blueprint) (column : String) (total places : ℤ)
    (unsigned : List Bool) : Blueprint × Column :=
  b.AddColumn ColumnTypeDouble column
    [[(ColumnAttrTotal, Value.int total), (ColumnAttrPlaces, Value.int places),
      (ColumnAttrUnsigned, Value.bool (varDef unsigned false))]]

/-- The method `Decimal`. -/
def Blueprint.Decimal (b : Blueprint) (column : String) (total places : ℤ)
    (unsigned : List Bool) : Blueprint × Column :=
  b.AddColumn ColumnTypeDecimal column
    [[(ColumnAttrTotal, Value.int total), (ColumnAttrPlaces, Value.int places),
      (ColumnAttrUnsigned, Value.bool (varDef unsigned false))]]

/-- The method `UnsignedFloat`. -/
def Blueprint.UnsignedFloat (b : Blueprint) (column : String) (total places : ℤ) :
    Blueprint × Column :=
  b.Float column total places [true]

/-- The method `UnsignedDouble`. -/
def Blueprint.UnsignedDouble (b : Blueprint) (column : String) (total places : ℤ) :
    Blueprint × Column :=
  b.Double column total places [true]

/-- The method `UnsignedDecimal`. -/
def Blueprint.UnsignedDecimal (b : Blueprint) (column : String) (total places : ℤ) :
    Blueprint × Column :=
  b.Decimal column total places [true]

/-- The method `Enum`. -/
def Blueprint.Enum (b : Blueprint) (column : String) (allowed : List String) :
    Blueprint × Column :=
  b.AddColumn ColumnTypeEnum column [[(ColumnAttrAllowed, Value.strs allowed)]]

/-- The method `Set`. -/
def Blueprint.Set (b : Blueprint) (column : String) (allowed : List String) :
    Blueprint × Column :=
  b.AddColumn ColumnTypeSet column [[(ColumnAttrAllowed, Value.strs allowed)]]

/-- The method `Json`. -/
def Blueprint.Json (b : Blueprint) (column : String) : Blueprint × Column :=
  b.AddColumn ColumnTypeJson column []

/-- The method `Date`. -/
def Blueprint.Date (b : Blueprint) (column : String) : Blueprint × Column :=
  b.AddColumn ColumnTypeDate column []

/-- The method `DateTime`. -/
def Blueprint.DateTime (b : Blueprint) (column : String) : Blueprint × Column :=
  b.AddColumn ColumnTypeDateTime column []

/-- The method `Time`. -/
def Blueprint.Time (b : Blueprint) (column : String) : Blueprint × Column :=
  b.AddColumn ColumnTypeTime column []

/-- The method `Timestamp`. -/
def Blueprint.Timestamp (b : Blueprint) (column : String) : Blueprint × Column :=
  b.AddColumn ColumnTypeTimestamp column []

/-- A mutator called on the column a builder has just returned: the blueprint
holds that same column as its last one, so the mutation shows there too. -/
def mutateReturned (r : Blueprint × Column) (mutator : Column → Column) : Blueprint × Column :=
  ({ r.1 with columns := r.1.columns.dropLast ++ [mutator r.2] }, mutator r.2)

/-- The method `Timestamps`. -/
def Blueprint.Timestamps (b : Blueprint) : Blueprint :=
  let b := (mutateReturned (b.Timestamp "created_at") (fun c => c.Nullable [])).1
  (mutateReturned (b.Timestamp "updated_at") (fun c => c.Nullable [])).1

/-- The method `SoftDeletes`. -/
def Blueprint.SoftDeletes (b : Blueprint) : Blueprint × Column :=
  mutateReturned (b.Timestamp "deleted_at") (fun c => c.Nullable [])

/-- The method `Year`. -/
def Blueprint.Year (b : Blueprint) (column : String) : Blueprint × Column :=
  b.AddColumn ColumnTypeYear column []

/-- The method `Binary`. -/
def Blueprint.Binary (b : Blueprint) (column : String) : Blueprint × Column :=
  b.AddColumn ColumnTypeBinary column []

/-- The method `Blob`. -/
def Blueprint.Blob (b : Blueprint) (column : String) : Blueprint × Column :=
  b.AddColumn ColumnTypeBinary column []

/-- The method `Uuid`. -/
def Blueprint.Uuid (b : Blueprint) (column : String) : Blueprint × Column :=
  b.AddColumn ColumnTypeUuid column []

set_option linter.dupNamespace false

/-- The struct `Schema` of schema.go without its context. -/
structure Schema where
  config : Config
  deriving DecidableEq, Repr

/-- The function `NewSchema`. -/
def NewSchema (config : Config) : Schema := { config := config }

/-- The function `NewBlueprint`; `callback` is the variadic argument, a function
that mutates the blueprint it is given. -/
def NewBlueprint (schema : Schema) (table : String) (callback : List (Blueprint → Blueprint)) :
    Blueprint :=
  let blueprint : Blueprint :=
    { Prefix := schema.config.Prefix,
      Engine := ternary (decide (schema.config.Engine = "")) DefaultEngine schema.config.Engine,
      Charset := ternary (decide (schema.config.Charset = "")) DefaultCharset schema.config.Charset,
      Collation :=
        ternary (decide (schema.config.Collation = "")) DefaultCollation schema.config.Collation,
      table := table,
      columns := [],
      commands := [],
      config := schema.config }
  match callback with
  | f :: _ => f blueprint
  | [] => blueprint

/-! ## grammar.go -/

/-- The method `quoteString`. -/
def quoteString (value : List String) : String :=
  stringsJoin (arrMap value (fun v => "'" ++ v ++ "'")) ", "

/-- The method `GetType`; `none` is the panic of a failed type assertion. -/
def GetType (column : Column) : Option String :=
  if column.Type_ = ColumnTypeChar then
    match column.Attributes.get ColumnAttrLength with
    | some (Value.int length) => some (column.Type_ ++ "(" ++ strconvItoa length ++ ")")
    | _ => none
  else if column.Type_ = ColumnTypeVarchar then
    match column.Attributes.get ColumnAttrLength with
    | some (Value.int length) => some (column.Type_ ++ "(" ++ strconvItoa length ++ ")")
    | _ => none
  else if inArray column.Type_ [ColumnTypeTinyText, ColumnTypeText, ColumnTypeMediumText,
      ColumnTypeLongText, ColumnTypeBigInt, ColumnTypeInt, ColumnTypeMediumInt,
      ColumnTypeTinyInt, ColumnTypeSmallInt, ColumnTypeJson, ColumnTypeDate,
      ColumnTypeDateTime, ColumnTypeTime, ColumnTypeTimestamp, ColumnTypeYear,
      ColumnTypeBinary, ColumnTypeBlob] then
    some column.Type_
  else if inArray column.Type_ [ColumnTypeFloat, ColumnTypeDouble, ColumnTypeDecimal] then
    match column.Attributes.get ColumnAttrTotal with
    | some (Value.int total) =>
      match column.Attributes.get ColumnAttrPlaces with
      | some (Value.int places) =>
        let t := if column.Type_ = ColumnTypeFloat then ColumnTypeDouble else column.Type_
        some (t ++ "(" ++ strconvItoa total ++ ", " ++ strconvItoa places ++ ")")
      | _ => none
    | _ => none
  else if column.Type_ = ColumnTypeEnum then
    match column.Attributes.get ColumnAttrAllowed with
    | some (Value.strs allowed) =>
      some ("enum(" ++ quoteString allowed ++ ")")
    | _ => none
  else if column.Type_ = ColumnTypeSet then
    match column.Attributes.get ColumnAttrAllowed with
    | some (Value.strs allowed) =>
      some ("set(" ++ quoteString allowed ++ ")")
    | _ => none
  else if column.Type_ = ColumnTypeUuid then some (ColumnTypeChar ++ "(36)")
  else if column.Type_ = ColumnTypeBoolean then some (ColumnTypeTinyInt ++ "(1)")
  else some ""

/-- The method `addModifiers`; `none` is the panic of a failed type assertion. -/
def addModifiers (marshalStrings : List String → String) (sql : String)
    (_blueprint : Blueprint) (column : Column) : Option String :=
  -- Unsigned
  let sql :=
    if column.Attributes.get ColumnAttrUnsigned = some (Value.bool true) then
      sql ++ (" " ++ ColumnAttrUnsigned)
    else sql
  -- Charset
  let sql : Option String :=
    match column.Attributes.get ColumnAttrCharset with
    | some (Value.str charset) => some (sql ++ (" character set " ++ charset))
    | some _ => none
    | none => some sql
  -- Collate
  let sql : Option String :=
    sql.bind fun sql =>
      match column.Attributes.get ColumnAttrCollate with
      | some (Value.str collate) => some (sql ++ (" collate '" ++ collate ++ "'"))
      | some _ => none
      | none => some sql
  -- Nullable
  let sql : Option String :=
    sql.bind fun sql =>
      match column.Attributes.get ColumnAttrNullable with
      | some (Value.bool nullable) =>
        if nullable = true then some (sql ++ " null") else some (sql ++ " not null")
      | some _ => none
      | none => some (sql ++ " not null")
  -- Default
  let sql : Option String :=
    sql.map fun sql =>
      match column.Attributes.get ColumnAttrDefault with
      | some d =>
        if d = Value.str "" then sql ++ " default ''"
        else sql ++ (" default '" ++ convString marshalStrings d ++ "'")
      | none => sql
  -- Increment
  let serials := [ColumnTypeBigInt, ColumnTypeInt, ColumnTypeMediumInt, ColumnTypeSmallInt,
    ColumnTypeTinyInt]
  let sql : Option String :=
    sql.map fun sql =>
      if inArray column.Type_ serials
          && decide (column.Attributes.get ColumnAttrAutoIncrement = some (Value.bool true)) then
        sql ++ " auto_increment primary key"
      else sql
  -- Comment
  sql.bind fun sql =>
    match column.Attributes.get ColumnAttrComment with
    | some (Value.str comment) =>
      if comment ≠ "" then some (sql ++ (" comment '" ++ comment ++ "'")) else some sql
    | some _ => none
    | none => some sql

/-- The method `wrap`. -/
def wrap (value : String) : String := "`" ++ value ++ "`"

/-- The method `wrapTable`. -/
def wrapTable (blueprint : Blueprint) : String :=
  wrap (blueprint.Prefix ++ blueprint.GetTable)

/-- The method `prefixStrings`. -/
def prefixStrings (pre : String) (values : List String) : List String :=
  arrMap values (fun v => pre ++ v)

/-- The loop shared by `GetColumns` and `GetChangeColumns`: the definition of
each column, in order. -/
def columnDefinitions (marshalStrings : List String → String) (blueprint : Blueprint) :
    List Column → Option (List String)
  | [] => some []
  | column :: rest =>
    match GetType column with
    | none => none
    | some ty =>
      match addModifiers marshalStrings ("`" ++ column.Name ++ "` " ++ ty) blueprint column with
      | none => none
      | some definition =>
        match columnDefinitions marshalStrings blueprint rest with
        | none => none
        | some columns => some (definition :: columns)

/-- The method `GetColumns`. -/
def GetColumns (marshalStrings : List String → String) (blueprint : Blueprint) :
    Option (List String) :=
  columnDefinitions marshalStrings blueprint blueprint.getAddedColumns

/-- The method `GetChangeColumns`. -/
def GetChangeColumns (marshalStrings : List String → String) (blueprint : Blueprint) :
    Option (List String) :=
  columnDefinitions marshalStrings blueprint blueprint.getChangedColumns

/-! ## grammar_compile.go -/

/-- The method `CompileCreateTable`. -/
def CompileCreateTable (marshalStrings : List String → String) (blueprint : Blueprint) :
    Option String :=
  (GetColumns marshalStrings blueprint).map fun columns =>
    trim ("create" ++ " table " ++ wrapTable blueprint ++ " (" ++ stringsJoin columns ", " ++ ")")
      []

/-- The method `CompileCreateEncoding`. -/
def CompileCreateEncoding (sql : String) (blueprint : Blueprint) : String :=
  let sql :=
    if blueprint.Charset ≠ "" then sql ++ (" default character set " ++ blueprint.Charset)
    else sql ++ (" default character set " ++ DefaultCharset)
  if blueprint.Collation ≠ "" then sql ++ (" collate '" ++ blueprint.Collation ++ "'")
  else sql ++ (" collate '" ++ DefaultCollation ++ "'")

/-- The method `CompileCreateEngine`. -/
def CompileCreateEngine (sql : String) (blueprint : Blueprint) : String :=
  if blueprint.Engine ≠ "" then sql ++ (" engine = " ++ blueprint.Engine)
  else sql ++ (" engine = " ++ DefaultEngine)

/-- The method `CompileCreate`. -/
def CompileCreate (marshalStrings : List String → String) (blueprint : Blueprint)
    (_command : Command) : Option String :=
  (CompileCreateTable marshalStrings blueprint).map fun sql =>
    CompileCreateEngine (CompileCreateEncoding sql blueprint) blueprint

/-- The method `CompileAdd`. -/
def CompileAdd (marshalStrings : List String → String) (blueprint : Blueprint)
    (_command : Command) : Option String :=
  (GetColumns marshalStrings blueprint).map fun cols =>
    "alter table " ++ wrapTable blueprint ++ " " ++ stringsJoin (prefixStrings "add " cols) ", "

/-- The method `CompileChange`. -/
def CompileChange (marshalStrings : List String → String) (blueprint : Blueprint)
    (_command : Command) : Option String :=
  (GetChangeColumns marshalStrings blueprint).map fun cols =>
    "alter table " ++ wrapTable blueprint ++ " " ++ stringsJoin (prefixStrings "modify " cols) ", "

/-- The method `CompileRename`. -/
def CompileRename (blueprint : Blueprint) (command : Command) : Option String :=
  match command.Attributes.get commandAttrTo with
  | some (Value.str to_) =>
    some ("rename table " ++ wrapTable blueprint ++ " to " ++ wrap (blueprint.Prefix ++ to_))
  | _ => none

/-- The method `CompileKey`. -/
def CompileKey (blueprint : Blueprint) (command : Command) (types : String) : Option String :=
  let algorithm : Option String :=
    match command.Attributes.get commandAttrAlgorithm with
    | some (Value.str algo) => if algo ≠ "" then some (" using " ++ algo) else some ""
    | some _ => none
    | none => some ""
  algorithm.bind fun algorithm =>
    match command.Attributes.get commandAttrColumns with
    | some (Value.strs cols) =>
      let columnize := stringsJoin (arrMap cols wrap) ", "
      match command.Attributes.get commandIndex with
      | some (Value.str index) =>
        some (trim ("alter table " ++ wrapTable blueprint ++ " add " ++ types ++ " " ++ index
          ++ algorithm ++ "(" ++ columnize ++ ")") [])
      | _ => none
    | _ => none

/-- The method `CompilePrimary`: the command is returned with the name the method
assigns to it. -/
def CompilePrimary (blueprint : Blueprint) (command : Command) : Option (String × Command) :=
  let command := { command with Name := "" }
  (CompileKey blueprint command "primary key").map fun sql => (sql, command)

/-- The method `CompileUnique`. -/
def CompileUnique (blueprint : Blueprint) (command : Command) : Option String :=
  CompileKey blueprint command "unique"

/-- The method `CompileIndex`. -/
def CompileIndex (blueprint : Blueprint) (command : Command) : Option String :=
  CompileKey blueprint command "index"

/-- The method `CompileDrop`. -/
def CompileDrop (blueprint : Blueprint) (_command : Command) : Option String :=
  some ("drop table " ++ wrapTable blueprint)

/-- The method `CompileDropIfExists`. -/
def CompileDropIfExists (blueprint : Blueprint) (_command : Command) : Option String :=
  some ("drop table if exists " ++ wrapTable blueprint)

/-- The method `CompileDropColumn`. -/
def CompileDropColumn (blueprint : Blueprint) (command : Command) : Option String :=
  match command.Attributes.get commandAttrColumns with
  | some (Value.strs cols) =>
    some ("alter table " ++ wrapTable blueprint ++ " "
      ++ stringsJoin (cols.map fun col => "drop " ++ wrap col) ", ")
  | some _ => none
  | none => some ""

/-- The method `CompileDropPrimary`. -/
def CompileDropPrimary (blueprint : Blueprint) (_command : Command) : Option String :=
  some ("alter table " ++ wrapTable blueprint ++ " drop primary key")

/-- The method `CompileDropUnique`. -/
def CompileDropUnique (blueprint : Blueprint) (command : Command) : Option String :=
  match command.Attributes.get commandAttrIndex with
  | some (Value.str index) => some ("alter table " ++ wrapTable blueprint ++ " drop index" ++ index)
  | _ => none

/-- The method `CompileDropIndex`. -/
def CompileDropIndex (blueprint : Blueprint) (command : Command) : Option String :=
  match command.Attributes.get commandAttrIndex with
  | some (Value.str index) => some ("alter table " ++ wrapTable blueprint ++ " drop index" ++ index)
  | _ => none

/-- The method `CompileTableComment`. -/
def CompileTableComment (blueprint : Blueprint) (command : Command) : Option String :=
  match command.Attributes.get commandAttrComment with
  | some (Value.str comment) =>
    some ("alter table " ++ wrapTable blueprint ++ " comment = "
      ++ ("'" ++ stringsReplace comment "'" "''" ++ "'"))
  | _ => none

/-- The method `Compile`: the method of `Grammar` named `"Compile" + ucFirst(command.Name)`
is called with the blueprint and the command. The value returned is the
statement and the command as the called method leaves it. The call panics when
the called method panics and when no method of that name takes these two
arguments. For the empty name the method found is `Compile` itself, which takes
these two arguments: it is called with the same blueprint and the same command,
finds itself again, and so on without bound. -/
def Compile (marshalStrings : List String → String) (blueprint : Blueprint) (command : Command) :
    Outcome (String × Command) :=
  let name := ucFirst command.Name
  let keep (r : Option String) : Outcome (String × Command) :=
    Outcome.ofOption (r.map fun sql => (sql, command))
  if name = "Create" then keep (CompileCreate marshalStrings blueprint command)
  else if name = "Add" then keep (CompileAdd marshalStrings blueprint command)
  else if name = "Change" then keep (CompileChange marshalStrings blueprint command)
  else if name = "Rename" then keep (CompileRename blueprint command)
  else if name = "Primary" then Outcome.ofOption (CompilePrimary blueprint command)
  else if name = "Unique" then keep (CompileUnique blueprint command)
  else if name = "Index" then keep (CompileIndex blueprint command)
  else if name = "Drop" then keep (CompileDrop blueprint command)
  else if name = "DropIfExists" then keep (CompileDropIfExists blueprint command)
  else if name = "DropColumn" then keep (CompileDropColumn blueprint command)
  else if name = "DropPrimary" then keep (CompileDropPrimary blueprint command)
  else if name = "DropUnique" then keep (CompileDropUnique blueprint command)
  else if name = "DropIndex" then keep (CompileDropIndex blueprint command)
  else if name = "TableComment" then keep (CompileTableComment blueprint command)
  else if name = "" then Outcome.overflows
  else Outcome.panics

/-- The loop of `ToSql`: `done` holds the commands already compiled, as the
compilation left them, and `statements` the statements so far. -/
def Blueprint.compileCommands (marshalStrings : List String → String) (b : Blueprint)
    (done : List Command) (statements : List String) :
    List Command → Outcome (List String × List Command)
  | [] => Outcome.returns (statements, done)
  | command :: rest =>
    match Compile marshalStrings { b with commands := done ++ command :: rest } command with
    | Outcome.returns (statement, command) =>
      Blueprint.compileCommands marshalStrings b (done ++ [command]) (statements ++ [statement]) rest
    | Outcome.panics => Outcome.panics
    | Outcome.overflows => Outcome.overflows

/-- The method `ToSql`: the statements and the blueprint as the call leaves it,
when every command compiles; otherwise the end of the first compilation that
does not return. -/
def Blueprint.ToSql (toLowerRune : Char → Char) (marshalStrings : List String → String)
    (b : Blueprint) : Outcome (List String × Blueprint) :=
  let b := b.addImpliedCommands toLowerRune
  match Blueprint.compileCommands marshalStrings b [] [] b.commands with
  | Outcome.returns (statements, commands) =>
    Outcome.returns (unique statements, { b with commands := commands })
  | Outcome.panics => Outcome.panics
  | Outcome.overflows => Outcome.overflows

/-! ## blueprint.go: the builders `Char` and `String`

They come last because, inside the namespace of the blueprint, their names hide
the types `Char` and `String`. -/

/-- The method `Char`; `length` is the variadic argument. -/
def Blueprint.Char (b : Blueprint) (column : String) (length : List ℤ) : Blueprint × Column :=
  b.AddColumn ColumnTypeChar column
    [[(ColumnAttrLength, Value.int (varDef length DefaultStringLength))]]

/-- The method `String`. -/
def Blueprint.String (b : Blueprint) (column : String) (length : List ℤ) :
    Blueprint × Column :=
  b.Varchar column length

/-! ## Reference definitions used in the statements -/

/-- First-occurrence deduplication, by recursion on the list: the head is kept
and its later copies are dropped from the deduplicated tail. -/
def firstOccurrences {α : Type} [DecidableEq α] : List α → List α
  | [] => []
  | x :: xs => x :: (firstOccurrences xs).filter (fun y => decide (y ≠ x))

/-- All the values of a list of optional values, in order, or `none` when one of
them is `none`. -/
def allSome {α : Type} : List (Option α) → Option (List α)
  | [] => some []
  | none :: _ => none
  | some a :: rest => (allSome rest).map (fun l => a :: l)

/-- The outcome of a sequence of calls made in order, each after the one before
it returned: the values in order when every call returns, otherwise the end of
the first call that does not return. -/
def allReturn {α : Type} : List (Outcome α) → Outcome (List α)
  | [] => Outcome.returns []
  | Outcome.returns a :: rest => (allReturn rest).map (fun l => a :: l)
  | Outcome.panics :: _ => Outcome.panics
  | Outcome.overflows :: _ => Outcome.overflows

/-- The definition of one column as `GetColumns` and `GetChangeColumns` build
it: the back-tick-quoted name, a space, the type fragment, then the modifiers. -/
def columnDefinition (marshalStrings : List String → String) (blueprint : Blueprint)
    (column : Column) : Option String :=
  (GetType column).bind fun ty =>
    addModifiers marshalStrings ("`" ++ column.Name ++ "` " ++ ty) blueprint column

/-- A column is marked for change when its `change` attribute is the boolean
`true`. -/
def markedForChange (column : Column) : Bool :=
  decide (column.Attributes.get ColumnAttrChange = some (Value.bool true))

/-- The fluent index marker of a column that derivation acts on: the first of
`primary`, `unique`, `index` that is a key of its attribute bag. -/
def fluentMarker (column : Column) : Option String :=
  if (column.Attributes.get ColumnAttrPrimary).isSome then some commandPrimary
  else if (column.Attributes.get ColumnAttrUnique).isSome then some commandUnique
  else if (column.Attributes.get ColumnAttrIndex).isSome then some commandIndex
  else none

/-- The index command of kind `t` over `columns`: its name, and the attributes
index name, algorithm and column list. -/
def indexCommandOf (toLowerRune : Char → Char) (b : Blueprint) (t : String)
    (columns : List String) (algorithm : String) : Command :=
  ⟨t, [(commandAttrIndex, Value.str (b.createIndexName toLowerRune t columns)),
    (commandAttrAlgorithm, Value.str algorithm),
    (commandAttrColumns, Value.strs columns)]⟩

/-- The fluent index commands of a blueprint: for each column with a fluent
marker, in declaration order, the command of that kind over that one column. -/
def fluentCommands (toLowerRune : Char → Char) (b : Blueprint) : List Command :=
  b.columns.filterMap fun column =>
    (fluentMarker column).map fun k => indexCommandOf toLowerRune b k [column.Name] ""

/-- The column after fluent-index derivation: the marker acted on is overwritten
with `false`. -/
def overwriteMarker (column : Column) : Column :=
  match fluentMarker column with
  | none => column
  | some k => { column with Attributes := column.Attributes.set k (Value.bool false) }

/-- The implied add command: present when the blueprint has no create command
and a column not marked for change. -/
def impliedAdd (b : Blueprint) : List Command :=
  if !b.creating && b.columns.any (fun c => !markedForChange c) then [⟨commandAdd, []⟩] else []

/-- The implied change command: present when the blueprint has no create command
and a column marked for change. -/
def impliedChange (b : Blueprint) : List Command :=
  if !b.creating && b.columns.any markedForChange then [⟨commandChange, []⟩] else []

/-- The blueprint of the test `Column_Index`: the table `users` being created
with the columns `id` (primary marker), `account`, `name` and `age` (index
marker), and the explicit unique index over `account` and `name`. -/
def exampleColumnIndex : Blueprint :=
  Blueprint.Unique Char.toLower
    { Prefix := "", Engine := "InnoDB", Charset := "utf8mb4", Collation := "utf8mb4_unicode_ci",
      table := "users",
      columns := [
        ⟨"int", "id", [("autoIncrement", Value.bool false), ("unsigned", Value.bool true),
          ("primary", Value.bool true)]⟩,
        ⟨"varchar", "account", [("length", Value.int 50)]⟩,
        ⟨"varchar", "name", [("length", Value.int 30)]⟩,
        ⟨"int", "age", [("autoIncrement", Value.bool false), ("unsigned", Value.bool false),
          ("index", Value.bool true)]⟩],
      commands := [⟨commandCreate, []⟩],
      config := ⟨"", "", "InnoDB", "utf8mb4", "utf8mb4_unicode_ci", 255⟩ }
    (Value.strs ["account", "name"]) []

/-- The blueprint of the test `Column_Update_Delete`: the existing table `users`
with the columns `age` and `account` dropped and the column `name` changed. -/
def exampleUpdateDelete : Blueprint :=
  Blueprint.DropColumn
    { Prefix := "", Engine := "InnoDB", Charset := "utf8mb4", Collation := "utf8mb4_unicode_ci",
      table := "users",
      columns := [
        ⟨"varchar", "name", [("length", Value.int 30), ("default", Value.str "a"),
          ("comment", Value.str "姓名"), ("change", Value.bool true)]⟩],
      commands := [],
      config := ⟨"", "", "InnoDB", "utf8mb4", "utf8mb4_unicode_ci", 255⟩ }
    ["age", "account"]

/-- The existing table `users` altered by the calls Int("age").Index(),
Index("age") and Unique(["email"]), in this order. -/
def exampleIndexTwice : Blueprint :=
  Blueprint.Unique Char.toLower
    (Blueprint.Index Char.toLower
      (mutateReturned
        (Blueprint.Int
          (NewBlueprint (NewSchema ⟨"", "", "InnoDB", "utf8mb4", "utf8mb4_unicode_ci", 255⟩)
            "users" [])
          "age" [])
        Column.Index).1
      (Value.str "age") [])
    (Value.strs ["email"]) []

/-- The unsigned clause of `addModifiers`. -/
def unsignedClause (column : Column) : String :=
  if column.Attributes.get ColumnAttrUnsigned = some (Value.bool true) then " unsigned" else ""

/-- The character-set clause of `addModifiers`; `none` when the attribute is not
a string. -/
def charsetClause (column : Column) : Option String :=
  match column.Attributes.get ColumnAttrCharset with
  | some (Value.str charset) => some (" character set " ++ charset)
  | some _ => none
  | none => some ""

/-- The collate clause of `addModifiers`; `none` when the attribute is not a
string. -/
def collateClause (column : Column) : Option String :=
  match column.Attributes.get ColumnAttrCollate with
  | some (Value.str collate) => some (" collate '" ++ collate ++ "'")
  | some _ => none
  | none => some ""

/-- The null clause of `addModifiers`; `none` when the attribute is not a
boolean. -/
def nullableClause (column : Column) : Option String :=
  match column.Attributes.get ColumnAttrNullable with
  | some (Value.bool true) => some " null"
  | some (Value.bool false) => some " not null"
  | some _ => none
  | none => some " not null"

/-- The default clause of `addModifiers`: empty when the column has no default
attribute. -/
def defaultClause (marshalStrings : List String → String) (column : Column) : String :=
  match column.Attributes.get ColumnAttrDefault with
  | some d => " default '" ++ convString marshalStrings d ++ "'"
  | none => ""

/-- The auto-increment clause of `addModifiers`. -/
def incrementClause (column : Column) : String :=
  if column.Type_ ∈ [ColumnTypeBigInt, ColumnTypeInt, ColumnTypeMediumInt, ColumnTypeSmallInt,
      ColumnTypeTinyInt]
      ∧ column.Attributes.get ColumnAttrAutoIncrement = some (Value.bool true) then
    " auto_increment primary key"
  else ""

/-- The comment clause of `addModifiers`, with the comment text as it is stored;
`none` when the attribute is not a string. -/
def commentClause (column : Column) : Option String :=
  match column.Attributes.get ColumnAttrComment with
  | some (Value.str comment) => some (if comment = "" then "" else " comment '" ++ comment ++ "'")
  | some _ => none
  | none => some ""

/-- The single quote, U+0027. -/
def singleQuote : Char := Char.ofNat 39

/-- The column `c2` is the column `c` with the one attribute `key` set to `v`:
the key reads `v`, every other key reads as before, type and name are kept. -/
def SetsOnly (c c2 : Column) (key : String) (v : Value) : Prop :=
  c2.Attributes.get key = some v
  ∧ (∀ k : String, k ≠ key → c2.Attributes.get k = c.Attributes.get k)
  ∧ c2.Type_ = c.Type_
  ∧ c2.Name = c.Name

/-- The rendering routines: the non-empty names X for which `Grammar` has a
method `CompileX` taking a blueprint and a command. For the empty X that method
is `Compile` itself, which renders nothing. -/
def renderingRoutines : List String :=
  ["Create", "Add", "Change", "Rename", "Primary", "Unique", "Index", "Drop", "DropIfExists",
    "DropColumn", "DropPrimary", "DropUnique", "DropIndex", "TableComment"]

/-- The type tags with a case in the switch of `GetType`. -/
def handledTypes : List String :=
  [ColumnTypeChar, ColumnTypeVarchar, ColumnTypeTinyText, ColumnTypeText, ColumnTypeMediumText,
    ColumnTypeLongText, ColumnTypeBigInt, ColumnTypeInt, ColumnTypeMediumInt, ColumnTypeTinyInt,
    ColumnTypeSmallInt, ColumnTypeJson, ColumnTypeDate, ColumnTypeDateTime, ColumnTypeTime,
    ColumnTypeTimestamp, ColumnTypeYear, ColumnTypeBinary, ColumnTypeBlob, ColumnTypeFloat,
    ColumnTypeDouble, ColumnTypeDecimal, ColumnTypeEnum, ColumnTypeSet, ColumnTypeUuid,
    ColumnTypeBoolean]

/-- The normalisation step of `createIndexName`: lower-casing, then the
replacement of "-" and of "." by "_". -/
def normaliseIndexName (toLowerRune : Char → Char) (s : String) : String :=
  replaceByArray (stringsToLower toLowerRune s) ["-", "_", ".", "_"]

/-- The fixed enumeration of command names. -/
def commandNames : List String :=
  [commandCreate, commandAdd, commandChange, commandDrop, commandDropColumn, commandRename,
    commandRenameColumn, commandDropIfExists, commandPrimary, commandUnique, commandIndex,
    commandComment]

/-- A call of a Column mutator, with its arguments. -/
inductive MutatorCall where
  | comment (text : String)
  | default (value : Value)
  | nullable (value : List Bool)
  | primary
  | unique
  | index
  | change
  | charset (name : String)
  | collation (name : String)

/-- The column after a mutator call. -/
def MutatorCall.apply (call : MutatorCall) (c : Column) : Column :=
  match call with
  | .comment text => c.Comment text
  | .default value => c.Default value
  | .nullable value => c.Nullable value
  | .primary => c.Primary
  | .unique => c.Unique
  | .index => c.Index
  | .change => c.Change
  | .charset name => c.Charset name
  | .collation name => c.Collation name

/-- A call of a typed column builder of the blueprint that returns the column it
creates, with its arguments. -/
inductive BuilderCall where
  | char (column : String) (length : List Int)
  | varchar (column : String) (length : List Int)
  | string (column : String) (length : List Int)
  | tinyText (column : String)
  | text (column : String)
  | mediumText (column : String)
  | longText (column : String)
  | int (column : String) (flags : List Bool)
  | tinyInt (column : String) (flags : List Bool)
  | smallInt (column : String) (flags : List Bool)
  | mediumInt (column : String) (flags : List Bool)
  | bigInt (column : String) (flags : List Bool)
  | unsignedInt (column : String) (autoIncrement : List Bool)
  | unsignedTinyInt (column : String) (autoIncrement : List Bool)
  | unsignedSmallInt (column : String) (autoIncrement : List Bool)
  | unsignedMediumInt (column : String) (autoIncrement : List Bool)
  | unsignedBigInt (column : String) (autoIncrement : List Bool)
  | increments (column : String)
  | bigIncrements (column : String)
  | id (column : List String)
  | boolean (column : String)
  | float (column : String) (total places : Int) (unsigned : List Bool)
  | double (column : String) (total places : Int) (unsigned : List Bool)
  | decimal (column : String) (total places : Int) (unsigned : List Bool)
  | unsignedFloat (column : String) (total places : Int)
  | unsignedDouble (column : String) (total places : Int)
  | unsignedDecimal (column : String) (total places : Int)
  | enum (column : String) (allowed : List String)
  | set (column : String) (allowed : List String)
  | json (column : String)
  | date (column : String)
  | dateTime (column : String)
  | time (column : String)
  | timestamp (column : String)
  | softDeletes
  | year (column : String)
  | binary (column : String)
  | blob (column : String)
  | uuid (column : String)

/-- The blueprint after a builder call, and the column the call returns. -/
def BuilderCall.run (call : BuilderCall) (b : Blueprint) : Blueprint × Column :=
  match call with
  | .char column length => b.Char column length
  | .varchar column length => b.Varchar column length
  | .string column length => b.String column length
  | .tinyText column => b.TinyText column
  | .text column => b.Text column
  | .mediumText column => b.MediumText column
  | .longText column => b.LongText column
  | .int column flags => b.Int column flags
  | .tinyInt column flags => b.TinyInt column flags
  | .smallInt column flags => b.SmallInt column flags
  | .mediumInt column flags => b.MediumInt column flags
  | .bigInt column flags => b.BigInt column flags
  | .unsignedInt column autoIncrement => b.UnsignedInt column autoIncrement
  | .unsignedTinyInt column autoIncrement => b.UnsignedTinyInt column autoIncrement
  | .unsignedSmallInt column autoIncrement => b.UnsignedSmallInt column autoIncrement
  | .unsignedMediumInt column autoIncrement => b.UnsignedMediumInt column autoIncrement
  | .unsignedBigInt column autoIncrement => b.UnsignedBigInt column autoIncrement
  | .increments column => b.Increments column
  | .bigIncrements column => b.BigIncrements column
  | .id column => b.Id column
  | .boolean column => b.Boolean column
  | .float column total places unsigned => b.Float column total places unsigned
  | .double column total places unsigned => b.Double column total places unsigned
  | .decimal column total places unsigned => b.Decimal column total places unsigned
  | .unsignedFloat column total places => b.UnsignedFloat column total places
  | .unsignedDouble column total places => b.UnsignedDouble column total places
  | .unsignedDecimal column total places => b.UnsignedDecimal column total places
  | .enum column allowed => b.Enum column allowed
  | .set column allowed => b.Set column allowed
  | .json column => b.Json column
  | .date column => b.Date column
  | .dateTime column => b.DateTime column
  | .time column => b.Time column
  | .timestamp column => b.Timestamp column
  | .softDeletes => b.SoftDeletes
  | .year column => b.Year column
  | .binary column => b.Binary column
  | .blob column => b.Blob column
  | .uuid column => b.Uuid column

/-- The attributes `GetType` and `addModifiers` read with a type assertion are
present with the asserted type where the column's type makes `GetType` read
them, and absent or of the asserted type where absence is handled. -/
def WellTyped (c : Column) : Prop :=
  ((c.Type_ = ColumnTypeChar ∨ c.Type_ = ColumnTypeVarchar) →
      ∃ n, c.Attributes.get ColumnAttrLength = some (Value.int n))
  ∧ ((c.Type_ = ColumnTypeFloat ∨ c.Type_ = ColumnTypeDouble ∨ c.Type_ = ColumnTypeDecimal) →
      (∃ n, c.Attributes.get ColumnAttrTotal = some (Value.int n))
      ∧ (∃ n, c.Attributes.get ColumnAttrPlaces = some (Value.int n)))
  ∧ ((c.Type_ = ColumnTypeEnum ∨ c.Type_ = ColumnTypeSet) →
      ∃ l, c.Attributes.get ColumnAttrAllowed = some (Value.strs l))
  ∧ (∀ v, c.Attributes.get ColumnAttrCharset = some v → ∃ s, v = Value.str s)
  ∧ (∀ v, c.Attributes.get ColumnAttrCollate = some v → ∃ s, v = Value.str s)
  ∧ (∀ v, c.Attributes.get ColumnAttrNullable = some v → ∃ x, v = Value.bool x)
  ∧ (∀ v, c.Attributes.get ColumnAttrComment = some v → ∃ s, v = Value.str s)

/-- A table `users` being created with the column `id` and the column `name`
marked for change, which carries no fluent index marker. -/
def exampleCreateChange : Blueprint :=
  { Prefix := "", Engine := "InnoDB", Charset := "utf8mb4", Collation := "utf8mb4_unicode_ci",
    table := "users",
    columns := [
      ⟨"int", "id", [("autoIncrement", Value.bool false), ("unsigned", Value.bool false)]⟩,
      ⟨"varchar", "name", [("length", Value.int 30), ("change", Value.bool true)]⟩],
    commands := [⟨commandCreate, []⟩],
    config := ⟨"", "", "InnoDB", "utf8mb4", "utf8mb4_unicode_ci", 255⟩ }

/-- The same table being created, the column `name` marked for change and
carrying the fluent marker `index`. -/
def exampleCreateChangeIndex : Blueprint :=
  { Prefix := "", Engine := "InnoDB", Charset := "utf8mb4", Collation := "utf8mb4_unicode_ci",
    table := "users",
    columns := [
      ⟨"int", "id", [("autoIncrement", Value.bool false), ("unsigned", Value.bool false)]⟩,
      ⟨"varchar", "name", [("length", Value.int 30), ("change", Value.bool true),
        ("index", Value.bool true)]⟩],
    commands := [⟨commandCreate, []⟩],
    config := ⟨"", "", "InnoDB", "utf8mb4", "utf8mb4_unicode_ci", 255⟩ }

/-- A column that derivation or the create statement of a blueprint being
created can act on: it is not marked for change, or it carries a fluent index
marker. -/
def actedOnWhenCreating (column : Column) : Bool :=
  !markedForChange column || (fluentMarker column).isSome

/-- The column an integer builder of type `types` creates for the name `column`
when the flags are read as `autoIncrement` and `unsigned`. -/
def integerColumn (types column : String) (autoIncrement unsigned : Bool) : Column :=
  ⟨types, column,
    [(ColumnAttrAutoIncrement, Value.bool autoIncrement), (ColumnAttrUnsigned, Value.bool unsigned)]⟩

/-- The rule by which an integer builder of type `types` reads its flags: the
column it appends to the blueprint and returns has both attributes false without
a flag, the one flag as `autoIncrement` with one flag, the two flags as
`autoIncrement` and `unsigned` with two, and both attributes false with three
flags or more. -/
def ReadsFlags (builder : Blueprint → String → List Bool → Blueprint × Column)
    (types : String) : Prop :=
  ∀ (b : Blueprint) (column : String),
    builder b column []
        = ({ b with columns := b.columns ++ [integerColumn types column false false] },
           integerColumn types column false false)
    ∧ (∀ a : Bool, builder b column [a]
        = ({ b with columns := b.columns ++ [integerColumn types column a false] },
           integerColumn types column a false))
    ∧ (∀ a u : Bool, builder b column [a, u]
        = ({ b with columns := b.columns ++ [integerColumn types column a u] },
           integerColumn types column a u))
    ∧ (∀ (a u x : Bool) (rest : List Bool), builder b column (a :: u :: x :: rest)
        = ({ b with columns := b.columns ++ [integerColumn types column false false] },
           integerColumn types column false false))

/-- The whitespace characters the documentation of `trim` speaks of: tab,
vertical tab, new line, carriage return, form feed, space and NUL, the seven
ASCII bytes of the variable `DefaultTrimChars`, which no function of the package
reads. -/
def whitespaceCharacters : List Char :=
  [Char.ofNat 9, Char.ofNat 11, Char.ofNat 10, Char.ofNat 13, Char.ofNat 12, Char.ofNat 32,
    Char.ofNat 0]

/-- The string without its leading and trailing whitespace characters, every
other character kept. -/
def stripWhitespace (s : String) : String :=
  String.mk ((s.data.dropWhile (fun c => decide (c ∈ whitespaceCharacters))).rdropWhile
    (fun c => decide (c ∈ whitespaceCharacters)))

/-! # Theorems -/

/-! ## Lemmas on outcomes -/

@[simp] theorem Outcome.ofOption_some {α : Type} (a : α) :
    Outcome.ofOption (some a) = Outcome.returns a := rfl

@[simp] theorem Outcome.ofOption_none {α : Type} :
    Outcome.ofOption (none : Option α) = Outcome.panics := rfl

@[simp] theorem Outcome.map_returns {α β : Type} (f : α → β) (a : α) :
    (Outcome.returns a).map f = Outcome.returns (f a) := rfl

@[simp] theorem Outcome.map_panics {α β : Type} (f : α → β) :
    (Outcome.panics : Outcome α).map f = Outcome.panics := rfl

@[simp] theorem Outcome.map_overflows {α β : Type} (f : α → β) :
    (Outcome.overflows : Outcome α).map f = Outcome.overflows := rfl

@[simp] theorem Outcome.bind_returns {α β : Type} (f : α → Outcome β) (a : α) :
    (Outcome.returns a).bind f = f a := rfl

@[simp] theorem Outcome.bind_panics {α β : Type} (f : α → Outcome β) :
    (Outcome.panics : Outcome α).bind f = Outcome.panics := rfl

@[simp] theorem Outcome.bind_overflows {α β : Type} (f : α → Outcome β) :
    (Outcome.overflows : Outcome α).bind f = Outcome.overflows := rfl

theorem Outcome.map_map {α β γ : Type} (f : α → β) (g : β → γ) (o : Outcome α) :
    (o.map f).map g = o.map (g ∘ f) := by
  cases o <;> rfl

theorem Outcome.map_ofOption {α β : Type} (f : α → β) (o : Option α) :
    (Outcome.ofOption o).map f = Outcome.ofOption (o.map f) := by
  cases o <;> rfl

/-! ## Lemmas on the helpers of util.go -/

theorem inArray_eq_true_iff {α : Type} [DecidableEq α] (x : α) (l : List α) :
    inArray x l = true ↔ x ∈ l := by
  induction l with
  | nil => simp [inArray]
  | cons v rest ih =>
    unfold inArray
    by_cases h : x = v
    · simp [h]
    · simp [h, ih]

theorem filter_eq_listFilter {α : Type} (arr : List α) (callback : α → Bool) :
    filter arr callback = arr.filter callback := by
  induction arr with
  | nil => rfl
  | cons v rest ih =>
    unfold filter
    by_cases h : callback v = true
    · simp [h, ih]
    · simp [h, ih]

theorem arrMap_eq_listMap {α : Type} (arr : List α) (callback : α → α) :
    arrMap arr callback = arr.map callback := by
  induction arr with
  | nil => rfl
  | cons v rest ih => simp [arrMap, ih]

theorem uniqueLoop_eq {α : Type} [DecidableEq α] (xs result : List α) :
    uniqueLoop result xs
      = result ++ (firstOccurrences xs).filter (fun y => decide (y ∉ result)) := by
  induction xs generalizing result with
  | nil => simp [uniqueLoop, firstOccurrences]
  | cons x xs ih =>
    unfold uniqueLoop
    by_cases hx : x ∈ result
    · have h1 : inArray x result = true := (inArray_eq_true_iff x result).2 hx
      simp only [h1, Bool.not_true, Bool.false_eq_true, if_false]
      rw [ih result]
      congr 1
      simp only [firstOccurrences, List.filter_cons, hx, not_true_eq_false, decide_False,
        Bool.false_eq_true, if_false, List.filter_filter]
      apply List.filter_congr
      intro y _
      by_cases hy : y ∈ result
      · simp [hy]
      · have : y ≠ x := fun e => hy (e ▸ hx)
        simp [hy, this]
    · have h1 : inArray x result = false := by
        cases h : inArray x result with
        | false => rfl
        | true => exact absurd ((inArray_eq_true_iff x result).1 h) hx
      simp only [h1, Bool.not_false, if_true]
      rw [ih (result ++ [x])]
      simp only [firstOccurrences, List.filter_cons, hx, not_false_eq_true, decide_True, if_true,
        List.filter_filter, List.append_assoc, List.singleton_append]
      congr 2
      apply List.filter_congr
      intro y _
      by_cases hy : y ∈ result
      · simp [hy]
      · by_cases hyx : y = x
        · simp [hyx]
        · simp [hy, hyx]

theorem unique_eq_firstOccurrences {α : Type} [DecidableEq α] (xs : List α) :
    unique xs = firstOccurrences xs := by
  unfold unique
  rw [uniqueLoop_eq]
  simp

theorem mem_firstOccurrences {α : Type} [DecidableEq α] (xs : List α) (a : α) :
    a ∈ firstOccurrences xs ↔ a ∈ xs := by
  induction xs with
  | nil => simp [firstOccurrences]
  | cons x xs ih =>
    simp only [firstOccurrences, List.mem_cons, List.mem_filter, ih, decide_eq_true_eq]
    by_cases h : a = x
    · simp [h]
    · simp [h]

theorem nodup_firstOccurrences {α : Type} [DecidableEq α] (xs : List α) :
    (firstOccurrences xs).Nodup := by
  induction xs with
  | nil => simp [firstOccurrences]
  | cons x xs ih =>
    simp only [firstOccurrences, List.nodup_cons, List.mem_filter, decide_eq_true_eq]
    exact ⟨fun h => h.2 rfl, ih.filter _⟩

theorem sublist_firstOccurrences {α : Type} [DecidableEq α] (xs : List α) :
    (firstOccurrences xs).Sublist xs := by
  induction xs with
  | nil => simp [firstOccurrences]
  | cons x xs ih =>
    simp only [firstOccurrences]
    exact ((List.filter_sublist _).trans ih).cons₂ x

theorem firstOccurrences_append {α : Type} [DecidableEq α] (xs ys : List α) :
    firstOccurrences (xs ++ ys)
      = firstOccurrences xs ++ (firstOccurrences ys).filter (fun y => decide (y ∉ xs)) := by
  induction xs with
  | nil => simp [firstOccurrences]
  | cons x xs ih =>
    rw [List.cons_append]
    simp only [firstOccurrences]
    rw [ih, List.filter_append, List.filter_filter, List.cons_append]
    congr 2
    apply List.filter_congr
    intro y _
    by_cases hy : y ∈ xs
    · simp [hy]
    · by_cases hyx : y = x
      · simp [hyx]
      · simp [hy, hyx]

/-- C8. `unique` keeps exactly the first occurrence of each distinct element, in
the original relative order: the result has no two equal elements, has the
members of the input, is a subsequence of it, and is built by keeping the head
and dropping its later copies from the deduplicated tail; two different strings
are both kept. -/
theorem unique_first_occurrences (xs : List String) :
    (unique xs).Nodup
    ∧ (∀ s, s ∈ unique xs ↔ s ∈ xs)
    ∧ (unique xs).Sublist xs
    ∧ unique ([] : List String) = []
    ∧ (∀ (x : String) (rest : List String),
        unique (x :: rest) = x :: (unique rest).filter (fun y => decide (y ≠ x)))
    ∧ (∀ s t : String, s ≠ t → unique [s, t] = [s, t]) := by
  refine ⟨?_, ?_, ?_, rfl, ?_, ?_⟩
  · rw [unique_eq_firstOccurrences]; exact nodup_firstOccurrences xs
  · intro s; rw [unique_eq_firstOccurrences]; exact mem_firstOccurrences xs s
  · rw [unique_eq_firstOccurrences]; exact sublist_firstOccurrences xs
  · intro x rest
    simp only [unique_eq_firstOccurrences, firstOccurrences]
  · intro s t hst
    simp only [unique_eq_firstOccurrences, firstOccurrences, List.filter_nil, List.filter_cons]
    have : t ≠ s := fun e => hst e.symm
    simp [this]

/-! ## Lemmas on the string helpers -/

theorem replaceScan_single (a : Char) (new : List Char) (cs : List Char) :
    replaceScan [a] new 0 cs = (cs.map fun c => if c = a then new else [c]).flatten := by
  induction cs with
  | nil => simp [replaceScan]
  | cons c cs ih =>
    unfold replaceScan
    by_cases h : c = a
    · subst h
      simp [List.isPrefixOf, ih]
    · have h2 : ¬ a = c := fun e => h e.symm
      simp [List.isPrefixOf, ih, h, h2]

theorem replaceScan_single_char (a b : Char) (cs : List Char) :
    replaceScan [a] [b] 0 cs = cs.map fun c => if c = a then b else c := by
  rw [replaceScan_single]
  induction cs with
  | nil => rfl
  | cons c cs ih =>
    by_cases h : c = a
    · simp [h, ih]
    · simp [h, ih]

theorem stringsTrim_eq_self (s cutset : String)
    (hfirst : ∀ c, s.data.head? = some c → c ∉ cutset.data)
    (hlast : ∀ c, s.data.getLast? = some c → c ∉ cutset.data) :
    stringsTrim s cutset = s := by
  have h1 : s.data.dropWhile (fun c => decide (c ∈ cutset.data)) = s.data := by
    rw [List.dropWhile_eq_self_iff]
    intro hl
    have key : ∀ (l : List Char) (hl : 0 < l.length), l.head? = some (l.get ⟨0, hl⟩) := by
      intro l hl
      cases l with
      | nil => simp at hl
      | cons x xs => rfl
    have := hfirst (s.data.get ⟨0, hl⟩) (key _ hl)
    simpa using this
  have h2 : s.data.rdropWhile (fun c => decide (c ∈ cutset.data)) = s.data := by
    rw [List.rdropWhile_eq_self_iff]
    intro hl
    have := hlast (s.data.getLast hl) (List.getLast?_eq_getLast _ hl)
    simpa using this
  unfold stringsTrim
  rw [h1, h2]

/-- A string that starts with `a` and ends with `z`, neither of them a code point
of `DefaultCharset`, is left as it is by `trim` called without a mask. -/
theorem trim_enclosed (a z : Char) (m : String) (ha : a ∉ DefaultCharset.data)
    (hz : z ∉ DefaultCharset.data) :
    trim (String.singleton a ++ m ++ String.singleton z) []
      = String.singleton a ++ m ++ String.singleton z := by
  unfold trim varDef
  apply stringsTrim_eq_self
  · intro c hc
    have : (String.singleton a ++ m ++ String.singleton z).data = a :: (m.data ++ [z]) := by
      simp [String.data_append, String.singleton]
    rw [this] at hc
    simp at hc
    exact hc ▸ ha
  · intro c hc
    have : (String.singleton a ++ m ++ String.singleton z).data = (a :: m.data) ++ [z] := by
      simp [String.data_append, String.singleton]
    rw [this, List.getLast?_append] at hc
    simp at hc
    exact hc ▸ hz

theorem columnDefinitions_eq (marshalStrings : List String → String) (blueprint : Blueprint)
    (columns : List Column) :
    columnDefinitions marshalStrings blueprint columns
      = allSome (columns.map (columnDefinition marshalStrings blueprint)) := by
  induction columns with
  | nil => rfl
  | cons column rest ih =>
    unfold columnDefinitions
    simp only [List.map_cons, columnDefinition]
    cases hty : GetType column with
    | none => simp [allSome]
    | some ty =>
      simp only [Option.some_bind]
      cases hdef : addModifiers marshalStrings ("`" ++ column.Name ++ "` " ++ ty) blueprint column with
      | none => simp [allSome]
      | some definition =>
        rw [ih]
        simp only [allSome]
        cases allSome (rest.map (columnDefinition marshalStrings blueprint)) <;> rfl

/-- C7. The index name is the lower-cased concatenation of the configured
prefix, the table, "_", the column names joined by "_", "_" and the kind, in
which every "-" and then every "." has been replaced by "_": code point by code
point, "-" and "." become "_" and every other code point is kept. -/
theorem createIndexName_spec (toLowerRune : Char → Char) (b : Blueprint) (t : String)
    (columns : List String) :
    b.createIndexName toLowerRune t columns
      = stringsReplace (stringsReplace (stringsToLower toLowerRune
          (b.config.Prefix ++ b.table ++ "_" ++ stringsJoin columns "_" ++ "_" ++ t)) "-" "_")
          "." "_"
    ∧ (b.createIndexName toLowerRune t columns).data
      = ((b.config.Prefix ++ b.table ++ "_" ++ stringsJoin columns "_" ++ "_" ++ t).data.map
          toLowerRune).map (fun c => if c = '-' ∨ c = '.' then '_' else c) := by
  constructor
  · rfl
  · show (replaceByArray _ ["-", "_", ".", "_"]).data = _
    simp only [replaceByArray, stringsReplace, stringsToLower]
    rw [replaceScan_single_char, replaceScan_single_char, List.map_map]
    apply List.map_congr_left
    intro c _
    by_cases hc : c = '-'
    · simp [hc]
    · by_cases hd : c = '.'
      · simp [hd]
      · simp [hc, hd]


/-! ## Lemmas on rendering -/

theorem getAddedColumns_eq (b : Blueprint) :
    b.getAddedColumns = b.columns.filter (fun c => !markedForChange c) := by
  unfold Blueprint.getAddedColumns
  rw [filter_eq_listFilter]
  apply List.filter_congr
  intro c _
  simp [markedForChange]

theorem getChangedColumns_eq (b : Blueprint) :
    b.getChangedColumns = b.columns.filter markedForChange := by
  unfold Blueprint.getChangedColumns
  rw [filter_eq_listFilter]
  rfl

theorem trim_createTable (b : Blueprint) (defs : List String) :
    trim ("create" ++ " table " ++ wrapTable b ++ " (" ++ stringsJoin defs ", " ++ ")") []
      = "create" ++ " table " ++ wrapTable b ++ " (" ++ stringsJoin defs ", " ++ ")" := by
  have h := trim_enclosed 'c' ')'
    ("reate" ++ " table " ++ wrapTable b ++ " (" ++ stringsJoin defs ", ") (by decide) (by decide)
  have e : "create" ++ " table " ++ wrapTable b ++ " (" ++ stringsJoin defs ", " ++ ")"
      = String.singleton 'c'
        ++ ("reate" ++ " table " ++ wrapTable b ++ " (" ++ stringsJoin defs ", ")
        ++ String.singleton ')' := by
    have e1 : ("create" : String) = String.singleton 'c' ++ "reate" := by decide
    have e2 : (")" : String) = String.singleton ')' := by decide
    rw [e1, e2]
    simp only [String.append_assoc]
  rw [e]
  exact h

/-- C1. Compiling a create command yields exactly the create-table statement:
the back-tick-quoted, prefix-qualified table, the ", "-joined definitions of the
columns not marked for change in declaration order, then the blueprint's
charset, collation and engine, each replaced by its default when empty; the
command is left as it is, the compilation panics exactly when a column definition
panics, and the trim call of CompileCreateTable returns its argument. -/
theorem compile_create (marshalStrings : List String → String) (b : Blueprint) (attrs : Map) :
    Compile marshalStrings b ⟨commandCreate, attrs⟩
      = Outcome.ofOption ((allSome ((b.columns.filter (fun c => !markedForChange c)).map
          (columnDefinition marshalStrings b))).map
        (fun defs =>
          ("create table `" ++ (b.Prefix ++ b.table) ++ "`" ++ " (" ++ stringsJoin defs ", " ++ ")"
            ++ " default character set " ++ (if b.Charset = "" then "utf8mb4" else b.Charset)
            ++ " collate '" ++ (if b.Collation = "" then "utf8mb4_unicode_ci" else b.Collation)
            ++ "'"
            ++ " engine = " ++ (if b.Engine = "" then "InnoDB" else b.Engine),
           (⟨commandCreate, attrs⟩ : Command))))
    ∧ (∀ defs : List String,
        trim ("create" ++ " table " ++ wrapTable b ++ " (" ++ stringsJoin defs ", " ++ ")") []
          = "create" ++ " table " ++ wrapTable b ++ " (" ++ stringsJoin defs ", " ++ ")") := by
  refine ⟨?_, trim_createTable b⟩
  have hname : ucFirst commandCreate = "Create" := by decide
  simp only [Compile, hname, if_true, CompileCreate, CompileCreateTable, GetColumns,
    columnDefinitions_eq, getAddedColumns_eq, Option.map_map]
  congr 2
  funext defs
  simp only [Function.comp, trim_createTable]
  simp only [CompileCreateEngine, CompileCreateEncoding,
    wrapTable, wrap, Blueprint.GetTable, DefaultCharset, DefaultCollation, DefaultEngine]
  have e0 : ("create" ++ " table " ++ "`" : String) = "create table `" := by decide
  by_cases h1 : b.Charset = "" <;> by_cases h2 : b.Collation = "" <;>
    by_cases h3 : b.Engine = "" <;>
    simp only [h1, h2, h3, ne_eq, not_true_eq_false, not_false_eq_true, if_true, if_false,
      ← String.append_assoc, e0]


/-- C2. For a column with unsigned flagged, a charset, a collation, a nullable
flag, a default value, auto-increment flagged on an integer-family type and a
non-empty comment, `addModifiers` returns the given fragment followed by exactly
the seven clauses unsigned, character set, collate, null or not null, default,
auto_increment primary key, comment, in this order. -/
theorem addModifiers_order (marshalStrings : List String → String) (sql : String)
    (b : Blueprint) (column : Column) (charset collation comment : String) (nullable : Bool)
    (d : Value)
    (hunsigned : column.Attributes.get ColumnAttrUnsigned = some (Value.bool true))
    (hcharset : column.Attributes.get ColumnAttrCharset = some (Value.str charset))
    (hcollate : column.Attributes.get ColumnAttrCollate = some (Value.str collation))
    (hnullable : column.Attributes.get ColumnAttrNullable = some (Value.bool nullable))
    (hdefault : column.Attributes.get ColumnAttrDefault = some d)
    (htype : column.Type_ ∈ [ColumnTypeBigInt, ColumnTypeInt, ColumnTypeMediumInt,
      ColumnTypeSmallInt, ColumnTypeTinyInt])
    (hincrement : column.Attributes.get ColumnAttrAutoIncrement = some (Value.bool true))
    (hcomment : column.Attributes.get ColumnAttrComment = some (Value.str comment))
    (hnonempty : comment ≠ "") :
    addModifiers marshalStrings sql b column
      = some (sql ++ " unsigned" ++ " character set " ++ charset
          ++ " collate '" ++ collation ++ "'"
          ++ (if nullable = true then " null" else " not null")
          ++ " default '" ++ convString marshalStrings d ++ "'"
          ++ " auto_increment primary key"
          ++ " comment '" ++ comment ++ "'") := by
  have hserial : inArray column.Type_ [ColumnTypeBigInt, ColumnTypeInt, ColumnTypeMediumInt,
      ColumnTypeSmallInt, ColumnTypeTinyInt] = true := (inArray_eq_true_iff _ _).2 htype
  have hu : (" " ++ ColumnAttrUnsigned : String) = " unsigned" := by decide
  unfold addModifiers
  simp only [hunsigned, hcharset, hcollate, hnullable, hdefault, hincrement, hcomment, hserial,
    if_true, Option.some_bind, Option.map_some', Bool.and_self, decide_True, ne_eq, hnonempty,
    not_false_eq_true, hu]
  cases nullable with
  | true =>
    by_cases hd : d = Value.str ""
    · subst hd
      have e : (" default '" ++ convString marshalStrings (Value.str "") ++ "'" : String)
          = " default ''" := by simp only [convString]; decide
      simp only [if_true, Option.some_bind, Option.map_some', ← String.append_assoc]
      simp only [String.append_assoc, e]
    · simp only [if_true, hd, if_false, Option.some_bind, Option.map_some',
        ← String.append_assoc]
  | false =>
    by_cases hd : d = Value.str ""
    · subst hd
      have e : (" default '" ++ convString marshalStrings (Value.str "") ++ "'" : String)
          = " default ''" := by simp only [convString]; decide
      simp only [Bool.false_eq_true, if_false, if_true, Option.some_bind, Option.map_some',
        ← String.append_assoc]
      simp only [String.append_assoc, e]
    · simp only [Bool.false_eq_true, if_false, hd, Option.some_bind, Option.map_some',
        ← String.append_assoc]

/-- C2, at a concrete column: an unsigned auto-increment `int` with charset,
collation, nullable, default and comment. -/
theorem addModifiers_order_witness :
    addModifiers (fun _ => "") "`n` int"
        ⟨"", "", "", "", "t", [], [], ⟨"", "", "", "", "", 255⟩⟩
        ⟨"int", "n", [("autoIncrement", Value.bool true), ("unsigned", Value.bool true),
          ("charset", Value.str "utf8"), ("collate", Value.str "utf8_bin"),
          ("nullable", Value.bool false), ("default", Value.int 7),
          ("comment", Value.str "key")]⟩
      = some ("`n` int" ++ " unsigned" ++ " character set " ++ "utf8"
          ++ " collate '" ++ "utf8_bin" ++ "'"
          ++ (if false = true then " null" else " not null")
          ++ " default '" ++ convString (fun _ => "") (Value.int 7) ++ "'"
          ++ " auto_increment primary key"
          ++ " comment '" ++ "key" ++ "'") :=
  addModifiers_order (fun _ => "") "`n` int" _ _ "utf8" "utf8_bin" "key" false (Value.int 7)
    (by decide) (by decide) (by decide) (by decide) (by decide) (by decide) (by decide)
    (by decide) (by decide)


theorem GetType_bare (ty name : String) (attrs : Map) (h1 : ty ≠ ColumnTypeChar)
    (h2 : ty ≠ ColumnTypeVarchar)
    (h3 : inArray ty [ColumnTypeTinyText, ColumnTypeText, ColumnTypeMediumText,
      ColumnTypeLongText, ColumnTypeBigInt, ColumnTypeInt, ColumnTypeMediumInt,
      ColumnTypeTinyInt, ColumnTypeSmallInt, ColumnTypeJson, ColumnTypeDate,
      ColumnTypeDateTime, ColumnTypeTime, ColumnTypeTimestamp, ColumnTypeYear,
      ColumnTypeBinary, ColumnTypeBlob] = true) :
    GetType ⟨ty, name, attrs⟩ = some ty := by
  simp only [GetType, h1, h2, h3, if_true, if_false]

theorem GetType_floating (ty name : String) (attrs : Map) (total places : Int)
    (h1 : ty ≠ ColumnTypeChar) (h2 : ty ≠ ColumnTypeVarchar)
    (h3 : inArray ty [ColumnTypeTinyText, ColumnTypeText, ColumnTypeMediumText,
      ColumnTypeLongText, ColumnTypeBigInt, ColumnTypeInt, ColumnTypeMediumInt,
      ColumnTypeTinyInt, ColumnTypeSmallInt, ColumnTypeJson, ColumnTypeDate,
      ColumnTypeDateTime, ColumnTypeTime, ColumnTypeTimestamp, ColumnTypeYear,
      ColumnTypeBinary, ColumnTypeBlob] = false)
    (h4 : inArray ty [ColumnTypeFloat, ColumnTypeDouble, ColumnTypeDecimal] = true)
    (ht : attrs.get ColumnAttrTotal = some (Value.int total))
    (hp : attrs.get ColumnAttrPlaces = some (Value.int places)) :
    GetType ⟨ty, name, attrs⟩
      = some ((if ty = ColumnTypeFloat then ColumnTypeDouble else ty) ++ "("
          ++ strconvItoa total ++ ", " ++ strconvItoa places ++ ")") := by
  simp only [GetType, h1, h2, h3, h4, ht, hp, if_true, if_false, Bool.false_eq_true]

/-- C9. `GetType` on the type tags of the enumeration, with well-typed
attributes: `<type>(<length>)` for char and varchar; the bare keyword for the
text, integer, json, date/time, year and binary types; `double(<total>,
<places>)` for float and double, `decimal(<total>, <places>)` for decimal;
`enum(...)` and `set(...)` over the single-quoted allowed values joined by ", ";
`char(36)` for uuid and `tinyint(1)` for boolean. -/
theorem GetType_table (name : String) (attrs : Map) :
    (∀ (ty : String) (length : Int), ty = ColumnTypeChar ∨ ty = ColumnTypeVarchar →
      attrs.get ColumnAttrLength = some (Value.int length) →
      GetType ⟨ty, name, attrs⟩ = some (ty ++ "(" ++ strconvItoa length ++ ")"))
    ∧ (∀ ty : String,
      ty ∈ [ColumnTypeTinyText, ColumnTypeText, ColumnTypeMediumText, ColumnTypeLongText,
        ColumnTypeInt, ColumnTypeTinyInt, ColumnTypeSmallInt, ColumnTypeMediumInt,
        ColumnTypeBigInt, ColumnTypeJson, ColumnTypeDate, ColumnTypeDateTime, ColumnTypeTime,
        ColumnTypeTimestamp, ColumnTypeYear, ColumnTypeBinary] →
      GetType ⟨ty, name, attrs⟩ = some ty)
    ∧ (∀ (ty : String) (total places : Int), ty = ColumnTypeFloat ∨ ty = ColumnTypeDouble →
      attrs.get ColumnAttrTotal = some (Value.int total) →
      attrs.get ColumnAttrPlaces = some (Value.int places) →
      GetType ⟨ty, name, attrs⟩
        = some ("double" ++ "(" ++ strconvItoa total ++ ", " ++ strconvItoa places ++ ")"))
    ∧ (∀ total places : Int,
      attrs.get ColumnAttrTotal = some (Value.int total) →
      attrs.get ColumnAttrPlaces = some (Value.int places) →
      GetType ⟨ColumnTypeDecimal, name, attrs⟩
        = some ("decimal" ++ "(" ++ strconvItoa total ++ ", " ++ strconvItoa places ++ ")"))
    ∧ (∀ allowed : List String,
      attrs.get ColumnAttrAllowed = some (Value.strs allowed) →
      GetType ⟨ColumnTypeEnum, name, attrs⟩
          = some ("enum(" ++ stringsJoin (allowed.map fun v => "'" ++ v ++ "'") ", " ++ ")")
        ∧ GetType ⟨ColumnTypeSet, name, attrs⟩
          = some ("set(" ++ stringsJoin (allowed.map fun v => "'" ++ v ++ "'") ", " ++ ")"))
    ∧ GetType ⟨ColumnTypeUuid, name, attrs⟩ = some "char(36)"
    ∧ GetType ⟨ColumnTypeBoolean, name, attrs⟩ = some "tinyint(1)" := by
  refine ⟨?_, ?_, ?_, ?_, ?_, ?_, ?_⟩
  · intro ty length hty hlen
    rcases hty with h | h <;> subst h
    · simp [GetType, hlen]
    · have : ¬ ColumnTypeVarchar = ColumnTypeChar := by decide
      simp [GetType, hlen, this]
  · intro ty hty
    simp only [List.mem_cons, List.mem_singleton, List.not_mem_nil, or_false] at hty
    rcases hty with h | h | h | h | h | h | h | h | h | h | h | h | h | h | h | h <;> subst h <;>
      exact GetType_bare _ _ _ (by decide) (by decide) (by decide)
  · intro ty total places hty ht hp
    rcases hty with h | h <;> subst h
    · rw [GetType_floating _ name attrs total places (by decide) (by decide) (by decide)
        (by decide) ht hp]
      rfl
    · rw [GetType_floating _ name attrs total places (by decide) (by decide) (by decide)
        (by decide) ht hp]
      rfl
  · intro total places ht hp
    rw [GetType_floating _ name attrs total places (by decide) (by decide) (by decide)
      (by decide) ht hp]
    rfl
  · intro allowed ha
    constructor
    · have h1 : ¬ ColumnTypeEnum = ColumnTypeChar := by decide
      have h2 : ¬ ColumnTypeEnum = ColumnTypeVarchar := by decide
      have h3 : inArray ColumnTypeEnum [ColumnTypeTinyText, ColumnTypeText,
        ColumnTypeMediumText, ColumnTypeLongText, ColumnTypeBigInt, ColumnTypeInt,
        ColumnTypeMediumInt, ColumnTypeTinyInt, ColumnTypeSmallInt, ColumnTypeJson,
        ColumnTypeDate, ColumnTypeDateTime, ColumnTypeTime, ColumnTypeTimestamp, ColumnTypeYear,
        ColumnTypeBinary, ColumnTypeBlob] = false := by decide
      have h4 : inArray ColumnTypeEnum [ColumnTypeFloat, ColumnTypeDouble, ColumnTypeDecimal]
        = false := by decide
      simp only [GetType, h1, h2, h3, h4, ha, if_true, if_false, Bool.false_eq_true,
        quoteString, arrMap_eq_listMap]
    · have h1 : ¬ ColumnTypeSet = ColumnTypeChar := by decide
      have h2 : ¬ ColumnTypeSet = ColumnTypeVarchar := by decide
      have h3 : inArray ColumnTypeSet [ColumnTypeTinyText, ColumnTypeText,
        ColumnTypeMediumText, ColumnTypeLongText, ColumnTypeBigInt, ColumnTypeInt,
        ColumnTypeMediumInt, ColumnTypeTinyInt, ColumnTypeSmallInt, ColumnTypeJson,
        ColumnTypeDate, ColumnTypeDateTime, ColumnTypeTime, ColumnTypeTimestamp, ColumnTypeYear,
        ColumnTypeBinary, ColumnTypeBlob] = false := by decide
      have h4 : inArray ColumnTypeSet [ColumnTypeFloat, ColumnTypeDouble, ColumnTypeDecimal]
        = false := by decide
      have h5 : ¬ ColumnTypeSet = ColumnTypeEnum := by decide
      simp only [GetType, h1, h2, h3, h4, h5, ha, if_true, if_false, Bool.false_eq_true,
        quoteString, arrMap_eq_listMap]
  · rfl
  · rfl

/-- C9, at concrete columns: a varchar of length 20, a text, a float and a
decimal with total 10 and places 2, an enum over two values. -/
theorem GetType_table_witness :
    GetType ⟨"varchar", "c", [("length", Value.int 20)]⟩
      = some ("varchar" ++ "(" ++ strconvItoa 20 ++ ")")
    ∧ GetType ⟨"text", "c", []⟩ = some "text"
    ∧ GetType ⟨"float", "c", [("total", Value.int 10), ("places", Value.int 2)]⟩
      = some ("double" ++ "(" ++ strconvItoa 10 ++ ", " ++ strconvItoa 2 ++ ")")
    ∧ GetType ⟨"decimal", "c", [("total", Value.int 10), ("places", Value.int 2)]⟩
      = some ("decimal" ++ "(" ++ strconvItoa 10 ++ ", " ++ strconvItoa 2 ++ ")")
    ∧ GetType ⟨"enum", "c", [("allowed", Value.strs ["one", "two"])]⟩
      = some ("enum(" ++ stringsJoin (["one", "two"].map fun v => "'" ++ v ++ "'") ", " ++ ")") :=
  ⟨(GetType_table "c" [("length", Value.int 20)]).1 "varchar" 20 (Or.inr rfl) rfl,
   (GetType_table "c" []).2.1 "text" (by decide),
   (GetType_table "c" [("total", Value.int 10), ("places", Value.int 2)]).2.2.1 "float" 10 2
     (Or.inl rfl) rfl rfl,
   (GetType_table "c" [("total", Value.int 10), ("places", Value.int 2)]).2.2.2.1 10 2 rfl rfl,
   ((GetType_table "c" [("allowed", Value.strs ["one", "two"])]).2.2.2.2.1 ["one", "two"] rfl).1⟩


theorem trim_alterTable (rest : String) :
    trim ("alter table " ++ rest ++ ")") [] = "alter table " ++ rest ++ ")" := by
  have h := trim_enclosed 'a' ')' ("lter table " ++ rest) (by decide) (by decide)
  have e : "alter table " ++ rest ++ ")"
      = String.singleton 'a' ++ ("lter table " ++ rest) ++ String.singleton ')' := by
    have e1 : ("alter table " : String) = String.singleton 'a' ++ "lter table " := by decide
    have e2 : (")" : String) = String.singleton ')' := by decide
    rw [e1, e2]
    simp only [String.append_assoc]
  rw [e]
  exact h

theorem CompileKey_empty_algorithm (b : Blueprint) (name : String) (attrs : Map)
    (types index : String) (cols : List String)
    (hindex : attrs.get commandAttrIndex = some (Value.str index))
    (halgorithm : attrs.get commandAttrAlgorithm = some (Value.str "")
      ∨ attrs.get commandAttrAlgorithm = none)
    (hcolumns : attrs.get commandAttrColumns = some (Value.strs cols)) :
    CompileKey b ⟨name, attrs⟩ types
      = some ("alter table " ++ "`" ++ (b.Prefix ++ b.table) ++ "`" ++ " add " ++ types ++ " "
          ++ index ++ "(" ++ stringsJoin (cols.map fun c => "`" ++ c ++ "`") ", " ++ ")") := by
  have hindex2 : attrs.get commandIndex = some (Value.str index) := hindex
  have hwrap : (fun c : String => "`" ++ c ++ "`") = wrap := rfl
  have key : ∀ algorithm : String, algorithm = "" →
      trim ("alter table " ++ wrapTable b ++ " add " ++ types ++ " " ++ index
        ++ algorithm ++ "(" ++ stringsJoin (arrMap cols wrap) ", " ++ ")") []
      = "alter table " ++ "`" ++ (b.Prefix ++ b.table) ++ "`" ++ " add " ++ types ++ " "
          ++ index ++ "(" ++ stringsJoin (cols.map fun c => "`" ++ c ++ "`") ", " ++ ")" := by
    intro algorithm ha
    subst ha
    have e : "alter table " ++ wrapTable b ++ " add " ++ types ++ " " ++ index
        ++ "" ++ "(" ++ stringsJoin (arrMap cols wrap) ", " ++ ")"
        = "alter table " ++ (wrapTable b ++ " add " ++ types ++ " " ++ index
          ++ "(" ++ stringsJoin (arrMap cols wrap) ", ") ++ ")" := by
      simp only [String.append_assoc, String.empty_append]
    rw [e, trim_alterTable, arrMap_eq_listMap, hwrap]
    simp only [wrapTable, wrap, Blueprint.GetTable, String.append_assoc]
  unfold CompileKey
  rcases halgorithm with ha | ha
  · simp only [ha, hcolumns, hindex2, ne_eq, not_true_eq_false, if_false, Option.some_bind]
    rw [key "" rfl]
  · simp only [ha, hcolumns, hindex2, Option.some_bind]
    rw [key "" rfl]

/-- C10. A primary, unique or index command with an empty algorithm renders as
"alter table `<Prefix><table>` add <K> <index name>(<cols>)", where <K> is
"primary key", "unique" or "index" and <cols> lists the command's columns,
back-tick-quoted and joined by ", ", in their order; compiling the primary
command also overwrites its name with the empty string. -/
theorem compile_key_commands (marshalStrings : List String → String) (b : Blueprint)
    (attrs : Map) (index : String) (cols : List String)
    (hindex : attrs.get commandAttrIndex = some (Value.str index))
    (halgorithm : attrs.get commandAttrAlgorithm = some (Value.str "")
      ∨ attrs.get commandAttrAlgorithm = none)
    (hcolumns : attrs.get commandAttrColumns = some (Value.strs cols)) :
    Compile marshalStrings b ⟨commandPrimary, attrs⟩
      = Outcome.returns ("alter table " ++ "`" ++ (b.Prefix ++ b.table) ++ "`" ++ " add "
          ++ "primary key"
          ++ " " ++ index ++ "(" ++ stringsJoin (cols.map fun c => "`" ++ c ++ "`") ", " ++ ")",
          ⟨"", attrs⟩)
    ∧ Compile marshalStrings b ⟨commandUnique, attrs⟩
      = Outcome.returns ("alter table " ++ "`" ++ (b.Prefix ++ b.table) ++ "`" ++ " add " ++ "unique"
          ++ " " ++ index ++ "(" ++ stringsJoin (cols.map fun c => "`" ++ c ++ "`") ", " ++ ")",
          ⟨commandUnique, attrs⟩)
    ∧ Compile marshalStrings b ⟨commandIndex, attrs⟩
      = Outcome.returns ("alter table " ++ "`" ++ (b.Prefix ++ b.table) ++ "`" ++ " add "
          ++ "index"
          ++ " " ++ index ++ "(" ++ stringsJoin (cols.map fun c => "`" ++ c ++ "`") ", " ++ ")",
          ⟨commandIndex, attrs⟩) := by
  have hp : ucFirst commandPrimary = "Primary" := by decide
  have hu : ucFirst commandUnique = "Unique" := by decide
  have hi : ucFirst commandIndex = "Index" := by decide
  refine ⟨?_, ?_, ?_⟩
  · simp only [Compile, hp, CompilePrimary,
      CompileKey_empty_algorithm b "" attrs "primary key" index cols hindex halgorithm hcolumns]
    simp
  · simp only [Compile, hu, CompileUnique,
      CompileKey_empty_algorithm b commandUnique attrs "unique" index cols hindex halgorithm
        hcolumns]
    simp
  · simp only [Compile, hi, CompileIndex,
      CompileKey_empty_algorithm b commandIndex attrs "index" index cols hindex halgorithm
        hcolumns]
    simp

/-- C10, at the unique command of the two columns `account` and `name` of the
table `users`. -/
theorem compile_key_commands_witness :
    Compile (fun _ => "") ⟨"", "", "", "", "users", [], [], ⟨"", "", "", "", "", 255⟩⟩
        ⟨commandUnique, [("index", Value.str "users_account_name_unique"),
          ("algorithm", Value.str ""), ("columns", Value.strs ["account", "name"])]⟩
      = Outcome.returns ("alter table " ++ "`" ++ ("" ++ "users") ++ "`" ++ " add " ++ "unique"
          ++ " " ++ "users_account_name_unique" ++ "("
          ++ stringsJoin (["account", "name"].map fun c => "`" ++ c ++ "`") ", " ++ ")",
          ⟨commandUnique, [("index", Value.str "users_account_name_unique"),
            ("algorithm", Value.str ""), ("columns", Value.strs ["account", "name"])]⟩) :=
  (compile_key_commands (fun _ => "") ⟨"", "", "", "", "users", [], [], ⟨"", "", "", "", "", 255⟩⟩
    [("index", Value.str "users_account_name_unique"), ("algorithm", Value.str ""),
      ("columns", Value.strs ["account", "name"])]
    "users_account_name_unique" ["account", "name"] rfl (Or.inl rfl) rfl).2.1


/-! ## Lemmas on implied-command derivation -/

theorem indexCommand_str (toLowerRune : Char → Char) (b : Blueprint) (t column : String)
    (algorithm : List String) :
    b.indexCommand toLowerRune t (Value.str column) algorithm
      = { b with commands := b.commands
            ++ [indexCommandOf toLowerRune b t [column] (varDef algorithm "")] } := rfl

theorem indexCommand_strs (toLowerRune : Char → Char) (b : Blueprint) (t : String)
    (columns : List String) (algorithm : List String) :
    b.indexCommand toLowerRune t (Value.strs columns) algorithm
      = { b with commands := b.commands
            ++ [indexCommandOf toLowerRune b t columns (varDef algorithm "")] } := rfl

theorem fluentIndexLoop_eq (toLowerRune : Char → Char) (b : Blueprint) (column : Column) :
    Blueprint.fluentIndexLoop toLowerRune b column false
        [commandPrimary, commandUnique, commandIndex]
      = match fluentMarker column with
        | none => (b, column, false)
        | some k =>
          ({ b with commands := b.commands ++ [indexCommandOf toLowerRune b k [column.Name] ""] },
           { column with Attributes := column.Attributes.set k (Value.bool false) }, true) := by
  have hpu : ¬ commandUnique = commandPrimary := by decide
  have hip : ¬ commandIndex = commandPrimary := by decide
  have hiu : ¬ commandIndex = commandUnique := by decide
  cases hp : column.Attributes.get commandPrimary with
  | some v =>
    have hm : fluentMarker column = some commandPrimary := by
      simp [fluentMarker, ColumnAttrPrimary, commandPrimary] at hp ⊢
      simp [hp]
    rw [hm]
    simp only [Blueprint.fluentIndexLoop, hp, Bool.false_eq_true, if_false, if_true,
      Blueprint.Primary, indexCommand_str, varDef]
  | none =>
    cases hu : column.Attributes.get commandUnique with
    | some v =>
      have hm : fluentMarker column = some commandUnique := by
        simp [fluentMarker, ColumnAttrPrimary, ColumnAttrUnique, commandPrimary,
          commandUnique] at hp hu ⊢
        simp [hp, hu]
      rw [hm]
      simp only [Blueprint.fluentIndexLoop, hp, hu, hpu, Bool.false_eq_true, if_false, if_true,
        Blueprint.Unique, indexCommand_str, varDef]
    | none =>
      cases hi : column.Attributes.get commandIndex with
      | some v =>
        have hm : fluentMarker column = some commandIndex := by
          simp [fluentMarker, ColumnAttrPrimary, ColumnAttrUnique, ColumnAttrIndex,
            commandPrimary, commandUnique, commandIndex] at hp hu hi ⊢
          simp [hp, hu, hi]
        rw [hm]
        simp only [Blueprint.fluentIndexLoop, hp, hu, hi, hip, hiu, Bool.false_eq_true,
          if_false, if_true, Blueprint.Index, indexCommand_str, varDef]
      | none =>
        have hm : fluentMarker column = none := by
          simp [fluentMarker, ColumnAttrPrimary, ColumnAttrUnique, ColumnAttrIndex,
            commandPrimary, commandUnique, commandIndex] at hp hu hi ⊢
          simp [hp, hu, hi]
        rw [hm]
        simp only [Blueprint.fluentIndexLoop, hp, hu, hi, Bool.false_eq_true, if_false]

theorem fluentColumnsLoop_eq (toLowerRune : Char → Char) (columns : List Column) :
    ∀ (b : Blueprint) (done : List Column),
      Blueprint.fluentColumnsLoop toLowerRune b done columns
        = ({ b with commands := b.commands ++ columns.filterMap fun column =>
              (fluentMarker column).map fun k =>
                indexCommandOf toLowerRune b k [column.Name] "" },
           done ++ columns.map overwriteMarker) := by
  induction columns with
  | nil => intro b done; simp [Blueprint.fluentColumnsLoop]
  | cons column rest ih =>
    intro b done
    unfold Blueprint.fluentColumnsLoop
    simp only [fluentIndexLoop_eq]
    cases hm : fluentMarker column with
    | none =>
      simp only [ih, List.filterMap_cons, hm, Option.map_none', List.map_cons, overwriteMarker,
        List.append_assoc, List.singleton_append]
    | some k =>
      simp only [ih, List.filterMap_cons, hm, Option.map_some', List.map_cons, overwriteMarker,
        List.append_assoc, List.singleton_append]
      rfl

theorem addFluentIndexes_eq (toLowerRune : Char → Char) (b : Blueprint) :
    b.addFluentIndexes toLowerRune
      = { b with commands := b.commands ++ fluentCommands toLowerRune b,
                 columns := b.columns.map overwriteMarker } := by
  unfold Blueprint.addFluentIndexes
  simp only [fluentColumnsLoop_eq, List.nil_append]
  rfl

theorem creating_addCommand (b : Blueprint) (name : String) (parameters : List Map)
    (h : name ≠ commandCreate) : (b.addCommand name parameters).creating = b.creating := by
  simp [Blueprint.creating, Blueprint.addCommand, Blueprint.createCommand, h]

theorem addedColumns_nonempty (b : Blueprint) :
    decide (b.getAddedColumns.length > 0) = b.columns.any (fun c => !markedForChange c) := by
  rw [getAddedColumns_eq]
  induction b.columns with
  | nil => rfl
  | cons c rest ih =>
    cases h : markedForChange c <;> simp_all [List.filter_cons]

theorem changedColumns_nonempty (b : Blueprint) :
    decide (b.getChangedColumns.length > 0) = b.columns.any markedForChange := by
  rw [getChangedColumns_eq]
  induction b.columns with
  | nil => rfl
  | cons c rest ih =>
    cases h : markedForChange c <;> simp_all [List.filter_cons]

theorem addImpliedCommands_eq (toLowerRune : Char → Char) (b : Blueprint) :
    b.addImpliedCommands toLowerRune
      = { b with commands := b.commands ++ impliedAdd b ++ impliedChange b
                   ++ fluentCommands toLowerRune b,
                 columns := b.columns.map overwriteMarker } := by
  have hadd : commandAdd ≠ commandCreate := by decide
  unfold Blueprint.addImpliedCommands
  simp only [addFluentIndexes_eq, impliedAdd, impliedChange]
  rw [addedColumns_nonempty b]
  by_cases h1 : (!b.creating && b.columns.any (fun c => !markedForChange c)) = true
  · simp only [h1, if_true]
    rw [changedColumns_nonempty, creating_addCommand b commandAdd [] hadd]
    by_cases h2 : (!b.creating && b.columns.any markedForChange) = true
    · simp only [Blueprint.addCommand, Blueprint.createCommand, varDef] at h2 ⊢
      simp only [h2, if_true, List.append_assoc]
      rfl
    · simp only [Blueprint.addCommand, Blueprint.createCommand, varDef] at h2 ⊢
      simp only [h2, if_false, List.append_assoc, List.append_nil, Bool.false_eq_true]
      rfl
  · simp only [h1, if_false, Bool.false_eq_true]
    rw [changedColumns_nonempty]
    by_cases h2 : (!b.creating && b.columns.any markedForChange) = true
    · simp only [Blueprint.addCommand, Blueprint.createCommand, varDef] at h2 ⊢
      simp only [h2, if_true, List.append_assoc, List.append_nil]
      rfl
    · simp only [h2, if_false, List.append_assoc, List.append_nil, Bool.false_eq_true]


theorem fluentCommands_names (toLowerRune : Char → Char) (b : Blueprint) :
    ∀ command ∈ fluentCommands toLowerRune b,
      command.Name = commandPrimary ∨ command.Name = commandUnique
        ∨ command.Name = commandIndex := by
  intro command hc
  simp only [fluentCommands, List.mem_filterMap, Option.map_eq_some'] at hc
  obtain ⟨column, _, k, hk, rfl⟩ := hc
  simp only [indexCommandOf]
  unfold fluentMarker at hk
  split_ifs at hk <;> simp_all

/-- C4. Implied-command derivation appends, after the commands already held, the
add command, then the change command, then the fluent index commands. Without a
create command there is exactly one appended add command if some column is not
marked for change and none otherwise, and exactly one appended change command
if some column is marked for change and none otherwise; with a create command
neither is appended. -/
theorem addImpliedCommands_add_change (toLowerRune : Char → Char) (b : Blueprint) :
    (b.addImpliedCommands toLowerRune).commands
      = b.commands ++ impliedAdd b ++ impliedChange b ++ fluentCommands toLowerRune b
    ∧ (∀ command ∈ fluentCommands toLowerRune b,
        command.Name ≠ commandAdd ∧ command.Name ≠ commandChange)
    ∧ (b.creating = false →
        (impliedAdd b = if b.columns.any (fun c => !markedForChange c) then [⟨commandAdd, []⟩]
          else [])
        ∧ (impliedChange b = if b.columns.any (fun c => markedForChange c)
            then [⟨commandChange, []⟩] else []))
    ∧ (b.creating = true → impliedAdd b = [] ∧ impliedChange b = [])
    ∧ ((impliedAdd b ++ impliedChange b ++ fluentCommands toLowerRune b).countP
          (fun command => decide (command.Name = commandAdd))
        = if b.creating = false ∧ ∃ c ∈ b.columns, markedForChange c = false then 1 else 0)
    ∧ ((impliedAdd b ++ impliedChange b ++ fluentCommands toLowerRune b).countP
          (fun command => decide (command.Name = commandChange))
        = if b.creating = false ∧ ∃ c ∈ b.columns, markedForChange c = true then 1 else 0) := by
  have hnames : ∀ command ∈ fluentCommands toLowerRune b,
      command.Name ≠ commandAdd ∧ command.Name ≠ commandChange := by
    intro command hc
    rcases fluentCommands_names toLowerRune b command hc with h | h | h <;> rw [h] <;>
      constructor <;> decide
  have hfa : (fluentCommands toLowerRune b).countP
      (fun command => decide (command.Name = commandAdd)) = 0 := by
    rw [List.countP_eq_zero]
    intro command hc
    simpa using (hnames command hc).1
  have hfc : (fluentCommands toLowerRune b).countP
      (fun command => decide (command.Name = commandChange)) = 0 := by
    rw [List.countP_eq_zero]
    intro command hc
    simpa using (hnames command hc).2
  have hca : ¬ commandChange = commandAdd := by decide
  have hac : ¬ commandAdd = commandChange := by decide
  refine ⟨?_, hnames, ?_, ?_, ?_, ?_⟩
  · rw [addImpliedCommands_eq]
  · intro hcr
    simp [impliedAdd, impliedChange, hcr]
  · intro hcr
    simp [impliedAdd, impliedChange, hcr]
  · rw [List.countP_append, List.countP_append, hfa]
    cases hcr : b.creating <;> by_cases h1 : ∃ c ∈ b.columns, markedForChange c = false <;>
      by_cases h2 : b.columns.any markedForChange = true <;>
      simp [impliedAdd, impliedChange, hcr, h1, h2, hca, List.countP_cons, List.countP_nil]
  · rw [List.countP_append, List.countP_append, hfc]
    cases hcr : b.creating <;> by_cases h1 : ∃ c ∈ b.columns, markedForChange c = true <;>
      by_cases h2 : b.columns.any (fun c => !markedForChange c) = true <;>
      simp [impliedAdd, impliedChange, hcr, h1, h2, hac, List.countP_cons, List.countP_nil]

/-- C4, at the blueprint of the table `users` with one column marked for change
and one not: without a create command, and with one. -/
theorem addImpliedCommands_add_change_witness :
    (impliedAdd ⟨"", "", "", "", "users",
        [⟨"int", "age", []⟩, ⟨"text", "bio", [("change", Value.bool true)]⟩], [],
        ⟨"", "", "", "", "", 255⟩⟩
      = [⟨commandAdd, []⟩]
    ∧ impliedChange ⟨"", "", "", "", "users",
        [⟨"int", "age", []⟩, ⟨"text", "bio", [("change", Value.bool true)]⟩], [],
        ⟨"", "", "", "", "", 255⟩⟩
      = [⟨commandChange, []⟩])
    ∧ (impliedAdd ⟨"", "", "", "", "users",
        [⟨"int", "age", []⟩, ⟨"text", "bio", [("change", Value.bool true)]⟩],
        [⟨commandCreate, []⟩], ⟨"", "", "", "", "", 255⟩⟩
      = []
    ∧ impliedChange ⟨"", "", "", "", "users",
        [⟨"int", "age", []⟩, ⟨"text", "bio", [("change", Value.bool true)]⟩],
        [⟨commandCreate, []⟩], ⟨"", "", "", "", "", 255⟩⟩
      = []) :=
  ⟨(addImpliedCommands_add_change Char.toLower ⟨"", "", "", "", "users",
      [⟨"int", "age", []⟩, ⟨"text", "bio", [("change", Value.bool true)]⟩], [],
      ⟨"", "", "", "", "", 255⟩⟩).2.2.1 (by decide),
   (addImpliedCommands_add_change Char.toLower ⟨"", "", "", "", "users",
      [⟨"int", "age", []⟩, ⟨"text", "bio", [("change", Value.bool true)]⟩],
      [⟨commandCreate, []⟩], ⟨"", "", "", "", "", 255⟩⟩).2.2.2.1 (by decide)⟩


/-- C5. One invocation of `addFluentIndexes` appends, for each column in
declaration order, at most one index command: a primary command if `primary` is
a key of the column's attributes, otherwise a unique command if `unique` is,
otherwise an index command if `index` is, otherwise none; the appended command
has an empty algorithm and covers exactly that one column. -/
theorem addFluentIndexes_commands (toLowerRune : Char → Char) (b : Blueprint) :
    (b.addFluentIndexes toLowerRune).commands
      = b.commands ++ b.columns.filterMap (fun column =>
          (fluentMarker column).map fun k =>
            (⟨k, [(commandAttrIndex, Value.str (b.createIndexName toLowerRune k [column.Name])),
              (commandAttrAlgorithm, Value.str ""),
              (commandAttrColumns, Value.strs [column.Name])]⟩ : Command))
    ∧ (∀ column : Column,
        ((column.Attributes.get ColumnAttrPrimary).isSome = true →
          fluentMarker column = some commandPrimary)
        ∧ (column.Attributes.get ColumnAttrPrimary = none →
            (column.Attributes.get ColumnAttrUnique).isSome = true →
            fluentMarker column = some commandUnique)
        ∧ (column.Attributes.get ColumnAttrPrimary = none →
            column.Attributes.get ColumnAttrUnique = none →
            (column.Attributes.get ColumnAttrIndex).isSome = true →
            fluentMarker column = some commandIndex)
        ∧ (column.Attributes.get ColumnAttrPrimary = none →
            column.Attributes.get ColumnAttrUnique = none →
            column.Attributes.get ColumnAttrIndex = none →
            fluentMarker column = none))
    ∧ (∀ column : Column,
        (Blueprint.fluentIndexLoop toLowerRune b column false
            [commandPrimary, commandUnique, commandIndex]).1.commands
          = b.commands ++ ((fluentMarker column).map fun k =>
              (⟨k, [(commandAttrIndex,
                  Value.str (b.createIndexName toLowerRune k [column.Name])),
                (commandAttrAlgorithm, Value.str ""),
                (commandAttrColumns, Value.strs [column.Name])]⟩ : Command)).toList) := by
  refine ⟨?_, ?_, ?_⟩
  · rw [addFluentIndexes_eq]
    rfl
  · intro column
    refine ⟨?_, ?_, ?_, ?_⟩
    · intro h
      simp [fluentMarker, h]
    · intro h1 h2
      simp [fluentMarker, h1, h2]
    · intro h1 h2 h3
      simp [fluentMarker, h1, h2, h3]
    · intro h1 h2 h3
      simp [fluentMarker, h1, h2, h3]
  · intro column
    rw [fluentIndexLoop_eq]
    cases fluentMarker column with
    | none => simp
    | some k => simp [indexCommandOf]

/-- C5, at a column carrying the `unique` and `index` markers and a column
carrying none. -/
theorem addFluentIndexes_commands_witness :
    fluentMarker ⟨"int", "age", [("unique", Value.bool true), ("index", Value.bool true)]⟩
      = some commandUnique
    ∧ fluentMarker ⟨"int", "age", [("primary", Value.bool true)]⟩ = some commandPrimary
    ∧ fluentMarker ⟨"int", "age", [("index", Value.bool true)]⟩ = some commandIndex
    ∧ fluentMarker ⟨"int", "age", []⟩ = none :=
  ⟨((addFluentIndexes_commands Char.toLower
      ⟨"", "", "", "", "users", [], [], ⟨"", "", "", "", "", 255⟩⟩).2.1
      ⟨"int", "age", [("unique", Value.bool true), ("index", Value.bool true)]⟩).2.1 rfl rfl,
   ((addFluentIndexes_commands Char.toLower
      ⟨"", "", "", "", "users", [], [], ⟨"", "", "", "", "", 255⟩⟩).2.1
      ⟨"int", "age", [("primary", Value.bool true)]⟩).1 rfl,
   ((addFluentIndexes_commands Char.toLower
      ⟨"", "", "", "", "users", [], [], ⟨"", "", "", "", "", 255⟩⟩).2.1
      ⟨"int", "age", [("index", Value.bool true)]⟩).2.2.1 rfl rfl rfl,
   ((addFluentIndexes_commands Char.toLower
      ⟨"", "", "", "", "users", [], [], ⟨"", "", "", "", "", 255⟩⟩).2.1
      ⟨"int", "age", []⟩).2.2.2 rfl rfl rfl⟩

/-- C6. For a column on which derivation acts with the marker of kind k, the
blueprint after the column's derivation step is the blueprint after the explicit
builder call of kind k with the column's name, passed as a string or as a
one-element list: the appended command has the name k, the index name derived
from k and the one column, the column list of that one name and an empty
algorithm. -/
theorem fluent_eq_explicit (toLowerRune : Char → Char) (b : Blueprint) (column : Column) :
    (fluentMarker column = some commandPrimary →
      (Blueprint.fluentIndexLoop toLowerRune b column false
          [commandPrimary, commandUnique, commandIndex]).1
        = b.Primary toLowerRune (Value.str column.Name) []
      ∧ b.Primary toLowerRune (Value.str column.Name) []
        = b.Primary toLowerRune (Value.strs [column.Name]) []
      ∧ (b.Primary toLowerRune (Value.str column.Name) []).commands
        = b.commands ++ [⟨commandPrimary,
            [(commandAttrIndex,
                Value.str (b.createIndexName toLowerRune commandPrimary [column.Name])),
              (commandAttrAlgorithm, Value.str ""),
              (commandAttrColumns, Value.strs [column.Name])]⟩])
    ∧ (fluentMarker column = some commandUnique →
      (Blueprint.fluentIndexLoop toLowerRune b column false
          [commandPrimary, commandUnique, commandIndex]).1
        = b.Unique toLowerRune (Value.str column.Name) []
      ∧ b.Unique toLowerRune (Value.str column.Name) []
        = b.Unique toLowerRune (Value.strs [column.Name]) []
      ∧ (b.Unique toLowerRune (Value.str column.Name) []).commands
        = b.commands ++ [⟨commandUnique,
            [(commandAttrIndex,
                Value.str (b.createIndexName toLowerRune commandUnique [column.Name])),
              (commandAttrAlgorithm, Value.str ""),
              (commandAttrColumns, Value.strs [column.Name])]⟩])
    ∧ (fluentMarker column = some commandIndex →
      (Blueprint.fluentIndexLoop toLowerRune b column false
          [commandPrimary, commandUnique, commandIndex]).1
        = b.Index toLowerRune (Value.str column.Name) []
      ∧ b.Index toLowerRune (Value.str column.Name) []
        = b.Index toLowerRune (Value.strs [column.Name]) []
      ∧ (b.Index toLowerRune (Value.str column.Name) []).commands
        = b.commands ++ [⟨commandIndex,
            [(commandAttrIndex,
                Value.str (b.createIndexName toLowerRune commandIndex [column.Name])),
              (commandAttrAlgorithm, Value.str ""),
              (commandAttrColumns, Value.strs [column.Name])]⟩]) := by
  refine ⟨?_, ?_, ?_⟩ <;> intro h <;> rw [fluentIndexLoop_eq, h] <;>
    exact ⟨rfl, rfl, rfl⟩

/-- C6, at the columns `id`, `email` and `age` of the table `users`, carrying
the primary, the unique and the index marker. -/
theorem fluent_eq_explicit_witness :
    (Blueprint.fluentIndexLoop Char.toLower
        ⟨"", "", "", "", "users", [], [], ⟨"", "", "", "", "", 255⟩⟩
        ⟨"int", "id", [("primary", Value.bool true)]⟩ false
        [commandPrimary, commandUnique, commandIndex]).1
      = Blueprint.Primary Char.toLower
          ⟨"", "", "", "", "users", [], [], ⟨"", "", "", "", "", 255⟩⟩ (Value.str "id") []
    ∧ (Blueprint.fluentIndexLoop Char.toLower
        ⟨"", "", "", "", "users", [], [], ⟨"", "", "", "", "", 255⟩⟩
        ⟨"varchar", "email", [("length", Value.int 50), ("unique", Value.bool true)]⟩ false
        [commandPrimary, commandUnique, commandIndex]).1
      = Blueprint.Unique Char.toLower
          ⟨"", "", "", "", "users", [], [], ⟨"", "", "", "", "", 255⟩⟩ (Value.str "email") []
    ∧ (Blueprint.fluentIndexLoop Char.toLower
        ⟨"", "", "", "", "users", [], [], ⟨"", "", "", "", "", 255⟩⟩
        ⟨"int", "age", [("index", Value.bool true)]⟩ false
        [commandPrimary, commandUnique, commandIndex]).1
      = Blueprint.Index Char.toLower
          ⟨"", "", "", "", "users", [], [], ⟨"", "", "", "", "", 255⟩⟩ (Value.str "age") [] :=
  ⟨((fluent_eq_explicit Char.toLower
      ⟨"", "", "", "", "users", [], [], ⟨"", "", "", "", "", 255⟩⟩
      ⟨"int", "id", [("primary", Value.bool true)]⟩).1 (by decide)).1,
   ((fluent_eq_explicit Char.toLower
      ⟨"", "", "", "", "users", [], [], ⟨"", "", "", "", "", 255⟩⟩
      ⟨"varchar", "email", [("length", Value.int 50), ("unique", Value.bool true)]⟩).2.1
      (by decide)).1,
   ((fluent_eq_explicit Char.toLower
      ⟨"", "", "", "", "users", [], [], ⟨"", "", "", "", "", 255⟩⟩
      ⟨"int", "age", [("index", Value.bool true)]⟩).2.2 (by decide)).1⟩


/-! ## Lemmas on statement assembly -/

theorem columnDefinitions_commands_irrelevant (marshalStrings : List String → String)
    (b : Blueprint) (commands : List Command) (columns : List Column) :
    columnDefinitions marshalStrings { b with commands := commands } columns
      = columnDefinitions marshalStrings b columns := by
  rw [columnDefinitions_eq, columnDefinitions_eq]
  rfl

theorem Compile_commands_irrelevant (marshalStrings : List String → String) (b : Blueprint)
    (commands : List Command) (command : Command) :
    Compile marshalStrings { b with commands := commands } command
      = Compile marshalStrings b command := by
  simp only [Compile, CompileCreate, CompileCreateTable, GetColumns, CompileCreateEncoding,
    CompileCreateEngine, CompileAdd, CompileChange, GetChangeColumns, CompileRename,
    CompilePrimary, CompileKey, CompileUnique, CompileIndex, CompileDrop, CompileDropIfExists,
    CompileDropColumn, CompileDropPrimary, CompileDropUnique, CompileDropIndex,
    CompileTableComment, wrapTable, Blueprint.GetTable, Blueprint.getAddedColumns,
    Blueprint.getChangedColumns, columnDefinitions_commands_irrelevant]

theorem allSome_append {α : Type} (xs ys : List (Option α)) :
    allSome (xs ++ ys)
      = (allSome xs).bind fun l => (allSome ys).map fun r => l ++ r := by
  induction xs with
  | nil => simp [allSome]
  | cons x xs ih =>
    cases x with
    | none => simp [allSome]
    | some a =>
      rw [List.cons_append]
      simp only [allSome]
      rw [ih]
      cases allSome xs with
      | none => simp
      | some l =>
        cases allSome ys with
        | none => simp
        | some r => simp

theorem allReturn_append {α : Type} (xs ys : List (Outcome α)) :
    allReturn (xs ++ ys)
      = (allReturn xs).bind fun l => (allReturn ys).map fun r => l ++ r := by
  induction xs with
  | nil =>
    simp only [List.nil_append, allReturn, Outcome.bind_returns]
    cases allReturn ys <;> simp
  | cons x xs ih =>
    cases x with
    | panics => simp [allReturn]
    | overflows => simp [allReturn]
    | returns a =>
      rw [List.cons_append]
      simp only [allReturn]
      rw [ih]
      cases allReturn xs with
      | panics => simp
      | overflows => simp
      | returns l =>
        cases allReturn ys with
        | panics => simp
        | overflows => simp
        | returns r => simp

theorem compileCommands_eq (marshalStrings : List String → String) (b : Blueprint)
    (commands : List Command) :
    ∀ (done : List Command) (statements : List String),
      Blueprint.compileCommands marshalStrings b done statements commands
        = (allReturn (commands.map (Compile marshalStrings b))).map fun rs =>
            (statements ++ rs.map Prod.fst, done ++ rs.map Prod.snd) := by
  induction commands with
  | nil => intro done statements; simp [Blueprint.compileCommands, allReturn]
  | cons command rest ih =>
    intro done statements
    unfold Blueprint.compileCommands
    rw [Compile_commands_irrelevant]
    cases hc : Compile marshalStrings b command with
    | panics => simp [allReturn, hc]
    | overflows => simp [allReturn, hc]
    | returns r =>
      obtain ⟨statement, command2⟩ := r
      simp only [ih, List.map_cons, hc, allReturn]
      cases allReturn (rest.map (Compile marshalStrings b)) with
      | panics => simp
      | overflows => simp
      | returns rs => simp

theorem ToSql_eq (toLowerRune : Char → Char) (marshalStrings : List String → String)
    (b : Blueprint) :
    b.ToSql toLowerRune marshalStrings
      = (allReturn ((b.addImpliedCommands toLowerRune).commands.map
          (Compile marshalStrings (b.addImpliedCommands toLowerRune)))).map fun rs =>
            (unique (rs.map Prod.fst),
             { b.addImpliedCommands toLowerRune with commands := rs.map Prod.snd }) := by
  unfold Blueprint.ToSql
  simp only [compileCommands_eq, List.nil_append]
  cases allReturn ((b.addImpliedCommands toLowerRune).commands.map
      (Compile marshalStrings (b.addImpliedCommands toLowerRune))) with
  | panics => rfl
  | overflows => rfl
  | returns rs => rfl

theorem unique_append {α : Type} [DecidableEq α] (xs ys : List α) :
    unique (xs ++ ys) = unique xs ++ (unique ys).filter (fun y => decide (y ∉ xs)) := by
  simp only [unique_eq_firstOccurrences, firstOccurrences_append]

set_option maxRecDepth 100000

/-- C3, counterexample. The table `users` altered by the calls Int("age").Index(),
Index("age") and Unique(["email"]): the commands held are the explicit index over
`age` and the explicit unique index over `email`, the implied commands are the
add command and the fluent index over `age`, whose statement is the one of the
explicit index command. `ToSql` returns the index statement, the unique statement
and the add statement: the statement of the implied fluent index command stands
first, before the statement of the explicit unique command. -/
theorem ToSql_order_counterexample :
    exampleIndexTwice.commands.map (fun command => command.Name) = ["index", "unique"]
    ∧ (impliedAdd exampleIndexTwice ++ impliedChange exampleIndexTwice
        ++ fluentCommands Char.toLower exampleIndexTwice).map (fun command => command.Name)
      = ["add", "index"]
    ∧ (allReturn (exampleIndexTwice.commands.map
        (Compile (fun _ => "") (exampleIndexTwice.addImpliedCommands Char.toLower)))).map
          (fun rs => rs.map Prod.fst)
      = Outcome.returns [
        "alter table `users` add index users_age_index(`age`)",
        "alter table `users` add unique users_email_unique(`email`)"]
    ∧ (allReturn ((impliedAdd exampleIndexTwice ++ impliedChange exampleIndexTwice
          ++ fluentCommands Char.toLower exampleIndexTwice).map
        (Compile (fun _ => "") (exampleIndexTwice.addImpliedCommands Char.toLower)))).map
          (fun rs => rs.map Prod.fst)
      = Outcome.returns [
        "alter table `users` add `age` int not null",
        "alter table `users` add index users_age_index(`age`)"]
    ∧ (exampleIndexTwice.ToSql Char.toLower (fun _ => "")).map Prod.fst
      = Outcome.returns [
        "alter table `users` add index users_age_index(`age`)",
        "alter table `users` add unique users_email_unique(`email`)",
        "alter table `users` add `age` int not null"]
    ∧ List.indexOf "alter table `users` add index users_age_index(`age`)" [
        "alter table `users` add index users_age_index(`age`)",
        "alter table `users` add unique users_email_unique(`email`)",
        "alter table `users` add `age` int not null"]
      < List.indexOf "alter table `users` add unique users_email_unique(`email`)" [
        "alter table `users` add index users_age_index(`age`)",
        "alter table `users` add unique users_email_unique(`email`)",
        "alter table `users` add `age` int not null"] := by
  decide

/-- C3, amended. `ToSql` ends as the compilations of the command sequence after
derivation, made in its order, end: the commands already held, then the implied
add command, then the implied change command, then the fluent index commands in
column declaration order; when they all return, it returns the deduplicated list
of their statements. The statements of the commands already held come first,
deduplicated, followed by the statements of the implied commands that are not
among them: every statement of a command already held precedes every statement
of an implied command that is not itself the statement of a command already
held. -/
theorem ToSql_order (toLowerRune : Char → Char) (marshalStrings : List String → String)
    (b : Blueprint) :
    (b.addImpliedCommands toLowerRune).commands
      = b.commands ++ impliedAdd b ++ impliedChange b ++ fluentCommands toLowerRune b
    ∧ b.ToSql toLowerRune marshalStrings
      = (allReturn ((b.addImpliedCommands toLowerRune).commands.map
          (Compile marshalStrings (b.addImpliedCommands toLowerRune)))).map (fun rs =>
            (unique (rs.map Prod.fst),
             { b.addImpliedCommands toLowerRune with commands := rs.map Prod.snd }))
    ∧ (∀ explicit implied : List (String × Command),
        allReturn (b.commands.map (Compile marshalStrings (b.addImpliedCommands toLowerRune)))
          = Outcome.returns explicit →
        allReturn ((impliedAdd b ++ impliedChange b ++ fluentCommands toLowerRune b).map
            (Compile marshalStrings (b.addImpliedCommands toLowerRune)))
          = Outcome.returns implied →
        (b.ToSql toLowerRune marshalStrings).map Prod.fst
          = Outcome.returns (unique (explicit.map Prod.fst)
              ++ (unique (implied.map Prod.fst)).filter
                  (fun s => decide (s ∉ explicit.map Prod.fst)))
        ∧ ∀ se ∈ explicit.map Prod.fst, ∀ si ∈ implied.map Prod.fst,
            si ∉ explicit.map Prod.fst →
            (unique (explicit.map Prod.fst)
              ++ (unique (implied.map Prod.fst)).filter
                  (fun s => decide (s ∉ explicit.map Prod.fst))).indexOf se
            < (unique (explicit.map Prod.fst)
              ++ (unique (implied.map Prod.fst)).filter
                  (fun s => decide (s ∉ explicit.map Prod.fst))).indexOf si) := by
  have hcmds : (b.addImpliedCommands toLowerRune).commands
      = b.commands ++ (impliedAdd b ++ impliedChange b ++ fluentCommands toLowerRune b) := by
    rw [addImpliedCommands_eq]
    simp only [List.append_assoc]
  refine ⟨by rw [hcmds]; simp only [List.append_assoc], ToSql_eq toLowerRune marshalStrings b, ?_⟩
  intro explicit implied he hi
  constructor
  · rw [ToSql_eq, hcmds, List.map_append, allReturn_append, he, hi]
    simp only [Outcome.bind_returns, Outcome.map_returns, List.map_append, unique_append]
  · intro se hse si _ hsi
    have h1 : se ∈ unique (explicit.map Prod.fst) := by
      rw [unique_eq_firstOccurrences, mem_firstOccurrences]; exact hse
    have h2 : si ∉ unique (explicit.map Prod.fst) := by
      rw [unique_eq_firstOccurrences, mem_firstOccurrences]; exact hsi
    rw [List.indexOf_append_of_mem h1, List.indexOf_append_of_not_mem h2]
    exact Nat.lt_of_lt_of_le (List.indexOf_lt_length.2 h1) (Nat.le_add_right _ _)

/-- C3 amended, at the blueprints of the tests `Column_Index` and
`Column_Update_Delete`: the create and the explicit unique statement precede the
fluent primary and index statements, and the drop statement precedes the modify
statement. -/
theorem ToSql_order_witness :
    (exampleColumnIndex.ToSql Char.toLower (fun _ => "")).map Prod.fst
      = Outcome.returns [
        "create table `users` (`id` int unsigned not null, `account` varchar(50) not null, `name` varchar(30) not null, `age` int not null) default character set utf8mb4 collate 'utf8mb4_unicode_ci' engine = InnoDB",
        "alter table `users` add unique users_account_name_unique(`account`, `name`)",
        "alter table `users` add primary key users_id_primary(`id`)",
        "alter table `users` add index users_age_index(`age`)"]
    ∧ (exampleUpdateDelete.ToSql Char.toLower (fun _ => "")).map Prod.fst
      = Outcome.returns [
        "alter table `users` drop `age`, drop `account`",
        "alter table `users` modify `name` varchar(30) not null default 'a' comment '姓名'"] :=
  ⟨((ToSql_order Char.toLower (fun _ => "") exampleColumnIndex).2.2
      [("create table `users` (`id` int unsigned not null, `account` varchar(50) not null, `name` varchar(30) not null, `age` int not null) default character set utf8mb4 collate 'utf8mb4_unicode_ci' engine = InnoDB",
          ⟨"create", []⟩),
        ("alter table `users` add unique users_account_name_unique(`account`, `name`)",
          ⟨"unique", [("index", Value.str "users_account_name_unique"),
            ("algorithm", Value.str ""), ("columns", Value.strs ["account", "name"])]⟩)]
      [("alter table `users` add primary key users_id_primary(`id`)",
          ⟨"", [("index", Value.str "users_id_primary"), ("algorithm", Value.str ""),
            ("columns", Value.strs ["id"])]⟩),
        ("alter table `users` add index users_age_index(`age`)",
          ⟨"index", [("index", Value.str "users_age_index"), ("algorithm", Value.str ""),
            ("columns", Value.strs ["age"])]⟩)]
      (by decide) (by decide)).1,
   ((ToSql_order Char.toLower (fun _ => "") exampleUpdateDelete).2.2
      [("alter table `users` drop `age`, drop `account`",
          ⟨"dropColumn", [("columns", Value.strs ["age", "account"])]⟩)]
      [("alter table `users` modify `name` varchar(30) not null default 'a' comment '姓名'",
          ⟨"change", []⟩)]
      (by decide) (by decide)).1⟩

/-! ## The clauses of addModifiers -/

theorem ite_append_string (c : Prop) [Decidable c] (x a : String) :
    (if c then x ++ a else x) = x ++ (if c then a else "") := by
  split_ifs
  · rfl
  · rw [String.append_empty]

theorem default_append_string (marshalStrings : List String → String) (x : String) (d : Value) :
    (if d = Value.str "" then x ++ " default ''"
      else x ++ (" default '" ++ convString marshalStrings d ++ "'"))
      = x ++ (" default '" ++ convString marshalStrings d ++ "'") := by
  by_cases h : d = Value.str ""
  · subst h
    have hq : (" default '" ++ "" ++ "'" : String) = " default ''" := by decide
    simp only [if_true, convString, hq]
  · simp only [h, if_false]

theorem comment_append_string (x cm : String) :
    (if cm ≠ "" then some (x ++ (" comment '" ++ cm ++ "'")) else some x)
      = some (x ++ (if cm = "" then "" else " comment '" ++ cm ++ "'")) := by
  by_cases h : cm = ""
  · simp only [h, ne_eq, not_true_eq_false, if_false, if_true, String.append_empty]
  · simp only [h, ne_eq, not_false_eq_true, if_true, if_false]

theorem addModifiers_eq_clauses (marshalStrings : List String → String) (sql : String)
    (b : Blueprint) (column : Column) :
    addModifiers marshalStrings sql b column
      = (charsetClause column).bind fun cs =>
          (collateClause column).bind fun co =>
            (nullableClause column).bind fun nu =>
              (commentClause column).map fun cm =>
                sql ++ unsignedClause column ++ cs ++ co ++ nu
                  ++ defaultClause marshalStrings column ++ incrementClause column ++ cm := by
  have hu : (" " ++ ColumnAttrUnsigned : String) = " unsigned" := by decide
  have hser : (inArray column.Type_ [ColumnTypeBigInt, ColumnTypeInt, ColumnTypeMediumInt,
      ColumnTypeSmallInt, ColumnTypeTinyInt]
        && decide (column.Attributes.get ColumnAttrAutoIncrement = some (Value.bool true))) = true
      ↔ (column.Type_ ∈ [ColumnTypeBigInt, ColumnTypeInt, ColumnTypeMediumInt,
          ColumnTypeSmallInt, ColumnTypeTinyInt]
        ∧ column.Attributes.get ColumnAttrAutoIncrement = some (Value.bool true)) := by
    rw [Bool.and_eq_true, inArray_eq_true_iff, decide_eq_true_eq]
  unfold addModifiers
  simp only [hser, hu, ite_append_string, default_append_string, comment_append_string]
  unfold charsetClause collateClause nullableClause commentClause unsignedClause defaultClause
    incrementClause
  rcases hcs : column.Attributes.get ColumnAttrCharset with _ | (_ | cs | _ | _) <;>
    simp only [Option.some_bind, Option.none_bind, Option.map_none', Option.map_some'] <;>
  rcases hco : column.Attributes.get ColumnAttrCollate with _ | (_ | co | _ | _) <;>
    simp only [Option.some_bind, Option.none_bind, Option.map_none', Option.map_some'] <;>
  rcases hnu : column.Attributes.get ColumnAttrNullable with _ | (_ | _ | (_ | _) | _) <;>
    simp only [Option.some_bind, Option.none_bind, Option.map_none', Option.map_some',
      Bool.false_eq_true, if_true, if_false] <;>
  rcases hcm : column.Attributes.get ColumnAttrComment with _ | (_ | cm | _ | _) <;>
    simp only [Option.some_bind, Option.none_bind, Option.map_none', Option.map_some'] <;>
  rcases hdf : column.Attributes.get ColumnAttrDefault with _ | d <;>
    simp only [Option.some_bind, Option.none_bind, Option.map_none', Option.map_some',
      String.append_assoc, String.append_empty, String.empty_append]

/-- C11. The add command renders as "alter table `<Prefix><table>` " followed by
"add <col def>" for each column not marked for change, joined by ", " in
declaration order; the change command renders the same way with "modify <col
def>" for each column marked for change. A column definition is the
back-tick-quoted name, a space, the type fragment and the modifiers; the
command is left as it is and the compilation panics exactly when a column
definition panics. -/
theorem compile_add_change (marshalStrings : List String → String) (b : Blueprint)
    (attrs : Map) :
    Compile marshalStrings b ⟨commandAdd, attrs⟩
      = Outcome.ofOption ((allSome ((b.columns.filter (fun c => !markedForChange c)).map
          (columnDefinition marshalStrings b))).map
        (fun defs =>
          ("alter table " ++ "`" ++ (b.Prefix ++ b.table) ++ "`" ++ " "
            ++ stringsJoin (defs.map fun d => "add " ++ d) ", ",
           (⟨commandAdd, attrs⟩ : Command))))
    ∧ Compile marshalStrings b ⟨commandChange, attrs⟩
      = Outcome.ofOption ((allSome ((b.columns.filter (fun c => markedForChange c)).map
          (columnDefinition marshalStrings b))).map
        (fun defs =>
          ("alter table " ++ "`" ++ (b.Prefix ++ b.table) ++ "`" ++ " "
            ++ stringsJoin (defs.map fun d => "modify " ++ d) ", ",
           (⟨commandChange, attrs⟩ : Command))))
    ∧ (∀ column : Column,
        columnDefinition marshalStrings b column
          = (GetType column).bind fun ty =>
              addModifiers marshalStrings ("`" ++ column.Name ++ "`" ++ " " ++ ty) b column) := by
  have ha : ucFirst commandAdd = "Add" := by decide
  have hc : ucFirst commandChange = "Change" := by decide
  have hq : ("`" ++ " " : String) = "` " := by decide
  refine ⟨?_, ?_, ?_⟩
  · simp only [Compile, ha, CompileAdd, GetColumns, columnDefinitions_eq, getAddedColumns_eq,
      Option.map_map, prefixStrings, arrMap_eq_listMap]
    congr 2
  · simp only [Compile, hc, CompileChange, GetChangeColumns, columnDefinitions_eq,
      getChangedColumns_eq, Option.map_map, prefixStrings, arrMap_eq_listMap]
    simp only [reduceCtorEq, String.reduceEq, if_false]
    congr 2
  · intro column
    simp only [columnDefinition, String.append_assoc, hq]

/-- C12. `DropColumn` with one or more names appends exactly one dropColumn
command, which renders as "alter table `<Prefix><table>` drop `<c1>`, drop
`<c2>`, ..." over the names in the given order; with no names it leaves the
blueprint unchanged. -/
theorem DropColumn_spec (marshalStrings : List String → String) (b : Blueprint) :
    (∀ columns : List String, columns ≠ [] →
      b.DropColumn columns
        = { b with commands := b.commands
              ++ [⟨commandDropColumn, [(commandAttrColumns, Value.strs columns)]⟩] }
      ∧ Compile marshalStrings (b.DropColumn columns)
          ⟨commandDropColumn, [(commandAttrColumns, Value.strs columns)]⟩
        = Outcome.returns ("alter table " ++ "`" ++ (b.Prefix ++ b.table) ++ "`" ++ " "
            ++ stringsJoin (columns.map fun c => "drop " ++ ("`" ++ c ++ "`")) ", ",
            ⟨commandDropColumn, [(commandAttrColumns, Value.strs columns)]⟩))
    ∧ b.DropColumn [] = b := by
  have hd : ucFirst commandDropColumn = "DropColumn" := by decide
  refine ⟨?_, rfl⟩
  intro columns hne
  have hlen : ¬ columns.length = 0 := by
    intro h
    exact hne (List.length_eq_zero.1 h)
  constructor
  · simp only [Blueprint.DropColumn, hlen, if_false, Blueprint.addCommand,
      Blueprint.createCommand, varDef]
  · have hget : Map.get [(commandAttrColumns, Value.strs columns)] commandAttrColumns
        = some (Value.strs columns) := by simp [Map.get]
    simp only [Compile, hd, CompileDropColumn, hget]
    simp only [String.reduceEq, if_false, if_true, Option.map_some', Outcome.ofOption_some, wrapTable, wrap,
      Blueprint.GetTable, Blueprint.DropColumn, hlen, Blueprint.addCommand,
      String.append_assoc]

/-- C12, at the two columns `age` and `account` of the table `users`. -/
theorem DropColumn_spec_witness :
    Compile (fun _ => "")
        (Blueprint.DropColumn ⟨"", "", "", "", "users", [], [], ⟨"", "", "", "", "", 255⟩⟩
          ["age", "account"])
        ⟨commandDropColumn, [(commandAttrColumns, Value.strs ["age", "account"])]⟩
      = Outcome.returns ("alter table " ++ "`" ++ ("" ++ "users") ++ "`" ++ " "
          ++ stringsJoin (["age", "account"].map fun c => "drop " ++ ("`" ++ c ++ "`")) ", ",
          ⟨commandDropColumn, [(commandAttrColumns, Value.strs ["age", "account"])]⟩) :=
  ((DropColumn_spec (fun _ => "")
    ⟨"", "", "", "", "users", [], [], ⟨"", "", "", "", "", 255⟩⟩).1 ["age", "account"]
    (by decide)).2

/-! ## Table comment and rename -/

theorem stringsReplace_quote_data (comment : String) :
    (stringsReplace comment "'" "''").data
      = (comment.data.map fun c =>
          if c = singleQuote then [singleQuote, singleQuote] else [c]).flatten := by
  have h1 : ("'" : String).data = [singleQuote] := by decide
  have h2 : ("''" : String).data = [singleQuote, singleQuote] := by decide
  simp only [stringsReplace, h1, h2, replaceScan_single]
  rfl

theorem count_quote_flatten (cs : List Char) :
    ((cs.map fun c =>
        if c = singleQuote then [singleQuote, singleQuote] else [c]).flatten).count singleQuote
      = 2 * cs.count singleQuote := by
  induction cs with
  | nil => rfl
  | cons c cs ih =>
    by_cases h : c = singleQuote
    · subst h
      simp only [List.map_cons, if_true, List.flatten_cons, List.count_append, ih,
        List.count_cons_self, List.count_nil]
      omega
    · have h2 : (c == singleQuote) = false := by simpa using h
      simp only [List.map_cons, h, if_false, List.flatten_cons, List.count_append, ih,
        List.count_cons, List.count_nil, h2]
      simp

theorem flatten_no_quote (cs : List Char) (h : singleQuote ∉ cs) :
    (cs.map fun c => if c = singleQuote then [singleQuote, singleQuote] else [c]).flatten
      = cs := by
  induction cs with
  | nil => rfl
  | cons c cs ih =>
    have hc : ¬ c = singleQuote := fun e => h (e ▸ List.mem_cons_self _ _)
    have hcs : singleQuote ∉ cs := fun m => h (List.mem_cons_of_mem _ m)
    simp only [List.map_cons, hc, if_false, List.flatten_cons, ih hcs, List.singleton_append]

/-- C13. The tableComment command renders as "alter table `<Prefix><table>`
comment = '<c>'", where <c> is the comment with every single quote replaced by
two single quotes: the number of single quotes of <c> is twice that of the
comment, hence even, and a comment without a single quote is embedded as it
is. -/
theorem compile_tableComment (marshalStrings : List String → String) (b : Blueprint)
    (attrs : Map) (comment : String)
    (hcomment : attrs.get commandAttrComment = some (Value.str comment)) :
    Compile marshalStrings b ⟨commandComment, attrs⟩
      = Outcome.returns ("alter table " ++ "`" ++ (b.Prefix ++ b.table) ++ "`" ++ " comment = "
          ++ "'" ++ stringsReplace comment "'" "''" ++ "'", ⟨commandComment, attrs⟩)
    ∧ (stringsReplace comment "'" "''").data
      = (comment.data.map fun c =>
          if c = singleQuote then [singleQuote, singleQuote] else [c]).flatten
    ∧ (stringsReplace comment "'" "''").data.count singleQuote
      = 2 * comment.data.count singleQuote
    ∧ Even ((stringsReplace comment "'" "''").data.count singleQuote)
    ∧ (singleQuote ∉ comment.data → stringsReplace comment "'" "''" = comment) := by
  have hn : ucFirst commandComment = "TableComment" := by decide
  have hcount : (stringsReplace comment "'" "''").data.count singleQuote
      = 2 * comment.data.count singleQuote := by
    rw [stringsReplace_quote_data, count_quote_flatten]
  refine ⟨?_, stringsReplace_quote_data comment, hcount, ?_, ?_⟩
  · simp only [Compile, hn, CompileTableComment, hcomment]
    simp only [String.reduceEq, if_false, if_true, Option.map_some', Outcome.ofOption_some, wrapTable, wrap,
      Blueprint.GetTable, String.append_assoc]
  · rw [hcount]
    exact even_two_mul _
  · intro h
    apply String.ext
    rw [stringsReplace_quote_data, flatten_no_quote _ h]

/-- C13, at the comment `it's` on the table `users`. -/
theorem compile_tableComment_witness :
    Compile (fun _ => "") ⟨"", "", "", "", "users", [], [], ⟨"", "", "", "", "", 255⟩⟩
        ⟨commandComment, [(commandAttrComment, Value.str "it's")]⟩
      = Outcome.returns ("alter table " ++ "`" ++ ("" ++ "users") ++ "`" ++ " comment = "
          ++ "'" ++ stringsReplace "it's" "'" "''" ++ "'",
          ⟨commandComment, [(commandAttrComment, Value.str "it's")]⟩) :=
  (compile_tableComment (fun _ => "")
    ⟨"", "", "", "", "users", [], [], ⟨"", "", "", "", "", 255⟩⟩
    [(commandAttrComment, Value.str "it's")] "it's" rfl).1

/-- C14. The rename command renders as "rename table `<Prefix><table>` to
`<Prefix><to>`": the blueprint's prefix qualifies both names and both are
back-tick-quoted. -/
theorem compile_rename (marshalStrings : List String → String) (b : Blueprint)
    (to_ : String) :
    (b.Rename to_).commands = b.commands ++ [⟨commandRename, [(commandAttrTo, Value.str to_)]⟩]
    ∧ Compile marshalStrings (b.Rename to_) ⟨commandRename, [(commandAttrTo, Value.str to_)]⟩
      = Outcome.returns ("rename table " ++ "`" ++ (b.Prefix ++ b.table) ++ "`" ++ " to "
          ++ "`" ++ (b.Prefix ++ to_) ++ "`",
          ⟨commandRename, [(commandAttrTo, Value.str to_)]⟩)
    ∧ (∀ attrs : Map, attrs.get commandAttrTo = some (Value.str to_) →
        Compile marshalStrings b ⟨commandRename, attrs⟩
          = Outcome.returns ("rename table " ++ "`" ++ (b.Prefix ++ b.table) ++ "`" ++ " to "
              ++ "`" ++ (b.Prefix ++ to_) ++ "`", ⟨commandRename, attrs⟩)) := by
  have hn : ucFirst commandRename = "Rename" := by decide
  have hgen : ∀ (b : Blueprint) (attrs : Map),
      attrs.get commandAttrTo = some (Value.str to_) →
      Compile marshalStrings b ⟨commandRename, attrs⟩
        = Outcome.returns ("rename table " ++ "`" ++ (b.Prefix ++ b.table) ++ "`" ++ " to "
            ++ "`" ++ (b.Prefix ++ to_) ++ "`", ⟨commandRename, attrs⟩) := by
    intro b attrs h
    simp only [Compile, hn, CompileRename, h]
    simp only [String.reduceEq, if_false, if_true, Option.map_some', Outcome.ofOption_some, wrapTable, wrap,
      Blueprint.GetTable, String.append_assoc]
  refine ⟨rfl, ?_, hgen b⟩
  have hget : Map.get [(commandAttrTo, Value.str to_)] commandAttrTo = some (Value.str to_) := by
    simp [Map.get]
  exact hgen (b.Rename to_) _ hget

/-- C14, at the rename of the table `users` to `new_user` under the prefix
`app_`. -/
theorem compile_rename_witness :
    Compile (fun _ => "") ⟨"app_", "", "", "", "users", [], [], ⟨"", "app_", "", "", "", 255⟩⟩
        ⟨commandRename, [(commandAttrTo, Value.str "new_user")]⟩
      = Outcome.returns ("rename table " ++ "`" ++ ("app_" ++ "users") ++ "`" ++ " to "
          ++ "`" ++ ("app_" ++ "new_user") ++ "`",
          ⟨commandRename, [(commandAttrTo, Value.str "new_user")]⟩) :=
  (compile_rename (fun _ => "")
    ⟨"app_", "", "", "", "users", [], [], ⟨"", "app_", "", "", "", 255⟩⟩ "new_user").2.2
    [(commandAttrTo, Value.str "new_user")] rfl

/-! ## The default and the auto-increment clause -/

theorem strconvItoa_eq_toString (n : Int) : strconvItoa n = toString n := by
  cases n <;> rfl

/-- C15. `addModifiers` returns the fragment followed by its clauses, the fifth
of them the default clause. The default clause is empty exactly when the column
has no default attribute; for a default it is " default ''" for the empty
string, " default '<s>'" for a string s, " default '<n>'" with n in decimal
notation for an integer, and " default 'true'" or " default 'false'" for a
boolean. -/
theorem addModifiers_default (marshalStrings : List String → String) (sql : String)
    (b : Blueprint) (column : Column) :
    addModifiers marshalStrings sql b column
      = ((charsetClause column).bind fun cs =>
          (collateClause column).bind fun co =>
            (nullableClause column).bind fun nu =>
              (commentClause column).map fun cm =>
                sql ++ unsignedClause column ++ cs ++ co ++ nu
                  ++ defaultClause marshalStrings column ++ incrementClause column ++ cm)
    ∧ (defaultClause marshalStrings column ≠ "" ↔
        (column.Attributes.get ColumnAttrDefault).isSome = true)
    ∧ (column.Attributes.get ColumnAttrDefault = some (Value.str "") →
        defaultClause marshalStrings column = " default ''")
    ∧ (∀ s : String, column.Attributes.get ColumnAttrDefault = some (Value.str s) →
        defaultClause marshalStrings column = " default '" ++ s ++ "'")
    ∧ (∀ n : Int, column.Attributes.get ColumnAttrDefault = some (Value.int n) →
        defaultClause marshalStrings column = " default '" ++ toString n ++ "'")
    ∧ (column.Attributes.get ColumnAttrDefault = some (Value.bool true) →
        defaultClause marshalStrings column = " default 'true'")
    ∧ (column.Attributes.get ColumnAttrDefault = some (Value.bool false) →
        defaultClause marshalStrings column = " default 'false'") := by
  refine ⟨addModifiers_eq_clauses marshalStrings sql b column, ?_, ?_, ?_, ?_, ?_, ?_⟩
  · cases h : column.Attributes.get ColumnAttrDefault with
    | none => simp [defaultClause, h]
    | some d =>
      simp only [defaultClause, h, Option.isSome_some, iff_true, ne_eq]
      intro he
      have hlen := congrArg String.length he
      simp only [String.length_append] at hlen
      have h10 : (" default '" : String).length = 10 := by decide
      have h0 : ("" : String).length = 0 := by decide
      omega
  · intro h
    simp only [defaultClause, h, convString]
    decide
  · intro s h
    simp only [defaultClause, h, convString]
  · intro n h
    simp only [defaultClause, h, convString, strconvItoa_eq_toString]
  · intro h
    simp only [defaultClause, h, convString, if_true]
    decide
  · intro h
    simp only [defaultClause, h, convString, Bool.false_eq_true, if_false]
    decide

/-- C15, at integer, string and boolean defaults. -/
theorem addModifiers_default_witness :
    defaultClause (fun _ => "") ⟨"int", "n", [("default", Value.int 7)]⟩
      = " default '" ++ toString (7 : Int) ++ "'"
    ∧ defaultClause (fun _ => "") ⟨"varchar", "n", [("default", Value.str "")]⟩
      = " default ''"
    ∧ defaultClause (fun _ => "") ⟨"varchar", "n", [("default", Value.str "a")]⟩
      = " default '" ++ "a" ++ "'"
    ∧ defaultClause (fun _ => "") ⟨"boolean", "n", [("default", Value.bool true)]⟩
      = " default 'true'"
    ∧ defaultClause (fun _ => "") ⟨"boolean", "n", [("default", Value.bool false)]⟩
      = " default 'false'" :=
  ⟨(addModifiers_default (fun _ => "") ""
      ⟨"", "", "", "", "t", [], [], ⟨"", "", "", "", "", 255⟩⟩
      ⟨"int", "n", [("default", Value.int 7)]⟩).2.2.2.2.1 7 rfl,
   (addModifiers_default (fun _ => "") ""
      ⟨"", "", "", "", "t", [], [], ⟨"", "", "", "", "", 255⟩⟩
      ⟨"varchar", "n", [("default", Value.str "")]⟩).2.2.1 rfl,
   (addModifiers_default (fun _ => "") ""
      ⟨"", "", "", "", "t", [], [], ⟨"", "", "", "", "", 255⟩⟩
      ⟨"varchar", "n", [("default", Value.str "a")]⟩).2.2.2.1 "a" rfl,
   (addModifiers_default (fun _ => "") ""
      ⟨"", "", "", "", "t", [], [], ⟨"", "", "", "", "", 255⟩⟩
      ⟨"boolean", "n", [("default", Value.bool true)]⟩).2.2.2.2.2.1 rfl,
   (addModifiers_default (fun _ => "") ""
      ⟨"", "", "", "", "t", [], [], ⟨"", "", "", "", "", 255⟩⟩
      ⟨"boolean", "n", [("default", Value.bool false)]⟩).2.2.2.2.2.2 rfl⟩

/-- C16. `addModifiers` returns the fragment followed by its clauses, the sixth
of them the auto-increment clause. The auto-increment clause is " auto_increment
primary key" exactly when the column's type is one of bigint, int, mediumint,
smallint, tinyint and its autoIncrement attribute is true, and empty otherwise;
a boolean, float, double, decimal, char or varchar column never gets it. -/
theorem addModifiers_increment (marshalStrings : List String → String) (sql : String)
    (b : Blueprint) (column : Column) :
    addModifiers marshalStrings sql b column
      = ((charsetClause column).bind fun cs =>
          (collateClause column).bind fun co =>
            (nullableClause column).bind fun nu =>
              (commentClause column).map fun cm =>
                sql ++ unsignedClause column ++ cs ++ co ++ nu
                  ++ defaultClause marshalStrings column ++ incrementClause column ++ cm)
    ∧ (incrementClause column = " auto_increment primary key" ↔
        (column.Type_ = ColumnTypeBigInt ∨ column.Type_ = ColumnTypeInt
          ∨ column.Type_ = ColumnTypeMediumInt ∨ column.Type_ = ColumnTypeSmallInt
          ∨ column.Type_ = ColumnTypeTinyInt)
        ∧ column.Attributes.get ColumnAttrAutoIncrement = some (Value.bool true))
    ∧ (incrementClause column = " auto_increment primary key" ∨ incrementClause column = "")
    ∧ (∀ (ty name : String) (attrs : Map),
        ty ∈ [ColumnTypeBoolean, ColumnTypeFloat, ColumnTypeDouble, ColumnTypeDecimal,
          ColumnTypeChar, ColumnTypeVarchar] →
        incrementClause ⟨ty, name, attrs⟩ = "") := by
  refine ⟨addModifiers_eq_clauses marshalStrings sql b column, ?_, ?_, ?_⟩
  · unfold incrementClause
    simp only [List.mem_cons, List.mem_singleton, List.not_mem_nil, or_false]
    split_ifs with h
    · simp only [true_iff]
      exact h
    · constructor
      · intro he
        exact absurd he (by decide)
      · intro h2
        exact absurd h2 h
  · unfold incrementClause
    split_ifs
    · exact Or.inl rfl
    · exact Or.inr rfl
  · intro ty name attrs hty
    unfold incrementClause
    have : ¬ ty ∈ [ColumnTypeBigInt, ColumnTypeInt, ColumnTypeMediumInt, ColumnTypeSmallInt,
        ColumnTypeTinyInt] := by
      simp only [List.mem_cons, List.mem_singleton, List.not_mem_nil, or_false] at hty ⊢
      rcases hty with h | h | h | h | h | h <;> subst h <;> decide
    simp only [this, false_and, if_false]

/-- C16, at a boolean column and a varchar column with autoIncrement set. -/
theorem addModifiers_increment_witness :
    incrementClause ⟨"boolean", "flag", [("autoIncrement", Value.bool true)]⟩ = ""
    ∧ incrementClause ⟨"varchar", "name", [("autoIncrement", Value.bool true)]⟩ = "" :=
  ⟨(addModifiers_increment (fun _ => "") ""
      ⟨"", "", "", "", "t", [], [], ⟨"", "", "", "", "", 255⟩⟩ ⟨"int", "n", []⟩).2.2.2
      "boolean" "flag" [("autoIncrement", Value.bool true)] (by decide),
   (addModifiers_increment (fun _ => "") ""
      ⟨"", "", "", "", "t", [], [], ⟨"", "", "", "", "", 255⟩⟩ ⟨"int", "n", []⟩).2.2.2
      "varchar" "name" [("autoIncrement", Value.bool true)] (by decide)⟩

/-! ## Column mutators and builders -/

theorem Map.get_set_self (m : Map) (key : String) (v : Value) :
    (m.set key v).get key = some v := by
  induction m with
  | nil => simp [Map.set, Map.get]
  | cons p rest ih =>
    obtain ⟨k, w⟩ := p
    by_cases h : k = key
    · simp [Map.set, Map.get, h]
    · simp [Map.set, Map.get, h, ih]

theorem Map.get_set_other (m : Map) (key k2 : String) (v : Value) (hne : k2 ≠ key) :
    (m.set key v).get k2 = m.get k2 := by
  induction m with
  | nil =>
    have : ¬ key = k2 := fun e => hne e.symm
    simp [Map.set, Map.get, this]
  | cons p rest ih =>
    obtain ⟨k, w⟩ := p
    unfold Map.set
    by_cases h : k = key
    · subst h
      have hk : ¬ k = k2 := fun e => hne e.symm
      simp [Map.get, hk]
    · simp only [h, if_false]
      unfold Map.get
      by_cases h2 : k = k2
      · simp [h2]
      · simp [h2, ih]

theorem setsOnly_set (c : Column) (key : String) (v : Value) :
    SetsOnly c { c with Attributes := c.Attributes.set key v } key v :=
  ⟨Map.get_set_self _ _ _, fun _ hk => Map.get_set_other _ _ _ _ hk, rfl, rfl⟩

/-- C17. Each Column mutator sets exactly one attribute key to the given value
(`true` for Primary, Unique, Index and Change, and for Nullable called without
an argument), leaves every other key and the column's type and name as they
were, and returns the column so changed. -/
theorem column_mutators (c : Column) :
    (∀ comment : String, SetsOnly c (c.Comment comment) ColumnAttrComment (Value.str comment))
    ∧ (∀ value : Value, SetsOnly c (c.Default value) ColumnAttrDefault value)
    ∧ (∀ value : Bool, SetsOnly c (c.Nullable [value]) ColumnAttrNullable (Value.bool value))
    ∧ SetsOnly c (c.Nullable []) ColumnAttrNullable (Value.bool true)
    ∧ SetsOnly c c.Primary ColumnAttrPrimary (Value.bool true)
    ∧ SetsOnly c c.Unique ColumnAttrUnique (Value.bool true)
    ∧ SetsOnly c c.Index ColumnAttrIndex (Value.bool true)
    ∧ SetsOnly c c.Change ColumnAttrChange (Value.bool true)
    ∧ (∀ charset : String, SetsOnly c (c.Charset charset) ColumnAttrCharset (Value.str charset))
    ∧ (∀ collation : String,
        SetsOnly c (c.Collation collation) ColumnAttrCollate (Value.str collation)) :=
  ⟨fun _ => setsOnly_set c _ _, fun _ => setsOnly_set c _ _, fun _ => setsOnly_set c _ _,
   setsOnly_set c _ _, setsOnly_set c _ _, setsOnly_set c _ _, setsOnly_set c _ _,
   setsOnly_set c _ _, fun _ => setsOnly_set c _ _, fun _ => setsOnly_set c _ _⟩

/-- C18. Each of UnsignedInt, UnsignedTinyInt, UnsignedSmallInt,
UnsignedMediumInt and UnsignedBigInt appends and returns a column of its integer
type with unsigned true and autoIncrement false, or autoIncrement a when called
with the flag a; Increments is UnsignedInt with true, BigIncrements is
UnsignedBigInt with true, Id without argument is BigIncrements of "id", and the
definition of the column Id creates is "`id` bigint unsigned not null
auto_increment primary key". -/
theorem unsigned_builders (marshalStrings : List String → String) (b : Blueprint)
    (column : String) :
    (∀ flags : List Bool,
      b.UnsignedInt column flags
        = ({ b with columns := b.columns ++ [⟨ColumnTypeInt, column,
              [(ColumnAttrAutoIncrement, Value.bool (varDef flags false)),
               (ColumnAttrUnsigned, Value.bool true)]⟩] },
           ⟨ColumnTypeInt, column, [(ColumnAttrAutoIncrement, Value.bool (varDef flags false)),
             (ColumnAttrUnsigned, Value.bool true)]⟩)
      ∧ b.UnsignedTinyInt column flags
        = ({ b with columns := b.columns ++ [⟨ColumnTypeTinyInt, column,
              [(ColumnAttrAutoIncrement, Value.bool (varDef flags false)),
               (ColumnAttrUnsigned, Value.bool true)]⟩] },
           ⟨ColumnTypeTinyInt, column,
            [(ColumnAttrAutoIncrement, Value.bool (varDef flags false)),
             (ColumnAttrUnsigned, Value.bool true)]⟩)
      ∧ b.UnsignedSmallInt column flags
        = ({ b with columns := b.columns ++ [⟨ColumnTypeSmallInt, column,
              [(ColumnAttrAutoIncrement, Value.bool (varDef flags false)),
               (ColumnAttrUnsigned, Value.bool true)]⟩] },
           ⟨ColumnTypeSmallInt, column,
            [(ColumnAttrAutoIncrement, Value.bool (varDef flags false)),
             (ColumnAttrUnsigned, Value.bool true)]⟩)
      ∧ b.UnsignedMediumInt column flags
        = ({ b with columns := b.columns ++ [⟨ColumnTypeMediumInt, column,
              [(ColumnAttrAutoIncrement, Value.bool (varDef flags false)),
               (ColumnAttrUnsigned, Value.bool true)]⟩] },
           ⟨ColumnTypeMediumInt, column,
            [(ColumnAttrAutoIncrement, Value.bool (varDef flags false)),
             (ColumnAttrUnsigned, Value.bool true)]⟩)
      ∧ b.UnsignedBigInt column flags
        = ({ b with columns := b.columns ++ [⟨ColumnTypeBigInt, column,
              [(ColumnAttrAutoIncrement, Value.bool (varDef flags false)),
               (ColumnAttrUnsigned, Value.bool true)]⟩] },
           ⟨ColumnTypeBigInt, column,
            [(ColumnAttrAutoIncrement, Value.bool (varDef flags false)),
             (ColumnAttrUnsigned, Value.bool true)]⟩))
    ∧ (varDef ([] : List Bool) false = false ∧ ∀ (a : Bool) (rest : List Bool),
        varDef (a :: rest) false = a)
    ∧ b.Increments column = b.UnsignedInt column [true]
    ∧ b.BigIncrements column = b.UnsignedBigInt column [true]
    ∧ b.Id [] = b.BigIncrements "id"
    ∧ (b.Id []).2
      = ⟨ColumnTypeBigInt, "id", [(ColumnAttrAutoIncrement, Value.bool true),
          (ColumnAttrUnsigned, Value.bool true)]⟩
    ∧ columnDefinition marshalStrings (b.Id []).1 (b.Id []).2
      = some "`id` bigint unsigned not null auto_increment primary key" :=
  ⟨fun _ => ⟨rfl, rfl, rfl, rfl, rfl⟩, ⟨rfl, fun _ _ => rfl⟩, rfl, rfl, rfl, rfl, rfl⟩

/-! ## Unknown commands and unknown types -/

theorem ucFirst_eq_empty (s : String) (h : ucFirst s = "") : s = "" := by
  unfold ucFirst at h
  cases hd : s.data with
  | nil => exact String.ext hd
  | cons c cs =>
    rw [hd] at h
    simp only at h
    split_ifs at h
    · exact absurd (congrArg String.data h) (by simp)
    · rw [h] at hd
      exact absurd hd (by simp)

/-- C19, at the failing input. For a command with the empty name, which has no
rendering routine, `Compile` neither returns nor panics: the method it finds is
`Compile` itself and the call re-enters without bound. For every other command
whose name, with its first letter in upper case, is not the name of a rendering
routine, `Compile` panics and returns no statement; the name renameColumn of the
command enumeration is such a name. -/
theorem compile_unknown_command (marshalStrings : List String → String) (b : Blueprint) :
    (∀ attrs : Map, Compile marshalStrings b ⟨"", attrs⟩ = Outcome.overflows)
    ∧ ucFirst "" ∉ renderingRoutines
    ∧ (∀ command : Command, ucFirst command.Name ∉ renderingRoutines → command.Name ≠ "" →
        Compile marshalStrings b command = Outcome.panics)
    ∧ ucFirst commandRenameColumn ∉ renderingRoutines
    ∧ (∀ attrs : Map, Compile marshalStrings b ⟨commandRenameColumn, attrs⟩ = Outcome.panics) := by
  have key : ∀ command : Command, ucFirst command.Name ∉ renderingRoutines →
      command.Name ≠ "" → Compile marshalStrings b command = Outcome.panics := by
    intro command h hne
    have h0 : ¬ ucFirst command.Name = "" := fun e => hne (ucFirst_eq_empty _ e)
    simp only [renderingRoutines, List.mem_cons, List.mem_singleton, List.not_mem_nil,
      or_false, not_or] at h
    obtain ⟨h1, h2, h3, h4, h5, h6, h7, h8, h9, h10, h11, h12, h13, h14⟩ := h
    simp only [Compile, h0, h1, h2, h3, h4, h5, h6, h7, h8, h9, h10, h11, h12, h13, h14,
      if_false]
  have hr : ucFirst commandRenameColumn ∉ renderingRoutines := by decide
  refine ⟨fun attrs => ?_, by decide, key, hr,
    fun attrs => key ⟨commandRenameColumn, attrs⟩ hr (show commandRenameColumn ≠ "" by decide)⟩
  have he : ucFirst "" = "" := by decide
  simp only [Compile, he]
  simp

/-- C19, at the renameColumn command, for which `Compile` panics, and at the
primary command as `CompilePrimary` leaves it, with the empty name, for which
`Compile` re-enters without bound. -/
theorem compile_unknown_command_witness :
    Compile (fun _ => "") ⟨"", "", "", "", "users", [], [], ⟨"", "", "", "", "", 255⟩⟩
        ⟨"renameColumn", [("from", Value.str "a"), ("to", Value.str "b")]⟩ = Outcome.panics
    ∧ Compile (fun _ => "") ⟨"", "", "", "", "users", [], [], ⟨"", "", "", "", "", 255⟩⟩
        ⟨"", [("index", Value.str "users_id_primary"), ("algorithm", Value.str ""),
          ("columns", Value.strs ["id"])]⟩ = Outcome.overflows :=
  ⟨(compile_unknown_command (fun _ => "")
      ⟨"", "", "", "", "users", [], [], ⟨"", "", "", "", "", 255⟩⟩).2.2.1
      ⟨"renameColumn", [("from", Value.str "a"), ("to", Value.str "b")]⟩ (by decide)
      (by decide),
   (compile_unknown_command (fun _ => "")
      ⟨"", "", "", "", "users", [], [], ⟨"", "", "", "", "", 255⟩⟩).1 _⟩

/-- C20, refuted at the type tag `geometry`: `GetType` does not fail, it returns
the empty type fragment. -/
theorem GetType_unknown_counterexample :
    GetType ⟨"geometry", "shape", []⟩ = some ""
    ∧ GetType ⟨"geometry", "shape", []⟩ ≠ none := by
  decide

/-- C20, amended. For a column whose type tag has no case in the switch of
`GetType`, that is a tag outside the enumeration other than `blob`, `GetType`
does not fail: it returns the empty type fragment. -/
theorem GetType_unknown_empty (column : Column) (h : column.Type_ ∉ handledTypes) :
    GetType column = some "" := by
  simp only [handledTypes, List.mem_cons, List.mem_singleton, List.not_mem_nil, or_false,
    not_or] at h
  obtain ⟨h1, h2, h3, h4, h5, h6, h7, h8, h9, h10, h11, h12, h13, h14, h15, h16, h17, h18, h19,
    h20, h21, h22, h23, h24, h25, h26⟩ := h
  simp only [GetType, inArray, h1, h2, h3, h4, h5, h6, h7, h8, h9, h10, h11, h12, h13, h14, h15,
    h16, h17, h18, h19, h20, h21, h22, h23, h24, h25, h26, if_false, Bool.false_eq_true]

/-- C20 amended, at the type tag `point`. -/
theorem GetType_unknown_empty_witness :
    GetType ⟨"point", "location", [("length", Value.int 4)]⟩ = some "" :=
  GetType_unknown_empty ⟨"point", "location", [("length", Value.int 4)]⟩ (by decide)

/-! ## Index commands with an algorithm -/

theorem CompileKey_with_algorithm (b : Blueprint) (name : String) (attrs : Map)
    (types index algo : String) (cols : List String)
    (hindex : attrs.get commandAttrIndex = some (Value.str index))
    (halgorithm : attrs.get commandAttrAlgorithm = some (Value.str algo))
    (hne : algo ≠ "")
    (hcolumns : attrs.get commandAttrColumns = some (Value.strs cols)) :
    CompileKey b ⟨name, attrs⟩ types
      = some ("alter table " ++ "`" ++ (b.Prefix ++ b.table) ++ "`" ++ " add " ++ types ++ " "
          ++ index ++ " using " ++ algo
          ++ "(" ++ stringsJoin (cols.map fun c => "`" ++ c ++ "`") ", " ++ ")") := by
  have hindex2 : attrs.get commandIndex = some (Value.str index) := hindex
  have hwrap : (fun c : String => "`" ++ c ++ "`") = wrap := rfl
  have e : "alter table " ++ wrapTable b ++ " add " ++ types ++ " " ++ index
      ++ (" using " ++ algo) ++ "(" ++ stringsJoin (arrMap cols wrap) ", " ++ ")"
      = "alter table " ++ (wrapTable b ++ " add " ++ types ++ " " ++ index
        ++ (" using " ++ algo) ++ "(" ++ stringsJoin (arrMap cols wrap) ", ") ++ ")" := by
    simp only [String.append_assoc]
  unfold CompileKey
  simp only [halgorithm, hcolumns, hindex2, ne_eq, hne, not_false_eq_true, if_true,
    Option.some_bind]
  rw [e, trim_alterTable, arrMap_eq_listMap, hwrap]
  simp only [wrapTable, wrap, Blueprint.GetTable, String.append_assoc]

/-- C21, refuted at the index `users_age_index` over `age` with the algorithm
`btree`: the using clause is rendered before the column list, not after it. -/
theorem compile_index_algorithm_counterexample :
    (Compile (fun _ => "") ⟨"", "", "", "", "users", [], [], ⟨"", "", "", "", "", 255⟩⟩
        ⟨commandIndex, [("index", Value.str "users_age_index"),
          ("algorithm", Value.str "btree"), ("columns", Value.strs ["age"])]⟩).map Prod.fst
      = Outcome.returns "alter table `users` add index users_age_index using btree(`age`)"
    ∧ (Compile (fun _ => "") ⟨"", "", "", "", "users", [], [], ⟨"", "", "", "", "", 255⟩⟩
        ⟨commandIndex, [("index", Value.str "users_age_index"),
          ("algorithm", Value.str "btree"), ("columns", Value.strs ["age"])]⟩).map Prod.fst
      ≠ Outcome.returns "alter table `users` add index users_age_index(`age`) using btree" := by
  decide

/-- C21, amended. An index command with a non-empty algorithm renders as "alter
table `<Prefix><table>` add index <index name> using <algorithm>(<cols>)": the
using clause comes between the index name and the parenthesised column list.
The builder call `Index` with an algorithm appends such a command. -/
theorem compile_index_algorithm (toLowerRune : Char → Char)
    (marshalStrings : List String → String) (b : Blueprint) :
    (∀ (attrs : Map) (index algo : String) (cols : List String),
      attrs.get commandAttrIndex = some (Value.str index) →
      attrs.get commandAttrAlgorithm = some (Value.str algo) →
      algo ≠ "" →
      attrs.get commandAttrColumns = some (Value.strs cols) →
      Compile marshalStrings b ⟨commandIndex, attrs⟩
        = Outcome.returns ("alter table " ++ "`" ++ (b.Prefix ++ b.table) ++ "`" ++ " add "
            ++ "index"
            ++ " " ++ index ++ " using " ++ algo
            ++ "(" ++ stringsJoin (cols.map fun c => "`" ++ c ++ "`") ", " ++ ")",
            ⟨commandIndex, attrs⟩))
    ∧ (∀ (cols : List String) (algo : String),
      (b.Index toLowerRune (Value.strs cols) [algo]).commands
        = b.commands ++ [⟨commandIndex,
            [(commandAttrIndex, Value.str (b.createIndexName toLowerRune commandIndex cols)),
             (commandAttrAlgorithm, Value.str algo),
             (commandAttrColumns, Value.strs cols)]⟩]) := by
  have hi : ucFirst commandIndex = "Index" := by decide
  refine ⟨?_, fun _ _ => rfl⟩
  intro attrs index algo cols hindex halgo hne hcols
  simp only [Compile, hi, CompileIndex,
    CompileKey_with_algorithm b commandIndex attrs "index" index algo cols hindex halgo hne hcols]
  simp

/-- C21 amended, at the index over `age` of the table `users` with the algorithm
`hash`. -/
theorem compile_index_algorithm_witness :
    Compile (fun _ => "") ⟨"", "", "", "", "users", [], [], ⟨"", "", "", "", "", 255⟩⟩
        ⟨commandIndex, [("index", Value.str "users_age_index"),
          ("algorithm", Value.str "hash"), ("columns", Value.strs ["age"])]⟩
      = Outcome.returns ("alter table " ++ "`" ++ ("" ++ "users") ++ "`" ++ " add " ++ "index"
          ++ " " ++ "users_age_index" ++ " using " ++ "hash"
          ++ "(" ++ stringsJoin (["age"].map fun c => "`" ++ c ++ "`") ", " ++ ")",
          ⟨commandIndex, [("index", Value.str "users_age_index"),
            ("algorithm", Value.str "hash"), ("columns", Value.strs ["age"])]⟩) :=
  (compile_index_algorithm Char.toLower (fun _ => "")
    ⟨"", "", "", "", "users", [], [], ⟨"", "", "", "", "", 255⟩⟩).1
    [("index", Value.str "users_age_index"), ("algorithm", Value.str "hash"),
      ("columns", Value.strs ["age"])]
    "users_age_index" "hash" ["age"] rfl rfl (by decide) rfl

/-! ## Evaluations at inputs where the code departs from its own conventions -/

/-- C22, evaluated at the varchar column `name` with the comment `it's`: the
column definition embeds the comment as it is, its single quote not doubled,
while the table comment of the same text is rendered with the quote doubled. -/
theorem column_comment_not_escaped :
    columnDefinition (fun _ => "")
        ⟨"", "", "", "", "users", [], [], ⟨"", "", "", "", "", 255⟩⟩
        ((Blueprint.String ⟨"", "", "", "", "users", [], [], ⟨"", "", "", "", "", 255⟩⟩
          "name" [30]).2.Comment "it's")
      = some "`name` varchar(30) not null comment 'it's'"
    ∧ (Compile (fun _ => "") ⟨"", "", "", "", "users", [], [], ⟨"", "", "", "", "", 255⟩⟩
        ⟨commandComment, [(commandAttrComment, Value.str "it's")]⟩).map Prod.fst
      = Outcome.returns "alter table `users` comment = 'it''s'" := by
  decide

/-- C23, evaluated at the table `users` with the column `id` carrying the primary
marker: the first derivation appends the primary command and overwrites the
marker with `false`, and the second derivation appends the same command
again. -/
theorem addFluentIndexes_twice :
    (Blueprint.addFluentIndexes Char.toLower
        ⟨"", "", "", "", "users", [(⟨"int", "id", []⟩ : Column).Primary], [],
          ⟨"", "", "", "", "", 255⟩⟩).commands
      = [⟨"primary", [("index", Value.str "users_id_primary"), ("algorithm", Value.str ""),
          ("columns", Value.strs ["id"])]⟩]
    ∧ (Blueprint.addFluentIndexes Char.toLower
        ⟨"", "", "", "", "users", [(⟨"int", "id", []⟩ : Column).Primary], [],
          ⟨"", "", "", "", "", 255⟩⟩).columns
      = [⟨"int", "id", [("primary", Value.bool false)]⟩]
    ∧ (Blueprint.addFluentIndexes Char.toLower
        (Blueprint.addFluentIndexes Char.toLower
          ⟨"", "", "", "", "users", [(⟨"int", "id", []⟩ : Column).Primary], [],
            ⟨"", "", "", "", "", 255⟩⟩)).commands
      = [⟨"primary", [("index", Value.str "users_id_primary"), ("algorithm", Value.str ""),
          ("columns", Value.strs ["id"])]⟩,
         ⟨"primary", [("index", Value.str "users_id_primary"), ("algorithm", Value.str ""),
          ("columns", Value.strs ["id"])]⟩] := by
  decide

/-- C27, evaluated at a configuration whose StringLength is 100: `Char`,
`Varchar` and `String` called without a length give the column the length 255 of
`DefaultStringLength`, and the column renders as `varchar(255)`. -/
theorem default_length_ignores_config :
    (Blueprint.String (NewBlueprint (NewSchema ⟨"", "", "", "", "", 100⟩) "users" []) "name" []).2
      = ⟨"varchar", "name", [("length", Value.int 255)]⟩
    ∧ (Blueprint.Varchar (NewBlueprint (NewSchema ⟨"", "", "", "", "", 100⟩) "users" [])
        "name" []).2
      = ⟨"varchar", "name", [("length", Value.int 255)]⟩
    ∧ (Blueprint.Char (NewBlueprint (NewSchema ⟨"", "", "", "", "", 100⟩) "users" [])
        "code" []).2
      = ⟨"char", "code", [("length", Value.int 255)]⟩
    ∧ GetType (Blueprint.String
        (NewBlueprint (NewSchema ⟨"", "", "", "", "", 100⟩) "users" []) "name" []).2
      = some "varchar(255)"
    ∧ (NewBlueprint (NewSchema ⟨"", "", "", "", "", 100⟩) "users" []).config.StringLength
      = 100 := by
  decide

/-! ## Purity and idempotence of index-name derivation -/

theorem normaliseIndexName_data (toLowerRune : Char → Char) (s : String) :
    (normaliseIndexName toLowerRune s).data
      = (s.data.map toLowerRune).map (fun c => if c = '-' ∨ c = '.' then '_' else c) := by
  simp only [normaliseIndexName, replaceByArray, stringsReplace, stringsToLower]
  rw [replaceScan_single_char, replaceScan_single_char, List.map_map]
  apply List.map_congr_left
  intro c _
  by_cases hc : c = '-'
  · simp [hc]
  · by_cases hd : c = '.'
    · simp [hd]
    · simp [hc, hd]

theorem char_toLower_idem (c : Char) : c.toLower.toLower = c.toLower := by
  by_cases h : 65 ≤ c.toNat ∧ c.toNat ≤ 90
  · have e : c.toLower = Char.ofNat (c.toNat + 32) := by
      simp only [Char.toLower, ge_iff_le, h, and_self, if_true]
    rw [e]
    obtain ⟨h1, h2⟩ := h
    generalize c.toNat = n at h1 h2
    interval_cases n <;> rfl
  · have e : c.toLower = c := by
      simp only [Char.toLower, ge_iff_le, h, if_false]
    rw [e, e]

/-- C24. The index name is the normalisation of the concatenation of the
configured prefix, the table, the columns and the kind, so blueprints with the
same configured prefix and table give the same name for the same columns and
kind. For a rune mapping that is idempotent and fixes "_", as `unicode.ToLower`
is and does, normalising a normalised string returns it unchanged; a normalised
string, hence a derived name, contains neither "-" nor ".". -/
theorem createIndexName_pure_idempotent (toLowerRune : Char → Char)
    (hidem : ∀ c, toLowerRune (toLowerRune c) = toLowerRune c)
    (hunderscore : toLowerRune '_' = '_') :
    (∀ (b : Blueprint) (t : String) (columns : List String),
      b.createIndexName toLowerRune t columns
        = normaliseIndexName toLowerRune
            (b.config.Prefix ++ b.table ++ "_" ++ stringsJoin columns "_" ++ "_" ++ t))
    ∧ (∀ (b1 b2 : Blueprint) (t : String) (columns : List String),
        b1.config.Prefix = b2.config.Prefix → b1.table = b2.table →
        b1.createIndexName toLowerRune t columns = b2.createIndexName toLowerRune t columns)
    ∧ (∀ s : String,
        normaliseIndexName toLowerRune (normaliseIndexName toLowerRune s)
          = normaliseIndexName toLowerRune s)
    ∧ (∀ (b : Blueprint) (t : String) (columns : List String),
        normaliseIndexName toLowerRune (b.createIndexName toLowerRune t columns)
          = b.createIndexName toLowerRune t columns)
    ∧ (∀ (b : Blueprint) (t : String) (columns : List String),
        '-' ∉ (b.createIndexName toLowerRune t columns).data
        ∧ '.' ∉ (b.createIndexName toLowerRune t columns).data) := by
  have hnorm : ∀ s : String,
      normaliseIndexName toLowerRune (normaliseIndexName toLowerRune s)
        = normaliseIndexName toLowerRune s := by
    intro s
    apply String.ext
    rw [normaliseIndexName_data, normaliseIndexName_data]
    simp only [List.map_map]
    apply List.map_congr_left
    intro c _
    simp only [Function.comp]
    by_cases h : toLowerRune c = '-' ∨ toLowerRune c = '.'
    · simp only [h, if_true, hunderscore]
      decide
    · simp only [h, if_false, hidem]
  have hname : ∀ (b : Blueprint) (t : String) (columns : List String),
      b.createIndexName toLowerRune t columns
        = normaliseIndexName toLowerRune
            (b.config.Prefix ++ b.table ++ "_" ++ stringsJoin columns "_" ++ "_" ++ t) :=
    fun _ _ _ => rfl
  refine ⟨hname, ?_, hnorm, ?_, ?_⟩
  · intro b1 b2 t columns hp ht
    rw [hname, hname, hp, ht]
  · intro b t columns
    rw [hname, hnorm]
  · intro b t columns
    rw [hname, normaliseIndexName_data]
    constructor
    · intro hm
      rw [List.mem_map] at hm
      obtain ⟨c, _, hc⟩ := hm
      split_ifs at hc
      · exact absurd hc (by decide)
      · rename_i hn
        exact hn (Or.inl hc)
    · intro hm
      rw [List.mem_map] at hm
      obtain ⟨c, _, hc⟩ := hm
      split_ifs at hc
      · exact absurd hc (by decide)
      · rename_i hn
        exact hn (Or.inr hc)

/-- C24, at the ASCII lower-casing and the index over `first-name` and `e.mail`
of the table `Users`. -/
theorem createIndexName_pure_idempotent_witness :
    normaliseIndexName Char.toLower
        (Blueprint.createIndexName Char.toLower
          ⟨"", "", "", "", "Users", [], [], ⟨"", "", "", "", "", 255⟩⟩ "unique"
          ["first-name", "e.mail"])
      = Blueprint.createIndexName Char.toLower
          ⟨"", "", "", "", "Users", [], [], ⟨"", "", "", "", "", 255⟩⟩ "unique"
          ["first-name", "e.mail"] :=
  (createIndexName_pure_idempotent Char.toLower char_toLower_idem (by decide)).2.2.2.1
    ⟨"", "", "", "", "Users", [], [], ⟨"", "", "", "", "", 255⟩⟩ "unique"
    ["first-name", "e.mail"]

/-- C30, evaluated at a blueprint of the table `users` built under the
configured prefix `app_` whose field Prefix is then set to `new_`: the statement
of the index over `age` quotes the table `new_users`, and its index name starts
with `app_users`. An index name always starts with the normalised form of the
configured prefix followed by the table, whatever the field Prefix holds. -/
theorem index_name_uses_config_prefix :
    (Blueprint.ToSql Char.toLower (fun _ => "")
      (NewBlueprint (NewSchema ⟨"", "app_", "", "", "", 255⟩) "users"
        [fun b => Blueprint.Index Char.toLower { b with Prefix := "new_" }
          (Value.str "age") []])).map Prod.fst
      = Outcome.returns ["alter table `new_users` add index app_users_age_index(`age`)"]
    ∧ (∀ (toLowerRune : Char → Char) (b : Blueprint) (t : String) (columns : List String),
        (normaliseIndexName toLowerRune (b.config.Prefix ++ b.table)).data
          <+: (b.createIndexName toLowerRune t columns).data) := by
  refine ⟨by decide, ?_⟩
  intro toLowerRune b t columns
  have hname : b.createIndexName toLowerRune t columns
      = normaliseIndexName toLowerRune
          (b.config.Prefix ++ b.table ++ ("_" ++ stringsJoin columns "_" ++ "_" ++ t)) := by
    show normaliseIndexName toLowerRune _ = _
    simp only [String.append_assoc]
  have e : (b.config.Prefix ++ b.table ++ ("_" ++ stringsJoin columns "_" ++ "_" ++ t)).data
      = (b.config.Prefix ++ b.table).data
        ++ ("_" ++ stringsJoin columns "_" ++ "_" ++ t).data := String.data_append _ _
  rw [hname, normaliseIndexName_data, normaliseIndexName_data, e, List.map_append,
    List.map_append]
  exact List.prefix_append _ _

/-! ## Added and changed columns -/

/-- C28. `getAddedColumns` and `getChangedColumns` partition the column
sequence: a column of the blueprint is among the changed columns exactly when
its change attribute is `true` and among the added columns exactly when it is
not, so it is in exactly one of the two; each result is a subsequence of the
columns, and the two lengths sum to the number of columns. -/
theorem added_changed_partition (b : Blueprint) :
    (∀ c, c ∈ b.getChangedColumns ↔
      c ∈ b.columns ∧ c.Attributes.get ColumnAttrChange = some (Value.bool true))
    ∧ (∀ c, c ∈ b.getAddedColumns ↔
      c ∈ b.columns ∧ c.Attributes.get ColumnAttrChange ≠ some (Value.bool true))
    ∧ (∀ c ∈ b.columns,
        (c ∈ b.getChangedColumns ∧ c ∉ b.getAddedColumns)
        ∨ (c ∈ b.getAddedColumns ∧ c ∉ b.getChangedColumns))
    ∧ b.getAddedColumns.Sublist b.columns
    ∧ b.getChangedColumns.Sublist b.columns
    ∧ b.getAddedColumns.length + b.getChangedColumns.length = b.columns.length
    ∧ (b.getAddedColumns ++ b.getChangedColumns).Perm b.columns := by
  have hc : ∀ c, c ∈ b.getChangedColumns ↔
      c ∈ b.columns ∧ c.Attributes.get ColumnAttrChange = some (Value.bool true) := by
    intro c
    rw [getChangedColumns_eq, List.mem_filter]
    simp [markedForChange]
  have ha : ∀ c, c ∈ b.getAddedColumns ↔
      c ∈ b.columns ∧ c.Attributes.get ColumnAttrChange ≠ some (Value.bool true) := by
    intro c
    rw [getAddedColumns_eq, List.mem_filter]
    simp [markedForChange]
  refine ⟨hc, ha, ?_, ?_, ?_, ?_, ?_⟩
  · intro c hmem
    by_cases h : c.Attributes.get ColumnAttrChange = some (Value.bool true)
    · left
      exact ⟨(hc c).2 ⟨hmem, h⟩, fun hin => ((ha c).1 hin).2 h⟩
    · right
      exact ⟨(ha c).2 ⟨hmem, h⟩, fun hin => h ((hc c).1 hin).2⟩
  · rw [getAddedColumns_eq]
    exact List.filter_sublist _
  · rw [getChangedColumns_eq]
    exact List.filter_sublist _
  · rw [getAddedColumns_eq, getChangedColumns_eq]
    induction b.columns with
    | nil => rfl
    | cons c rest ih =>
      cases h : markedForChange c <;> simp [List.filter_cons, h] <;> omega
  · rw [getAddedColumns_eq, getChangedColumns_eq]
    have := List.filter_append_perm (fun c => markedForChange c) b.columns
    refine List.Perm.trans ?_ this
    refine List.Perm.trans List.perm_append_comm ?_
    apply List.Perm.append_left
    apply List.Perm.of_eq
    apply List.filter_congr
    intro c _
    simp

/-- C28, at the blueprint of the test `Column_Update_Delete`, whose one column is
marked for change. -/
theorem added_changed_partition_witness :
    ((⟨"varchar", "name", [("length", Value.int 30), ("default", Value.str "a"),
          ("comment", Value.str "姓名"), ("change", Value.bool true)]⟩ : Column)
        ∈ exampleUpdateDelete.getChangedColumns
      ∧ (⟨"varchar", "name", [("length", Value.int 30), ("default", Value.str "a"),
          ("comment", Value.str "姓名"), ("change", Value.bool true)]⟩ : Column)
        ∉ exampleUpdateDelete.getAddedColumns)
    ∨ ((⟨"varchar", "name", [("length", Value.int 30), ("default", Value.str "a"),
          ("comment", Value.str "姓名"), ("change", Value.bool true)]⟩ : Column)
        ∈ exampleUpdateDelete.getAddedColumns
      ∧ (⟨"varchar", "name", [("length", Value.int 30), ("default", Value.str "a"),
          ("comment", Value.str "姓名"), ("change", Value.bool true)]⟩ : Column)
        ∉ exampleUpdateDelete.getChangedColumns) :=
  (added_changed_partition exampleUpdateDelete).2.2.1 _ (by decide)

/-! ## Command names -/

theorem Compile_command_of_not_primary (marshalStrings : List String → String) (b : Blueprint)
    (command result : Command) (statement : String)
    (h : Compile marshalStrings b command = Outcome.returns (statement, result))
    (hn : ucFirst command.Name ≠ "Primary") : result = command := by
  have hk : ∀ r : Option String,
      Outcome.ofOption (r.map (fun sql => (sql, command))) = Outcome.returns (statement, result) →
      result = command := by
    intro r hr
    cases r with
    | none => simp at hr
    | some x =>
      simp only [Option.map_some', Outcome.ofOption_some, Outcome.returns.injEq,
        Prod.mk.injEq] at hr
      exact hr.2.symm
  unfold Compile at h
  dsimp only at h
  by_cases h0 : ucFirst command.Name = "Create"
  · rw [if_pos h0] at h; exact hk _ h
  rw [if_neg h0] at h
  by_cases h1 : ucFirst command.Name = "Add"
  · rw [if_pos h1] at h; exact hk _ h
  rw [if_neg h1] at h
  by_cases h2 : ucFirst command.Name = "Change"
  · rw [if_pos h2] at h; exact hk _ h
  rw [if_neg h2] at h
  by_cases h3 : ucFirst command.Name = "Rename"
  · rw [if_pos h3] at h; exact hk _ h
  rw [if_neg h3] at h
  rw [if_neg hn] at h
  by_cases h5 : ucFirst command.Name = "Unique"
  · rw [if_pos h5] at h; exact hk _ h
  rw [if_neg h5] at h
  by_cases h6 : ucFirst command.Name = "Index"
  · rw [if_pos h6] at h; exact hk _ h
  rw [if_neg h6] at h
  by_cases h7 : ucFirst command.Name = "Drop"
  · rw [if_pos h7] at h; exact hk _ h
  rw [if_neg h7] at h
  by_cases h8 : ucFirst command.Name = "DropIfExists"
  · rw [if_pos h8] at h; exact hk _ h
  rw [if_neg h8] at h
  by_cases h9 : ucFirst command.Name = "DropColumn"
  · rw [if_pos h9] at h; exact hk _ h
  rw [if_neg h9] at h
  by_cases h10 : ucFirst command.Name = "DropPrimary"
  · rw [if_pos h10] at h; exact hk _ h
  rw [if_neg h10] at h
  by_cases h11 : ucFirst command.Name = "DropUnique"
  · rw [if_pos h11] at h; exact hk _ h
  rw [if_neg h11] at h
  by_cases h12 : ucFirst command.Name = "DropIndex"
  · rw [if_pos h12] at h; exact hk _ h
  rw [if_neg h12] at h
  by_cases h13 : ucFirst command.Name = "TableComment"
  · rw [if_pos h13] at h; exact hk _ h
  rw [if_neg h13] at h
  split_ifs at h

theorem Compile_command_of_primary (marshalStrings : List String → String) (b : Blueprint)
    (command result : Command) (statement : String)
    (h : Compile marshalStrings b command = Outcome.returns (statement, result))
    (hn : ucFirst command.Name = "Primary") : result = { command with Name := "" } := by
  have h1 : ¬ ucFirst command.Name = "Create" := by rw [hn]; decide
  have h2 : ¬ ucFirst command.Name = "Add" := by rw [hn]; decide
  have h3 : ¬ ucFirst command.Name = "Change" := by rw [hn]; decide
  have h4 : ¬ ucFirst command.Name = "Rename" := by rw [hn]; decide
  unfold Compile at h
  dsimp only at h
  rw [if_neg h1, if_neg h2, if_neg h3, if_neg h4, if_pos hn] at h
  unfold CompilePrimary at h
  cases hk : CompileKey b { command with Name := "" } "primary key" with
  | none => simp [hk] at h
  | some x =>
    simp only [hk, Option.map_some', Outcome.ofOption_some, Outcome.returns.injEq,
      Prod.mk.injEq] at h
    exact h.2.symm

theorem ucFirst_eq_Primary_of_mem (name : String) (h : name ∈ commandNames) :
    ucFirst name = "Primary" ↔ name = commandPrimary := by
  simp only [commandNames, List.mem_cons, List.mem_singleton, List.not_mem_nil, or_false] at h
  rcases h with h | h | h | h | h | h | h | h | h | h | h | h <;> subst h <;> decide

/-- C25, refuted at the blueprint of the test `Column_Index`: after `ToSql` the
primary command held by the blueprint has the empty name, which is not in the
enumeration. -/
theorem command_names_counterexample :
    (exampleColumnIndex.ToSql Char.toLower (fun _ => "")).map
        (fun r => r.2.commands.map fun c => c.Name)
      = Outcome.returns ["create", "unique", "", "index"]
    ∧ "" ∉ commandNames := by
  decide

/-- C25, amended. The builder operations and implied-command derivation keep the
commands already held and append only commands whose names are in the
enumeration, so they preserve that every command held has such a name; the
column builders leave the commands as they are. `Compile` returns a command
that is not a primary command as it is, and returns a primary command with its
name set to the empty string and its attributes kept. -/
theorem command_names_preserved (toLowerRune : Char → Char)
    (marshalStrings : List String → String) (b : Blueprint)
    (hvalid : ∀ c ∈ b.commands, c.Name ∈ commandNames) :
    (∀ c ∈ b.create.commands, c.Name ∈ commandNames)
    ∧ (∀ c ∈ b.drop.commands, c.Name ∈ commandNames)
    ∧ (∀ c ∈ b.dropIfExists.commands, c.Name ∈ commandNames)
    ∧ (∀ to_ : String, ∀ c ∈ (b.Rename to_).commands, c.Name ∈ commandNames)
    ∧ (∀ comment : String, ∀ c ∈ (b.Comment comment).commands, c.Name ∈ commandNames)
    ∧ (∀ columns : List String, ∀ c ∈ (b.DropColumn columns).commands, c.Name ∈ commandNames)
    ∧ (∀ (columns : Value) (algorithm : List String),
        (∀ c ∈ (b.Primary toLowerRune columns algorithm).commands, c.Name ∈ commandNames)
        ∧ (∀ c ∈ (b.Unique toLowerRune columns algorithm).commands, c.Name ∈ commandNames)
        ∧ (∀ c ∈ (b.Index toLowerRune columns algorithm).commands, c.Name ∈ commandNames))
    ∧ (∀ (types name : String) (parameters : List Map),
        (b.AddColumn types name parameters).1.commands = b.commands)
    ∧ (∀ c ∈ (b.addFluentIndexes toLowerRune).commands, c.Name ∈ commandNames)
    ∧ (∀ c ∈ (b.addImpliedCommands toLowerRune).commands, c.Name ∈ commandNames)
    ∧ b.commands <+: (b.addImpliedCommands toLowerRune).commands
    ∧ (∀ (command result : Command) (statement : String),
        command.Name ∈ commandNames →
        Compile marshalStrings b command = Outcome.returns (statement, result) →
        (command.Name ≠ commandPrimary → result = command)
        ∧ (command.Name = commandPrimary →
            result.Name = "" ∧ result.Attributes = command.Attributes)) := by
  have happend : ∀ (name : String) (parameters : List Map), name ∈ commandNames →
      ∀ c ∈ (b.addCommand name parameters).commands, c.Name ∈ commandNames := by
    intro name parameters hname c hc
    simp only [Blueprint.addCommand, Blueprint.createCommand, List.mem_append,
      List.mem_singleton] at hc
    rcases hc with hc | hc
    · exact hvalid c hc
    · rw [hc]; exact hname
  have hindex : ∀ (t : String) (columns : Value) (algorithm : List String),
      t ∈ commandNames →
      ∀ c ∈ (b.indexCommand toLowerRune t columns algorithm).commands,
        c.Name ∈ commandNames := by
    intro t columns algorithm ht c hc
    cases columns with
    | str column =>
      rw [indexCommand_str] at hc
      simp only [List.mem_append, List.mem_singleton] at hc
      rcases hc with hc | hc
      · exact hvalid c hc
      · rw [hc]; exact ht
    | strs cols =>
      rw [indexCommand_strs] at hc
      simp only [List.mem_append, List.mem_singleton] at hc
      rcases hc with hc | hc
      · exact hvalid c hc
      · rw [hc]; exact ht
    | int n => exact hvalid c hc
    | bool x => exact hvalid c hc
  have hfluent : ∀ c ∈ fluentCommands toLowerRune b, c.Name ∈ commandNames := by
    intro c hc
    rcases fluentCommands_names toLowerRune b c hc with h | h | h <;> rw [h] <;> decide
  refine ⟨happend _ _ (by decide), happend _ _ (by decide), happend _ _ (by decide),
    fun _ => happend _ _ (by decide), fun _ => happend _ _ (by decide), ?_, ?_,
    fun _ _ _ => rfl, ?_, ?_, ?_, ?_⟩
  · intro columns c hc
    unfold Blueprint.DropColumn at hc
    split_ifs at hc
    · exact hvalid c hc
    · exact happend _ _ (by decide) c hc
  · intro columns algorithm
    exact ⟨hindex _ _ _ (by decide), hindex _ _ _ (by decide), hindex _ _ _ (by decide)⟩
  · intro c hc
    rw [addFluentIndexes_eq] at hc
    simp only [List.mem_append] at hc
    rcases hc with hc | hc
    · exact hvalid c hc
    · exact hfluent c hc
  · intro c hc
    rw [addImpliedCommands_eq] at hc
    simp only [List.mem_append] at hc
    rcases hc with ((hc | hc) | hc) | hc
    · exact hvalid c hc
    · unfold impliedAdd at hc
      split_ifs at hc
      · simp only [List.mem_singleton] at hc
        rw [hc]; decide
      · simp at hc
    · unfold impliedChange at hc
      split_ifs at hc
      · simp only [List.mem_singleton] at hc
        rw [hc]; decide
      · simp at hc
    · exact hfluent c hc
  · rw [addImpliedCommands_eq]
    simp only [List.append_assoc]
    exact List.prefix_append _ _
  · intro command result statement hname hcompile
    constructor
    · intro hne
      apply Compile_command_of_not_primary marshalStrings b command result statement hcompile
      intro hu
      exact hne ((ucFirst_eq_Primary_of_mem command.Name hname).1 hu)
    · intro he
      have := Compile_command_of_primary marshalStrings b command result statement hcompile
        ((ucFirst_eq_Primary_of_mem command.Name hname).2 he)
      rw [this]
      exact ⟨rfl, rfl⟩

/-- C25 amended, at the blueprint of the test `Column_Index`: derivation keeps the
create and the unique command and the fluent primary command it appends has a
name of the enumeration. -/
theorem command_names_preserved_witness :
    exampleColumnIndex.commands
        <+: (exampleColumnIndex.addImpliedCommands Char.toLower).commands
    ∧ (⟨"primary", [("index", Value.str "users_id_primary"), ("algorithm", Value.str ""),
          ("columns", Value.strs ["id"])]⟩ : Command).Name ∈ commandNames :=
  ⟨(command_names_preserved Char.toLower (fun _ => "") exampleColumnIndex
      (by decide)).2.2.2.2.2.2.2.2.2.2.1,
   (command_names_preserved Char.toLower (fun _ => "") exampleColumnIndex
      (by decide)).2.2.2.2.2.2.2.2.2.1
      ⟨"primary", [("index", Value.str "users_id_primary"), ("algorithm", Value.str ""),
        ("columns", Value.strs ["id"])]⟩ (by decide)⟩

/-! ## Columns made by the builders and the mutators -/

theorem wellTyped_set (c : Column) (key : String) (v : Value) (h : WellTyped c)
    (hlength : key ≠ ColumnAttrLength) (htotal : key ≠ ColumnAttrTotal)
    (hplaces : key ≠ ColumnAttrPlaces) (hallowed : key ≠ ColumnAttrAllowed)
    (hcharset : key = ColumnAttrCharset → ∃ s, v = Value.str s)
    (hcollate : key = ColumnAttrCollate → ∃ s, v = Value.str s)
    (hnullable : key = ColumnAttrNullable → ∃ x, v = Value.bool x)
    (hcomment : key = ColumnAttrComment → ∃ s, v = Value.str s) :
    WellTyped { c with Attributes := c.Attributes.set key v } := by
  obtain ⟨h1, h2, h3, h4, h5, h6, h7⟩ := h
  have hread : ∀ (k : String) (hk : key = k → ∃ s, v = Value.str s),
      (∀ w, c.Attributes.get k = some w → ∃ s, w = Value.str s) →
      ∀ w, (c.Attributes.set key v).get k = some w → ∃ s, w = Value.str s := by
    intro k hk hold w hw
    by_cases e : k = key
    · subst e
      rw [Map.get_set_self] at hw
      obtain ⟨s, hs⟩ := hk rfl
      exact ⟨s, by rw [← Option.some.inj hw, hs]⟩
    · rw [Map.get_set_other _ _ _ _ e] at hw
      exact hold w hw
  refine ⟨?_, ?_, ?_, hread _ hcharset h4, hread _ hcollate h5, ?_, hread _ hcomment h7⟩
  · intro ht
    rw [Map.get_set_other _ _ _ _ (Ne.symm hlength)]
    exact h1 ht
  · intro ht
    rw [Map.get_set_other _ _ _ _ (Ne.symm htotal), Map.get_set_other _ _ _ _ (Ne.symm hplaces)]
    exact h2 ht
  · intro ht
    rw [Map.get_set_other _ _ _ _ (Ne.symm hallowed)]
    exact h3 ht
  · intro w hw
    by_cases e : ColumnAttrNullable = key
    · subst e
      rw [Map.get_set_self] at hw
      obtain ⟨x, hx⟩ := hnullable rfl
      exact ⟨x, by rw [← Option.some.inj hw, hx]⟩
    · rw [Map.get_set_other _ _ _ _ e] at hw
      exact h6 w hw

theorem wellTyped_apply (call : MutatorCall) (c : Column) (h : WellTyped c) :
    WellTyped (call.apply c) := by
  cases call with
  | comment text =>
    exact wellTyped_set c _ _ h (by decide) (by decide) (by decide) (by decide)
      (fun e => absurd e (by decide)) (fun e => absurd e (by decide))
      (fun e => absurd e (by decide)) (fun _ => ⟨text, rfl⟩)
  | default value =>
    exact wellTyped_set c _ _ h (by decide) (by decide) (by decide) (by decide)
      (fun e => absurd e (by decide)) (fun e => absurd e (by decide))
      (fun e => absurd e (by decide)) (fun e => absurd e (by decide))
  | nullable value =>
    exact wellTyped_set c _ _ h (by decide) (by decide) (by decide) (by decide)
      (fun e => absurd e (by decide)) (fun e => absurd e (by decide))
      (fun _ => ⟨varDef value true, rfl⟩) (fun e => absurd e (by decide))
  | primary =>
    exact wellTyped_set c _ _ h (by decide) (by decide) (by decide) (by decide)
      (fun e => absurd e (by decide)) (fun e => absurd e (by decide))
      (fun e => absurd e (by decide)) (fun e => absurd e (by decide))
  | unique =>
    exact wellTyped_set c _ _ h (by decide) (by decide) (by decide) (by decide)
      (fun e => absurd e (by decide)) (fun e => absurd e (by decide))
      (fun e => absurd e (by decide)) (fun e => absurd e (by decide))
  | index =>
    exact wellTyped_set c _ _ h (by decide) (by decide) (by decide) (by decide)
      (fun e => absurd e (by decide)) (fun e => absurd e (by decide))
      (fun e => absurd e (by decide)) (fun e => absurd e (by decide))
  | change =>
    exact wellTyped_set c _ _ h (by decide) (by decide) (by decide) (by decide)
      (fun e => absurd e (by decide)) (fun e => absurd e (by decide))
      (fun e => absurd e (by decide)) (fun e => absurd e (by decide))
  | charset name =>
    exact wellTyped_set c _ _ h (by decide) (by decide) (by decide) (by decide)
      (fun _ => ⟨name, rfl⟩) (fun e => absurd e (by decide))
      (fun e => absurd e (by decide)) (fun e => absurd e (by decide))
  | collation name =>
    exact wellTyped_set c _ _ h (by decide) (by decide) (by decide) (by decide)
      (fun e => absurd e (by decide)) (fun _ => ⟨name, rfl⟩)
      (fun e => absurd e (by decide)) (fun e => absurd e (by decide))

theorem wellTyped_foldl (chain : List MutatorCall) :
    ∀ c : Column, WellTyped c → WellTyped (chain.foldl (fun c call => call.apply c) c) := by
  induction chain with
  | nil => intro c h; exact h
  | cons call rest ih =>
    intro c h
    exact ih _ (wellTyped_apply call c h)

theorem wellTyped_of_attributes (ty name : String) (attrs : Map)
    (h1 : (ty = ColumnTypeChar ∨ ty = ColumnTypeVarchar) →
      ∃ n, attrs.get ColumnAttrLength = some (Value.int n))
    (h2 : (ty = ColumnTypeFloat ∨ ty = ColumnTypeDouble ∨ ty = ColumnTypeDecimal) →
      (∃ n, attrs.get ColumnAttrTotal = some (Value.int n))
      ∧ (∃ n, attrs.get ColumnAttrPlaces = some (Value.int n)))
    (h3 : (ty = ColumnTypeEnum ∨ ty = ColumnTypeSet) →
      ∃ l, attrs.get ColumnAttrAllowed = some (Value.strs l))
    (h4 : attrs.get ColumnAttrCharset = none) (h5 : attrs.get ColumnAttrCollate = none)
    (h6 : attrs.get ColumnAttrNullable = none) (h7 : attrs.get ColumnAttrComment = none) :
    WellTyped ⟨ty, name, attrs⟩ :=
  ⟨h1, h2, h3, fun v hv => by simp [h4] at hv, fun v hv => by simp [h5] at hv,
    fun v hv => by simp [h6] at hv, fun v hv => by simp [h7] at hv⟩

theorem wellTyped_run (call : BuilderCall) (b : Blueprint) : WellTyped (call.run b).2 := by
  cases call <;>
    first
    | exact wellTyped_of_attributes _ _ _
        (by first
          | exact fun _ => ⟨_, rfl⟩
          | exact fun h => absurd h (by decide))
        (by first
          | exact fun _ => ⟨⟨_, rfl⟩, ⟨_, rfl⟩⟩
          | exact fun h => absurd h (by decide))
        (by first
          | exact fun _ => ⟨_, rfl⟩
          | exact fun h => absurd h (by decide))
        rfl rfl rfl rfl
    | exact wellTyped_apply (MutatorCall.nullable []) _
        (wellTyped_of_attributes _ _ _ (fun h => absurd h (by decide))
          (fun h => absurd h (by decide)) (fun h => absurd h (by decide)) rfl rfl rfl rfl)

theorem GetType_isSome_of_wellTyped (c : Column) (h : WellTyped c) : (GetType c).isSome = true := by
  obtain ⟨h1, h2, h3, _⟩ := h
  unfold GetType
  by_cases e1 : c.Type_ = ColumnTypeChar
  · obtain ⟨n, hn⟩ := h1 (Or.inl e1)
    simp only [e1, if_true, hn, Option.isSome_some]
  rw [if_neg e1]
  by_cases e2 : c.Type_ = ColumnTypeVarchar
  · obtain ⟨n, hn⟩ := h1 (Or.inr e2)
    simp only [e2, if_true, hn, Option.isSome_some]
  rw [if_neg e2]
  by_cases e3 : inArray c.Type_ [ColumnTypeTinyText, ColumnTypeText, ColumnTypeMediumText,
      ColumnTypeLongText, ColumnTypeBigInt, ColumnTypeInt, ColumnTypeMediumInt,
      ColumnTypeTinyInt, ColumnTypeSmallInt, ColumnTypeJson, ColumnTypeDate,
      ColumnTypeDateTime, ColumnTypeTime, ColumnTypeTimestamp, ColumnTypeYear,
      ColumnTypeBinary, ColumnTypeBlob] = true
  · rw [if_pos e3]; rfl
  rw [if_neg e3]
  by_cases e4 : inArray c.Type_ [ColumnTypeFloat, ColumnTypeDouble, ColumnTypeDecimal] = true
  · have hmem := (inArray_eq_true_iff _ _).1 e4
    simp only [List.mem_cons, List.mem_singleton, List.not_mem_nil, or_false] at hmem
    obtain ⟨⟨t, ht⟩, ⟨p, hp⟩⟩ := h2 hmem
    rw [if_pos e4]
    simp only [ht, hp, Option.isSome_some]
  rw [if_neg e4]
  by_cases e5 : c.Type_ = ColumnTypeEnum
  · obtain ⟨l, hl⟩ := h3 (Or.inl e5)
    rw [if_pos e5]
    simp only [hl, Option.isSome_some]
  rw [if_neg e5]
  by_cases e6 : c.Type_ = ColumnTypeSet
  · obtain ⟨l, hl⟩ := h3 (Or.inr e6)
    rw [if_pos e6]
    simp only [hl, Option.isSome_some]
  rw [if_neg e6]
  split_ifs <;> rfl

theorem addModifiers_isSome_of_wellTyped (marshalStrings : List String → String) (sql : String)
    (b : Blueprint) (c : Column) (h : WellTyped c) :
    (addModifiers marshalStrings sql b c).isSome = true := by
  obtain ⟨_, _, _, h4, h5, h6, h7⟩ := h
  have hcs : ∃ s, charsetClause c = some s := by
    unfold charsetClause
    cases hg : c.Attributes.get ColumnAttrCharset with
    | none => exact ⟨_, rfl⟩
    | some v =>
      obtain ⟨s, rfl⟩ := h4 v hg
      exact ⟨_, rfl⟩
  have hco : ∃ s, collateClause c = some s := by
    unfold collateClause
    cases hg : c.Attributes.get ColumnAttrCollate with
    | none => exact ⟨_, rfl⟩
    | some v =>
      obtain ⟨s, rfl⟩ := h5 v hg
      exact ⟨_, rfl⟩
  have hnu : ∃ s, nullableClause c = some s := by
    unfold nullableClause
    cases hg : c.Attributes.get ColumnAttrNullable with
    | none => exact ⟨_, rfl⟩
    | some v =>
      obtain ⟨x, rfl⟩ := h6 v hg
      cases x <;> exact ⟨_, rfl⟩
  have hcm : ∃ s, commentClause c = some s := by
    unfold commentClause
    cases hg : c.Attributes.get ColumnAttrComment with
    | none => exact ⟨_, rfl⟩
    | some v =>
      obtain ⟨s, rfl⟩ := h7 v hg
      exact ⟨_, rfl⟩
  obtain ⟨cs, hcs⟩ := hcs
  obtain ⟨co, hco⟩ := hco
  obtain ⟨nu, hnu⟩ := hnu
  obtain ⟨cm, hcm⟩ := hcm
  rw [addModifiers_eq_clauses, hcs, hco, hnu, hcm]
  rfl

theorem dropLast_append_singleton {α : Type} (l : List α) (a : α) :
    (l ++ [a]).dropLast = l := by
  simp

/-- C29. A column created by one of the typed builders of the blueprint and then
modified by any chain of Column mutators is well typed: the attributes `GetType`
and `addModifiers` read with a type assertion are present with the asserted
type, or absent where absence is handled. On such a column neither `GetType`
nor `addModifiers` fails, and so its column definition is rendered. The two
columns `Timestamps` appends are such columns. -/
theorem built_columns_render (marshalStrings : List String → String) (b blueprint : Blueprint)
    (call : BuilderCall) (chain : List MutatorCall) (sql : String) :
    WellTyped (chain.foldl (fun c m => m.apply c) (call.run b).2)
    ∧ (GetType (chain.foldl (fun c m => m.apply c) (call.run b).2)).isSome = true
    ∧ (addModifiers marshalStrings sql blueprint
        (chain.foldl (fun c m => m.apply c) (call.run b).2)).isSome = true
    ∧ (columnDefinition marshalStrings blueprint
        (chain.foldl (fun c m => m.apply c) (call.run b).2)).isSome = true
    ∧ b.Timestamps.columns
      = b.columns ++ [(MutatorCall.nullable []).apply ((BuilderCall.timestamp "created_at").run b).2,
          (MutatorCall.nullable []).apply ((BuilderCall.timestamp "updated_at").run b).2] := by
  have hw : WellTyped (chain.foldl (fun c m => m.apply c) (call.run b).2) :=
    wellTyped_foldl chain _ (wellTyped_run call b)
  refine ⟨hw, GetType_isSome_of_wellTyped _ hw,
    addModifiers_isSome_of_wellTyped marshalStrings sql blueprint _ hw, ?_, ?_⟩
  · unfold columnDefinition
    cases hty : GetType (chain.foldl (fun c m => m.apply c) (call.run b).2) with
    | none =>
      have := GetType_isSome_of_wellTyped _ hw
      rw [hty] at this
      exact absurd this (by decide)
    | some ty =>
      simp only [Option.some_bind]
      exact addModifiers_isSome_of_wellTyped marshalStrings _ blueprint _ hw
  · have key : ∀ (l : List Column) (x y z : Column),
        (l ++ [x, y]).dropLast ++ [z] = l ++ [x, z] := by
      intro l x y z
      have e : l ++ [x, y] = (l ++ [x]) ++ [y] := by simp
      rw [e, dropLast_append_singleton]
      simp
    simp only [Blueprint.Timestamps, mutateReturned, Blueprint.Timestamp, Blueprint.AddColumn,
      dropLast_append_singleton, List.append_assoc, List.singleton_append, BuilderCall.run,
      MutatorCall.apply]
    exact key _ _ _ _

/-! ## Repeated compilation -/

theorem fluentMarker_mem (c : Column) (k : String) (h : fluentMarker c = some k) :
    (k = ColumnAttrPrimary ∨ k = ColumnAttrUnique ∨ k = ColumnAttrIndex)
    ∧ (c.Attributes.get k).isSome = true := by
  unfold fluentMarker at h
  split_ifs at h with h1 h2 h3
  · cases h; exact ⟨Or.inl rfl, h1⟩
  · cases h; exact ⟨Or.inr (Or.inl rfl), h2⟩
  · cases h; exact ⟨Or.inr (Or.inr rfl), h3⟩

theorem isSome_get_set (m : Map) (k j : String) (v : Value) (h : (m.get k).isSome = true) :
    ((m.set k v).get j).isSome = (m.get j).isSome := by
  by_cases e : j = k
  · subst e
    rw [Map.get_set_self, h]
    rfl
  · rw [Map.get_set_other _ _ _ _ e]

theorem overwriteMarker_spec (c : Column) :
    (overwriteMarker c).Type_ = c.Type_
    ∧ (overwriteMarker c).Name = c.Name
    ∧ (∀ k : String, k ≠ ColumnAttrPrimary → k ≠ ColumnAttrUnique → k ≠ ColumnAttrIndex →
        (overwriteMarker c).Attributes.get k = c.Attributes.get k)
    ∧ fluentMarker (overwriteMarker c) = fluentMarker c := by
  unfold overwriteMarker
  cases hm : fluentMarker c with
  | none => exact ⟨rfl, rfl, fun _ _ _ _ => rfl, hm⟩
  | some k =>
    obtain ⟨hk, hsome⟩ := fluentMarker_mem c k hm
    refine ⟨rfl, rfl, ?_, ?_⟩
    · intro j h1 h2 h3
      apply Map.get_set_other
      rcases hk with e | e | e <;> rw [e] <;> assumption
    · show fluentMarker { c with Attributes := c.Attributes.set k (Value.bool false) } = some k
      have hm2 := hm
      unfold fluentMarker at hm2 ⊢
      rw [isSome_get_set _ k ColumnAttrPrimary _ hsome,
        isSome_get_set _ k ColumnAttrUnique _ hsome, isSome_get_set _ k ColumnAttrIndex _ hsome]
      exact hm2

theorem markedForChange_overwriteMarker (c : Column) :
    markedForChange (overwriteMarker c) = markedForChange c := by
  unfold markedForChange
  rw [(overwriteMarker_spec c).2.2.1 ColumnAttrChange (by decide) (by decide) (by decide)]

theorem columnDefinition_overwriteMarker (marshalStrings : List String → String)
    (b1 b2 : Blueprint) (c : Column) :
    columnDefinition marshalStrings b1 (overwriteMarker c)
      = columnDefinition marshalStrings b2 c := by
  obtain ⟨hty, hname, hget, _⟩ := overwriteMarker_spec c
  have hlength := hget ColumnAttrLength (by decide) (by decide) (by decide)
  have htotal := hget ColumnAttrTotal (by decide) (by decide) (by decide)
  have hplaces := hget ColumnAttrPlaces (by decide) (by decide) (by decide)
  have hallowed := hget ColumnAttrAllowed (by decide) (by decide) (by decide)
  have hunsigned := hget ColumnAttrUnsigned (by decide) (by decide) (by decide)
  have hcharset := hget ColumnAttrCharset (by decide) (by decide) (by decide)
  have hcollate := hget ColumnAttrCollate (by decide) (by decide) (by decide)
  have hnullable := hget ColumnAttrNullable (by decide) (by decide) (by decide)
  have hdefault := hget ColumnAttrDefault (by decide) (by decide) (by decide)
  have hincrement := hget ColumnAttrAutoIncrement (by decide) (by decide) (by decide)
  have hcomment := hget ColumnAttrComment (by decide) (by decide) (by decide)
  have hGet : GetType (overwriteMarker c) = GetType c := by
    unfold GetType
    simp only [hty, hlength, htotal, hplaces, hallowed]
  unfold columnDefinition
  rw [hGet, hname]
  congr 1
  funext ty
  rw [addModifiers_eq_clauses, addModifiers_eq_clauses]
  simp only [charsetClause, collateClause, nullableClause, commentClause, unsignedClause,
    defaultClause, incrementClause, hty, hunsigned, hcharset, hcollate, hnullable, hdefault,
    hincrement, hcomment]

theorem GetColumns_overwriteMarker (marshalStrings : List String → String) (b : Blueprint)
    (commands : List Command) :
    GetColumns marshalStrings
        { b with commands := commands, columns := b.columns.map overwriteMarker }
      = GetColumns marshalStrings b := by
  unfold GetColumns
  rw [columnDefinitions_eq, columnDefinitions_eq, getAddedColumns_eq, getAddedColumns_eq]
  simp only [List.filter_map, List.map_map]
  congr 1
  have hf : ((fun c => !markedForChange c) ∘ overwriteMarker) = fun c => !markedForChange c := by
    funext c
    simp only [Function.comp, markedForChange_overwriteMarker]
  rw [hf]
  apply List.map_congr_left
  intro c _
  exact columnDefinition_overwriteMarker marshalStrings _ _ c

theorem GetChangeColumns_overwriteMarker (marshalStrings : List String → String)
    (b : Blueprint) (commands : List Command) :
    GetChangeColumns marshalStrings
        { b with commands := commands, columns := b.columns.map overwriteMarker }
      = GetChangeColumns marshalStrings b := by
  unfold GetChangeColumns
  rw [columnDefinitions_eq, columnDefinitions_eq, getChangedColumns_eq, getChangedColumns_eq]
  simp only [List.filter_map, List.map_map]
  congr 1
  have hf : (markedForChange ∘ overwriteMarker) = markedForChange := by
    funext c
    simp only [Function.comp, markedForChange_overwriteMarker]
  rw [hf]
  apply List.map_congr_left
  intro c _
  exact columnDefinition_overwriteMarker marshalStrings _ _ c

theorem Compile_overwriteMarker (marshalStrings : List String → String) (b : Blueprint)
    (commands : List Command) (command : Command) :
    Compile marshalStrings
        { b with commands := commands, columns := b.columns.map overwriteMarker } command
      = Compile marshalStrings b command := by
  have hG := GetColumns_overwriteMarker marshalStrings b commands
  have hC := GetChangeColumns_overwriteMarker marshalStrings b commands
  simp only [Compile, CompileCreate, CompileCreateTable, CompileCreateEncoding,
    CompileCreateEngine, CompileAdd, CompileChange, CompileRename,
    CompilePrimary, CompileKey, CompileUnique, CompileIndex, CompileDrop, CompileDropIfExists,
    CompileDropColumn, CompileDropPrimary, CompileDropUnique, CompileDropIndex,
    CompileTableComment, wrapTable, Blueprint.GetTable, hG, hC]

theorem implied_no_create (toLowerRune : Char → Char) (b : Blueprint) :
    (impliedAdd b ++ impliedChange b ++ fluentCommands toLowerRune b).any
        (fun command => decide (command.Name = commandCreate)) = false := by
  rw [List.any_eq_false]
  intro c hc
  simp only [List.mem_append] at hc
  have hname : c.Name ≠ commandCreate := by
    rcases hc with (hc | hc) | hc
    · unfold impliedAdd at hc
      split_ifs at hc
      · simp only [List.mem_singleton] at hc
        rw [hc]; decide
      · simp at hc
    · unfold impliedChange at hc
      split_ifs at hc
      · simp only [List.mem_singleton] at hc
        rw [hc]; decide
      · simp at hc
    · rcases fluentCommands_names toLowerRune b c hc with h | h | h <;> rw [h] <;> decide
  simpa using hname

theorem derived_implied_eq (toLowerRune : Char → Char) (b : Blueprint) :
    impliedAdd (b.addImpliedCommands toLowerRune) = impliedAdd b
    ∧ impliedChange (b.addImpliedCommands toLowerRune) = impliedChange b
    ∧ fluentCommands toLowerRune (b.addImpliedCommands toLowerRune)
      = fluentCommands toLowerRune b := by
  have hcreating : (b.addImpliedCommands toLowerRune).creating = b.creating := by
    rw [addImpliedCommands_eq]
    unfold Blueprint.creating
    simp only [List.append_assoc]
    rw [List.any_append]
    have := implied_no_create toLowerRune b
    simp only [List.append_assoc] at this
    rw [this, Bool.or_false]
  have hcolumns : (b.addImpliedCommands toLowerRune).columns = b.columns.map overwriteMarker := by
    rw [addImpliedCommands_eq]
  have hany1 : (b.columns.map overwriteMarker).any (fun c => !markedForChange c)
      = b.columns.any (fun c => !markedForChange c) := by
    rw [List.any_map]
    congr 1
    funext c
    simp only [Function.comp, markedForChange_overwriteMarker]
  have hany2 : (b.columns.map overwriteMarker).any markedForChange
      = b.columns.any markedForChange := by
    rw [List.any_map]
    congr 1
    funext c
    simp only [Function.comp, markedForChange_overwriteMarker]
  refine ⟨?_, ?_, ?_⟩
  · unfold impliedAdd
    rw [hcreating, hcolumns, hany1]
  · unfold impliedChange
    rw [hcreating, hcolumns, hany2]
  · unfold fluentCommands
    rw [hcolumns, List.filterMap_map]
    apply List.filterMap_congr
    intro c _
    simp only [Function.comp, (overwriteMarker_spec c).2.2.2, (overwriteMarker_spec c).2.1]
    rw [addImpliedCommands_eq]
    rfl

theorem allReturn_snd_of_not_primary (marshalStrings : List String → String) (b : Blueprint)
    (commands : List Command) :
    ∀ rs : List (String × Command),
      allReturn (commands.map (Compile marshalStrings b)) = Outcome.returns rs →
      (∀ c ∈ commands, ucFirst c.Name ≠ "Primary") →
      rs.map Prod.snd = commands := by
  induction commands with
  | nil =>
    intro rs h _
    simp only [List.map_nil, allReturn, Outcome.returns.injEq] at h
    rw [← h]
    rfl
  | cons command rest ih =>
    intro rs h hnp
    simp only [List.map_cons] at h
    cases hc : Compile marshalStrings b command with
    | panics => simp [hc, allReturn] at h
    | overflows => simp [hc, allReturn] at h
    | returns r =>
      obtain ⟨statement, result⟩ := r
      rw [hc] at h
      simp only [allReturn] at h
      cases hrest : allReturn (rest.map (Compile marshalStrings b)) with
      | panics => simp [hrest] at h
      | overflows => simp [hrest] at h
      | returns rs2 =>
        rw [hrest] at h
        simp only [Outcome.map_returns, Outcome.returns.injEq] at h
        rw [← h]
        have e1 : result = command :=
          Compile_command_of_not_primary marshalStrings b command result statement hc
            (hnp command (List.mem_cons_self _ _))
        have e2 := ih rs2 hrest (fun c hmem => hnp c (List.mem_cons_of_mem _ hmem))
        simp only [List.map_cons, e1, e2]

theorem unique_append_of_subset {α : Type} [DecidableEq α] (xs ys : List α)
    (h : ∀ y ∈ ys, y ∈ xs) : unique (xs ++ ys) = unique xs := by
  rw [unique_append]
  have : (unique ys).filter (fun y => decide (y ∉ xs)) = [] := by
    rw [List.filter_eq_nil_iff]
    intro y hy
    rw [unique_eq_firstOccurrences, mem_firstOccurrences] at hy
    simpa using h y hy
  rw [this, List.append_nil]

/-- For a blueprint whose command sequence after derivation holds no primary
command, calling `ToSql` a second time, on the blueprint as the first call left
it, ends as the first call does, with the same statement list when it
returns. -/
theorem ToSql_repeatable (toLowerRune : Char → Char) (marshalStrings : List String → String)
    (b : Blueprint)
    (hnp : ∀ c ∈ (b.addImpliedCommands toLowerRune).commands, ucFirst c.Name ≠ "Primary") :
    (b.ToSql toLowerRune marshalStrings).bind
        (fun r => (r.2.ToSql toLowerRune marshalStrings).map Prod.fst)
      = (b.ToSql toLowerRune marshalStrings).map Prod.fst := by
  rw [ToSql_eq toLowerRune marshalStrings b]
  cases hrs : allReturn ((b.addImpliedCommands toLowerRune).commands.map
      (Compile marshalStrings (b.addImpliedCommands toLowerRune))) with
  | panics => rfl
  | overflows => rfl
  | returns rs =>
    simp only [Outcome.map_returns, Outcome.bind_returns]
    have hsnd : rs.map Prod.snd = (b.addImpliedCommands toLowerRune).commands :=
      allReturn_snd_of_not_primary marshalStrings _ _ rs hrs hnp
    have hsame : ({ b.addImpliedCommands toLowerRune with commands := rs.map Prod.snd }
        : Blueprint) = b.addImpliedCommands toLowerRune := by
      rw [hsnd]
    rw [hsame, ToSql_eq toLowerRune marshalStrings (b.addImpliedCommands toLowerRune)]
    obtain ⟨hadd, hchange, hfluent⟩ := derived_implied_eq toLowerRune b
    have hcmds2 : ((b.addImpliedCommands toLowerRune).addImpliedCommands toLowerRune).commands
        = (b.addImpliedCommands toLowerRune).commands
          ++ (impliedAdd b ++ impliedChange b ++ fluentCommands toLowerRune b) := by
      rw [addImpliedCommands_eq toLowerRune (b.addImpliedCommands toLowerRune), hadd, hchange,
        hfluent]
      simp only [List.append_assoc]
    have hcompile : ∀ command : Command,
        Compile marshalStrings
            ((b.addImpliedCommands toLowerRune).addImpliedCommands toLowerRune) command
          = Compile marshalStrings (b.addImpliedCommands toLowerRune) command := by
      intro command
      rw [addImpliedCommands_eq toLowerRune (b.addImpliedCommands toLowerRune)]
      exact Compile_overwriteMarker marshalStrings _ _ command
    have hfun : Compile marshalStrings
          ((b.addImpliedCommands toLowerRune).addImpliedCommands toLowerRune)
        = Compile marshalStrings (b.addImpliedCommands toLowerRune) := funext hcompile
    have hcmds1 : (b.addImpliedCommands toLowerRune).commands
        = b.commands ++ (impliedAdd b ++ impliedChange b ++ fluentCommands toLowerRune b) := by
      rw [addImpliedCommands_eq]
      simp only [List.append_assoc]
    rw [hcmds2, hfun, List.map_append, allReturn_append, hrs]
    simp only [Outcome.bind_returns]
    rw [hcmds1, List.map_append, allReturn_append] at hrs
    cases h0 : allReturn
        (b.commands.map (Compile marshalStrings (b.addImpliedCommands toLowerRune))) with
    | panics =>
      rw [h0] at hrs
      simp at hrs
    | overflows =>
      rw [h0] at hrs
      simp at hrs
    | returns rs0 =>
      rw [h0] at hrs
      simp only [Outcome.bind_returns] at hrs
      cases hI : allReturn
          ((impliedAdd b ++ impliedChange b ++ fluentCommands toLowerRune b).map
            (Compile marshalStrings (b.addImpliedCommands toLowerRune))) with
      | panics =>
        rw [hI] at hrs
        simp at hrs
      | overflows =>
        rw [hI] at hrs
        simp at hrs
      | returns rsI =>
        rw [hI] at hrs
        simp only [Outcome.map_returns, Outcome.returns.injEq] at hrs
        simp only [Outcome.map_returns, Outcome.returns.injEq, List.map_append]
        apply unique_append_of_subset
        intro y hy
        rw [← hrs, List.map_append, List.mem_append]
        exact Or.inr hy

/-- C26, at the failing input, the blueprint of the test `Column_Index`. The first
call of `ToSql` returns the four statements and leaves the primary command with
the empty name. The second call, on the blueprint as the first left it, does
not return: compiling that command, `Compile` finds itself as the method to
call and re-enters without bound. The same holds for the smallest such
blueprint, a table altered by the one call Primary("id"). At the blueprint of
the test `Column_Update_Delete`, which holds no primary command, both calls
return the drop and the modify statement. -/
theorem ToSql_twice_overflows :
    (exampleColumnIndex.ToSql Char.toLower (fun _ => "")).map Prod.fst
      = Outcome.returns [
        "create table `users` (`id` int unsigned not null, `account` varchar(50) not null, `name` varchar(30) not null, `age` int not null) default character set utf8mb4 collate 'utf8mb4_unicode_ci' engine = InnoDB",
        "alter table `users` add unique users_account_name_unique(`account`, `name`)",
        "alter table `users` add primary key users_id_primary(`id`)",
        "alter table `users` add index users_age_index(`age`)"]
    ∧ (exampleColumnIndex.ToSql Char.toLower (fun _ => "")).map
        (fun r => r.2.commands.map fun c => c.Name)
      = Outcome.returns ["create", "unique", "", "index"]
    ∧ (exampleColumnIndex.ToSql Char.toLower (fun _ => "")).bind
        (fun r => (r.2.ToSql Char.toLower (fun _ => "")).map Prod.fst)
      = Outcome.overflows
    ∧ (Blueprint.ToSql Char.toLower (fun _ => "")
        (Blueprint.Primary Char.toLower
          ⟨"", "", "", "", "users", [], [], ⟨"", "", "", "", "", 255⟩⟩
          (Value.str "id") [])).map Prod.fst
      = Outcome.returns ["alter table `users` add primary key users_id_primary(`id`)"]
    ∧ (Blueprint.ToSql Char.toLower (fun _ => "")
        (Blueprint.Primary Char.toLower
          ⟨"", "", "", "", "users", [], [], ⟨"", "", "", "", "", 255⟩⟩
          (Value.str "id") [])).bind
        (fun r => (r.2.ToSql Char.toLower (fun _ => "")).map Prod.fst)
      = Outcome.overflows
    ∧ (exampleUpdateDelete.ToSql Char.toLower (fun _ => "")).bind
        (fun r => (r.2.ToSql Char.toLower (fun _ => "")).map Prod.fst)
      = Outcome.returns [
        "alter table `users` drop `age`, drop `account`",
        "alter table `users` modify `name` varchar(30) not null default 'a' comment '姓名'"] := by
  decide

/-- C8, at the two different strings `a` and `b`: both are kept. -/
theorem unique_first_occurrences_witness : unique ["a", "b"] = ["a", "b"] :=
  (unique_first_occurrences []).2.2.2.2.2 "a" "b" (by decide)

/-! ## Columns marked for change in a blueprint being created -/

theorem fluentCommands_actedOn (toLowerRune : Char → Char) (b : Blueprint) :
    fluentCommands toLowerRune { b with columns := b.columns.filter actedOnWhenCreating }
      = fluentCommands toLowerRune b := by
  unfold fluentCommands
  show List.filterMap _ (b.columns.filter actedOnWhenCreating) = _
  rw [List.filterMap_filter]
  apply List.filterMap_congr
  intro c _
  cases hm : fluentMarker c with
  | none => simp
  | some k =>
    have hact : actedOnWhenCreating c = true := by simp [actedOnWhenCreating, hm]
    simp only [hact, if_true, Option.map_some']
    rfl

theorem addedColumns_actedOn (b : Blueprint) :
    ({ b with columns := b.columns.filter actedOnWhenCreating } : Blueprint).getAddedColumns
      = b.getAddedColumns := by
  rw [getAddedColumns_eq, getAddedColumns_eq]
  show List.filter _ (b.columns.filter actedOnWhenCreating) = _
  rw [List.filter_filter]
  apply List.filter_congr
  intro c _
  cases h : markedForChange c <;> simp [actedOnWhenCreating, h]

theorem GetColumns_of_added (marshalStrings : List String → String) (b : Blueprint)
    (columns : List Column)
    (hadded : ({ b with columns := columns } : Blueprint).getAddedColumns = b.getAddedColumns) :
    GetColumns marshalStrings { b with columns := columns } = GetColumns marshalStrings b := by
  unfold GetColumns
  rw [hadded, columnDefinitions_eq, columnDefinitions_eq]
  rfl

theorem Compile_of_added (marshalStrings : List String → String) (b : Blueprint)
    (columns : List Column) (command : Command)
    (hname : ucFirst command.Name ≠ "Change")
    (hadded : ({ b with columns := columns } : Blueprint).getAddedColumns = b.getAddedColumns) :
    Compile marshalStrings { b with columns := columns } command
      = Compile marshalStrings b command := by
  have hG := GetColumns_of_added marshalStrings b columns hadded
  simp only [Compile, hname, if_false, CompileCreate, CompileCreateTable, CompileCreateEncoding,
    CompileCreateEngine, CompileAdd, CompileRename,
    CompilePrimary, CompileKey, CompileUnique, CompileIndex, CompileDrop, CompileDropIfExists,
    CompileDropColumn, CompileDropPrimary, CompileDropUnique, CompileDropIndex,
    CompileTableComment, wrapTable, Blueprint.GetTable, hG]

theorem creating_commands (toLowerRune : Char → Char) (b : Blueprint)
    (hcreating : b.creating = true) :
    (b.addImpliedCommands toLowerRune).commands = b.commands ++ fluentCommands toLowerRune b := by
  rw [addImpliedCommands_eq]
  simp [impliedAdd, impliedChange, hcreating]

theorem ToSql_statements_eq (toLowerRune : Char → Char) (marshalStrings : List String → String)
    (b : Blueprint) :
    (b.ToSql toLowerRune marshalStrings).map Prod.fst
      = (allReturn
          ((b.addImpliedCommands toLowerRune).commands.map (Compile marshalStrings b))).map
          fun rs => unique (rs.map Prod.fst) := by
  rw [ToSql_eq]
  have hfun : Compile marshalStrings (b.addImpliedCommands toLowerRune)
      = Compile marshalStrings b := by
    funext command
    rw [addImpliedCommands_eq]
    exact Compile_overwriteMarker marshalStrings _ _ command
  rw [hfun, Outcome.map_map]
  rfl

/-- C31, amended. For a blueprint that holds a create command: derivation
appends the fluent index commands only, none of them an add or a change
command; the create-table clause lists the definitions of exactly the columns
not marked for change, in declaration order; and, when the blueprint holds no
change command, the statements `ToSql` returns are those of the blueprint
without its columns that are marked for change and carry no fluent index
marker. -/
theorem creating_skips_changed (toLowerRune : Char → Char)
    (marshalStrings : List String → String) (b : Blueprint) (hcreating : b.creating = true) :
    (b.addImpliedCommands toLowerRune).commands = b.commands ++ fluentCommands toLowerRune b
    ∧ (∀ command ∈ fluentCommands toLowerRune b,
        command.Name ≠ commandAdd ∧ command.Name ≠ commandChange
          ∧ ucFirst command.Name ≠ "Change")
    ∧ CompileCreateTable marshalStrings (b.addImpliedCommands toLowerRune)
      = (allSome ((b.columns.filter (fun c => !markedForChange c)).map
          (columnDefinition marshalStrings b))).map
        (fun defs =>
          "create table `" ++ (b.Prefix ++ b.table) ++ "`" ++ " (" ++ stringsJoin defs ", "
            ++ ")")
    ∧ ((∀ command ∈ b.commands, ucFirst command.Name ≠ "Change") →
        (b.ToSql toLowerRune marshalStrings).map Prod.fst
          = (Blueprint.ToSql toLowerRune marshalStrings
              { b with columns := b.columns.filter actedOnWhenCreating }).map Prod.fst) := by
  have hnames : ∀ command ∈ fluentCommands toLowerRune b,
      command.Name ≠ commandAdd ∧ command.Name ≠ commandChange
        ∧ ucFirst command.Name ≠ "Change" := by
    intro command hc
    rcases fluentCommands_names toLowerRune b command hc with h | h | h <;> rw [h] <;>
      refine ⟨?_, ?_, ?_⟩ <;> decide
  refine ⟨creating_commands toLowerRune b hcreating, hnames, ?_, ?_⟩
  · rw [addImpliedCommands_eq]
    unfold CompileCreateTable
    rw [GetColumns_overwriteMarker]
    unfold GetColumns
    rw [columnDefinitions_eq, getAddedColumns_eq]
    congr 1
    funext defs
    rw [trim_createTable]
    simp only [wrapTable, wrap, Blueprint.GetTable]
    have e0 : ("create" ++ " table " ++ "`" : String) = "create table `" := by decide
    simp only [← String.append_assoc, e0]
  · intro hheld
    have hcreating2 :
        ({ b with columns := b.columns.filter actedOnWhenCreating } : Blueprint).creating
          = true := hcreating
    rw [ToSql_statements_eq, ToSql_statements_eq, creating_commands toLowerRune b hcreating,
      creating_commands toLowerRune _ hcreating2, fluentCommands_actedOn]
    show _ = (allReturn ((b.commands ++ fluentCommands toLowerRune b).map _)).map _
    congr 2
    apply List.map_congr_left
    intro command hc
    symm
    apply Compile_of_added
    · rcases List.mem_append.1 hc with h | h
      · exact hheld command h
      · exact (hnames command h).2.2
    · exact addedColumns_actedOn b

/-- C31 amended, at the table `users` being created with the column `id` and
the column `name` marked for change without a fluent marker: the blueprint
holds a create command and no change command, and its one statement is that of
the blueprint with the column `id` alone. -/
theorem creating_skips_changed_witness :
    exampleCreateChange.creating = true
    ∧ (∀ command ∈ exampleCreateChange.commands, ucFirst command.Name ≠ "Change")
    ∧ (exampleCreateChange.ToSql Char.toLower (fun _ => "")).map Prod.fst
      = (Blueprint.ToSql Char.toLower (fun _ => "")
          { exampleCreateChange with
            columns := exampleCreateChange.columns.filter actedOnWhenCreating }).map Prod.fst
    ∧ exampleCreateChange.columns.filter actedOnWhenCreating
      = [⟨"int", "id", [("autoIncrement", Value.bool false), ("unsigned", Value.bool false)]⟩]
    ∧ (exampleCreateChange.ToSql Char.toLower (fun _ => "")).map Prod.fst
      = Outcome.returns ["create table `users` (`id` int not null) default character set utf8mb4 collate 'utf8mb4_unicode_ci' engine = InnoDB"] :=
  ⟨by decide, by decide,
   (creating_skips_changed Char.toLower (fun _ => "") exampleCreateChange (by decide)).2.2.2
     (by decide),
   by decide, by decide⟩

/-- C31, counterexample. The table `users` being created with the column `id`
and the column `name` marked for change and flagged as an index: the blueprint
holds a create command, the column `name` is left out of the create statement
and no change command is derived, yet the second statement compiled is the index
over `name`. The blueprint is the one the calls create, Int("id"),
Varchar("name", 30), Change() and Index() build. -/
theorem creating_changed_counterexample :
    exampleCreateChangeIndex.creating = true
    ∧ (exampleCreateChangeIndex.columns.map markedForChange) = [false, true]
    ∧ (exampleCreateChangeIndex.ToSql Char.toLower (fun _ => "")).map Prod.fst
      = Outcome.returns ["create table `users` (`id` int not null) default character set utf8mb4 collate 'utf8mb4_unicode_ci' engine = InnoDB",
          "alter table `users` add index users_name_index(`name`)"]
    ∧ exampleCreateChangeIndex
      = (mutateReturned (mutateReturned (Blueprint.Varchar (Blueprint.Int
          (NewBlueprint (NewSchema ⟨"", "", "InnoDB", "utf8mb4", "utf8mb4_unicode_ci", 255⟩)
            "users" []).create "id" []).1 "name" [30]) Column.Change) Column.Index).1 := by
  decide

/-! ## The flags of the integer builders -/

/-- C32. Each of the builders Int, TinyInt, SmallInt, MediumInt and BigInt
appends and returns a column of its type whose attributes are autoIncrement and
unsigned: both false when called without a flag, the flag and false when called
with one flag, the first and the second flag when called with two, and both
false when called with three flags or more, whatever the flags are. Reading
either attribute of that column gives the boolean stored. -/
theorem integer_builder_flags :
    ReadsFlags Blueprint.Int ColumnTypeInt
    ∧ ReadsFlags Blueprint.TinyInt ColumnTypeTinyInt
    ∧ ReadsFlags Blueprint.SmallInt ColumnTypeSmallInt
    ∧ ReadsFlags Blueprint.MediumInt ColumnTypeMediumInt
    ∧ ReadsFlags Blueprint.BigInt ColumnTypeBigInt
    ∧ (∀ (types column : String) (a u : Bool),
        (integerColumn types column a u).Attributes.get ColumnAttrAutoIncrement
          = some (Value.bool a)
        ∧ (integerColumn types column a u).Attributes.get ColumnAttrUnsigned
          = some (Value.bool u)) :=
  ⟨fun _ _ => ⟨rfl, fun _ => rfl, fun _ _ => rfl, fun _ _ _ _ => rfl⟩,
   fun _ _ => ⟨rfl, fun _ => rfl, fun _ _ => rfl, fun _ _ _ _ => rfl⟩,
   fun _ _ => ⟨rfl, fun _ => rfl, fun _ _ => rfl, fun _ _ _ _ => rfl⟩,
   fun _ _ => ⟨rfl, fun _ => rfl, fun _ _ => rfl, fun _ _ _ _ => rfl⟩,
   fun _ _ => ⟨rfl, fun _ => rfl, fun _ _ => rfl, fun _ _ _ _ => rfl⟩,
   fun _ _ _ _ => ⟨rfl, rfl⟩⟩

/-! ## The default mask of trim -/

/-- C33, at failing inputs. Called without a mask, `trim` strips the code
points of `DefaultCharset`, the string "utf8mb4", and no whitespace: the string
" a " comes back with both spaces, a string of a tab, "a" and a new line comes
back whole, the string "utf8" comes back empty, and "utf8 hello 4mb" comes back
as " hello "; stripping the whitespace characters gives "a", "a", "utf8" and
"utf8 hello 4mb". -/
theorem trim_default_mask_is_charset :
    (∀ s : String, trim s [] = stringsTrim s "utf8mb4")
    ∧ trim " a " [] = " a "
    ∧ stripWhitespace " a " = "a"
    ∧ trim "\ta\n" [] = "\ta\n"
    ∧ stripWhitespace "\ta\n" = "a"
    ∧ trim "utf8" [] = ""
    ∧ stripWhitespace "utf8" = "utf8"
    ∧ trim "utf8 hello 4mb" [] = " hello "
    ∧ stripWhitespace "utf8 hello 4mb" = "utf8 hello 4mb" := by
  refine ⟨fun _ => rfl, ?_, ?_, ?_, ?_, ?_, ?_, ?_, ?_⟩ <;> decide

end Schema
